import Mathlib

/-!
# psdparse: a shallow embedding of `main.c`

The C program walks a PSD file section by section.  The embedding keeps the
program's own structure and names:

* a `FILE` is the byte content of the stream together with the cursor and the
  end-of-file indicator; `fgetc`, `fread`, `fseek`, `ftell`, `feof` follow stdio;
* `int` and `unsigned` are 32 bits wide, `short` is 16 bits wide and `long` is
  64 bits wide; results of `int`/`unsigned` arithmetic are reduced explicitly
  (`wrapS 32`, `wrapU`), `long` values are integers (no `long` computation of the
  program can leave the 64-bit range on inputs of the sizes considered);
* the globals `nwarns` and `mergedalpha`, the stream and the messages written to
  `stderr` are threaded through the functions as one state record `St`;
* `fatal` (which calls `exit`) and reads through pointers that were never
  assigned are the two ways a run can stop early (`Halt`).

Informational output (`VERBOSE`, `UNQUIET`) never influences control flow and is
left out.
-/

namespace Psdparse

/-! ## Machine integers -/

/-- Value of an integer after conversion to a signed `w`-bit type (two's complement). -/
def wrapS (w : Nat) (x : Int) : Int := (x + 2 ^ (w - 1)) % 2 ^ w - 2 ^ (w - 1)

/-- Value of an integer after conversion to `unsigned` (32 bits). -/
def wrapU (x : Int) : Nat := (x % 2 ^ 32).toNat

/-! ## stdio -/

abbrev Byte := Fin 256

/-- A stdio stream opened for reading: content, cursor, end-of-file indicator. -/
structure FILE where
  data : List Byte
  pos : Nat
  eof : Bool
deriving DecidableEq, Repr

/-- `fgetc`: next byte as a non-negative `int`, or `EOF` (-1) with the indicator set. -/
def fgetc (f : FILE) : Int × FILE :=
  match f.data[f.pos]? with
  | some b => ((b.val : Int), { f with pos := f.pos + 1 })
  | none => (-1, { f with eof := true })

/-- `fread(buf,1,n,f)`: the bytes obtained (at most `n`); a short read sets the indicator. -/
def fread (n : Nat) (f : FILE) : List Byte × FILE :=
  let got := (f.data.drop f.pos).take n
  (got, { f with pos := f.pos + got.length, eof := f.eof || decide (got.length < n) })

/-- `fseek(f,off,SEEK_CUR)`: fails (stream unchanged) when the target is negative,
otherwise moves the cursor (possibly beyond the end) and clears the indicator. -/
def fseekCur (f : FILE) (off : Int) : FILE :=
  if 0 ≤ (f.pos : Int) + off then { f with pos := ((f.pos : Int) + off).toNat, eof := false } else f

/-- `fseek(f,off,SEEK_SET)`. -/
def fseekSet (f : FILE) (off : Int) : FILE :=
  if 0 ≤ off then { f with pos := off.toNat, eof := false } else f

/-- `ftell`. -/
def ftell (f : FILE) : Int := (f.pos : Int)

/-- `feof`. -/
def feof (f : FILE) : Bool := f.eof

/-! ## Big-endian readers (`get4B`, `get2B`, `get2Bu`) -/

/-- `get4B`: `n = fgetc(f)<<24; n |= fgetc(f)<<16; n |= fgetc(f)<<8; return n | fgetc(f)`.
Every operand is an `int`, so the result is the signed reading of the 32-bit pattern. -/
def get4B (f : FILE) : Int × FILE :=
  let (c1, f1) := fgetc f
  let (c2, f2) := fgetc f1
  let (c3, f3) := fgetc f2
  let (c4, f4) := fgetc f3
  (wrapS 32 ((wrapU (c1 * 2 ^ 24) ||| wrapU (c2 * 2 ^ 16) ||| wrapU (c3 * 2 ^ 8) ||| wrapU c4 : Nat) : Int), f4)

/-- `get2Bu`: `unsigned n = fgetc(f)<<8; return n |= fgetc(f)`. -/
def get2Bu (f : FILE) : Nat × FILE :=
  let (c1, f1) := fgetc f
  let (c2, f2) := fgetc f1
  (wrapU (c1 * 2 ^ 8) ||| wrapU c2, f2)

/-- `get2B`: `return n < 0x8000 ? n : n - 0x10000` computed in `unsigned`, returned as `int`. -/
def get2B (f : FILE) : Int × FILE :=
  let (n, f2) := get2Bu f
  (wrapS 32 (if n < 0x8000 then (n : Int) else (wrapU ((n : Int) - 0x10000) : Int)), f2)

/-! ## Messages and program state -/

/-- Messages written to `stderr` by `warn`, `alwayswarn` and `main`. -/
inductive Msg
  | furtherSuppressed
  | channelTooShort (chlen : Int)
  | badCompressionType (comp : Nat)
  | guessing (comp : Nat)
  | skippingChannel (chlen : Int)
  | tooShortForRLECounts (need : Int) (have_ : Int)
  | badRLECount (n : Nat) (j : Nat)
  | couldntReadRLERow
  | couldntReadRawRow
  | currentposShouldBe (cur : Int) (should : Int)
  | notWriting (ch : Int)
  | unlikelyNumberOfLayers
  | tryingToSkipLayer
  | unexpectedChannelId (chid : Int)
  | skippedAtEndOfMisc (skip : Int)
  | resourcesOverran (by_ : Int)
  | headerNotRight
  | couldntReadHeader
  | couldntOpen
deriving DecidableEq, Repr

/-- The two messages of `fatal`. -/
inductive FatalMsg
  | cantGetMemory
  | couldntReadRLECounts
deriving DecidableEq, Repr

/-- Ways a run stops before the function returns: `fatal` (message, then `exit`), or a
read of memory that was never assigned (an array behind a pointer left as `malloc`
returned it, a member of a record never filled in). -/
inductive Halt
  | fatal (msg : FatalMsg)
  | undefinedRead
deriving DecidableEq, Repr

/-- One call of the image writer: `pngsetupwrite(f,dir,name,cols,rows,channels,color_type,h)`
followed, when it yields a file, by `pngwriteimage(png,f,chcomp,li,rowpos,startchan,channels,...)`.
Modelled from the spec: the writer is an external collaborator (its code is not in
`main.c`) that consumes the row-position table; it is taken to leave the cursor of the
input stream where it found it, so a call is only recorded. -/
structure PngCall where
  startchan : Int
  channels : Int
  color_type : Int
  rows : Int
  cols : Int
deriving DecidableEq, Repr

/-- The stream together with the globals the parser updates. -/
structure St where
  f : FILE
  nwarns : Int
  mergedalpha : Int
  err : List Msg
  png : List PngCall
deriving DecidableEq, Repr

def WARNLIMIT : Int := 10
def CONTEXTROWS : Int := 3

/-- `warn`: counts every call, prints only the first `WARNLIMIT` of them. -/
def warn (s : St) (m : Msg) : St :=
  let s1 := if s.nwarns = WARNLIMIT then { s with err := s.err ++ [Msg.furtherSuppressed] } else s
  let s2 := { s1 with nwarns := s1.nwarns + 1 }
  if s2.nwarns ≤ WARNLIMIT then { s2 with err := s2.err ++ [m] } else s2

/-- `alwayswarn`. -/
def alwayswarn (s : St) (m : Msg) : St := { s with err := s.err ++ [m] }

/-- `checkmalloc(long n)`: a request that is negative as a `long` exceeds every address
space once converted to `size_t`, so `malloc` fails and `fatal` is called; other
requests are taken to succeed. -/
def checkmalloc (n : Int) : Except Halt Unit :=
  if n < 0 then .error (.fatal .cantGetMemory) else .ok ()

/-- `skipblock`: read a 4-byte length and seek over that many bytes when it is non-zero. -/
def skipblock (f : FILE) : FILE :=
  let r := get4B f
  if r.1 ≠ 0 then fseekCur r.2 r.1 else r.2

/-! ## Declarations of `psdparse.h` used by `main.c` -/

def RAWDATA : Nat := 0
def RLECOMP : Nat := 1

/-- Modelled from the spec: the `PAD2` macro of `psdparse.h`
rounds its argument up to an even number ("2-byte-aligned payload"). -/
def PAD2 (x : Int) : Int := (x + 1) / 2 * 2

/-- Modelled from the spec: the `PAD4` macro of `psdparse.h`
rounds its argument up to a multiple of four ("padded to a 4-byte boundary"). -/
def PAD4 (x : Int) : Int := (x + 3) / 4 * 4

/-- Conversion of the `unsigned` result of `get2Bu` at the assignment to a structure
field (`h.version`, `h.channels`, `h.depth`, `h.mode`, `linfo[i].channels`).  The
structures are declared in `psdparse.h`, which is not part of `main.c`, so the
width of these fields is a parameter: `short` when `short16` holds, `int` otherwise. -/
def toField (short16 : Bool) (v : Nat) : Int :=
  if short16 then wrapS 16 (v : Int) else wrapS 32 (v : Int)

/-- Value of an integer converted to `size_t` (64 bits). -/
def sizeT (x : Int) : Nat := (x % 2 ^ 64).toNat

/-- Fields of `struct psd_header` as assigned in `main`. -/
structure psd_header where
  sig : List Byte
  version : Int
  channels : Int
  rows : Int
  cols : Int
  depth : Int
  mode : Int
  colormodepos : Int
deriving DecidableEq, Repr

/-- Fields of `struct layer_mask_info` assigned in `dolayermaskinfo` when the mask
size is non-zero. -/
structure layer_mask_info where
  top : Int
  left : Int
  bottom : Int
  right : Int
  default_colour : Int
  flags : Int
  rows : Int
  cols : Int
deriving DecidableEq, Repr

/-- Fields of `struct layer_info`.  The array of records comes from `malloc`, so a
member that `dolayermaskinfo` never assigns is `none`: `chlengths`, `chid` and
`chindex` of a skipped layer, and the mask geometry when the mask size is zero.
`chindex` is indexed from -2: the entry of channel id `c` is at position `c + 2`. -/
structure layer_info where
  top : Int
  left : Int
  bottom : Int
  right : Int
  channels : Int
  chlengths : Option (List Int)
  chid : Option (List Int)
  chindex : Option (List Int)
  masksize : Option Int
  mask : Option layer_mask_info
deriving DecidableEq, Repr

/-- Options set from the command line. -/
structure Opts where
  writepng : Bool
  splitchannels : Bool
deriving DecidableEq, Repr

/-! ## `dochannel` -/

/-- Result of the inner loop over the RLE counts of one channel. -/
structure RleRows where
  counts : List Nat
  starts : List Int
  f : FILE
  pos : Int
  unread : Nat
deriving DecidableEq, Repr

/-- Lines 196-197: `if(count > 2*rb) count = last;`, the product taken in `unsigned`. -/
def clampCount (rb last count : Nat) : Nat :=
  if count > (2 * rb) % 2 ^ 32 then last else count

/-- Inner loop of the count accumulation (lines 194-202),
`for( j = 0 ; j < rows && !feof(f) ; ++j, ++k )`, with `n` the rows still to do:
the counts stored in `rlebuf`, the row starts stored in `rowpos[ch]`, the stream,
the running `pos`, and `rows - j` at the exit of the loop. -/
def rleRowLoop (rb : Nat) : Nat → FILE → Nat → Int → RleRows
  | 0, f, _, pos => { counts := [], starts := [], f := f, pos := pos, unread := 0 }
  | n + 1, f, last, pos =>
    if feof f then { counts := [], starts := [], f := f, pos := pos, unread := n + 1 }
    else
      let (c, f1) := get2Bu f
      let count := clampCount rb last c
      let r := rleRowLoop rb n f1 count (pos + (count : Int))
      { r with counts := count :: r.counts, starts := pos :: r.starts }

/-- Result of the count accumulation over all channels. -/
structure RleTable where
  rlebuf : List Nat
  rowpos : List (List Int)
  f : FILE
  pos : Int
deriving DecidableEq, Repr

/-- Outer loop of the count accumulation (lines 192-206) over the `c` channels still
to do: each channel starts with `last = rb`, stores the end of its last row after its
row starts, and calls `fatal` when its inner loop stopped early. -/
def rleChannelLoop (rb rows : Nat) : Nat → FILE → Int → Except Halt RleTable
  | 0, f, pos => .ok { rlebuf := [], rowpos := [], f := f, pos := pos }
  | c + 1, f, pos =>
    let r := rleRowLoop rb rows f rb pos
    if 0 < r.unread then .error (.fatal .couldntReadRLECounts)
    else
      match rleChannelLoop rb rows c r.f r.pos with
      | .error e => .error e
      | .ok t => .ok { t with rlebuf := r.counts ++ t.rlebuf, rowpos := (r.starts ++ [r.pos]) :: t.rowpos }

/-- Row starts of one uncompressed channel (lines 210-213): `n` rows of `rb` bytes. -/
def rawRowLoop (rb : Nat) : Nat → Int → List Int × Int
  | 0, pos => ([], pos)
  | n + 1, pos =>
    let r := rawRowLoop rb n (pos + (rb : Int))
    (pos :: r.1, r.2)

/-- Row-position table of uncompressed channels (lines 209-215). -/
def rawChannelLoop (rb rows : Nat) : Nat → Int → List (List Int)
  | 0, _ => []
  | c + 1, pos =>
    let r := rawRowLoop rb rows pos
    (r.1 ++ [r.2]) :: rawChannelLoop rb rows c r.2

/-- Body of the row loop of the dump phase (lines 231-258) for row `j`, with `k` the
index into `rlebuf` (always below its length: the count accumulation stored one entry
per row of every channel or called `fatal`). -/
def dumpRow (comp rb : Nat) (rlebuf : List Nat) (j k : Nat) (s : St) : St :=
  if comp = RLECOMP then
    let n := rlebuf.getD k 0
    let s1 := if n > (2 * rb) % 2 ^ 32 then warn s (.badRLECount n j) else s
    let n1 := if n > (2 * rb) % 2 ^ 32 then (2 * rb) % 2 ^ 32 else n
    let r := fread n1 s1.f
    if r.1.length = n1 then { s1 with f := r.2 } else warn { s1 with f := r.2 } .couldntReadRLERow
  else if comp = RAWDATA then
    let r := fread rb s.f
    if r.1.length = rb then { s with f := r.2 } else warn { s with f := r.2 } .couldntReadRawRow
  else s

/-- Row loop of the dump phase (line 223) over the `n` rows still to do; returns the
index into `rlebuf` and the state. -/
def dumpRowLoop (comp rb : Nat) (rlebuf : List Nat) : Nat → Nat → Nat → St → Nat × St
  | 0, _, k, s => (k, s)
  | n + 1, j, k, s =>
    dumpRowLoop comp rb rlebuf n (j + 1) (if comp = RLECOMP then k + 1 else k)
      (dumpRow comp rb rlebuf j k s)

/-- Channel loop of the dump phase (line 218) over the `c` channels still to do. -/
def dumpChannelLoop (comp rb rows : Nat) (rlebuf : List Nat) : Nat → Nat → St → St
  | 0, _, s => s
  | c + 1, k, s =>
    let r := dumpRowLoop comp rb rlebuf rows 0 k s
    dumpChannelLoop comp rb rows rlebuf c r.1 r.2

/-- What `dochannel` leaves behind: its return value, the entries it stored in the
row-position table (one list per channel, in the order of their indices), the counts
it stored in `rlebuf` (kept here so that properties of the table can be stated; the
program frees the buffer before returning), the state. -/
structure ChanResult where
  comp : Int
  rowpos : List (List Int)
  rlebuf : List Nat
  st : St
deriving DecidableEq, Repr

/-- The row byte count `rb = (cols*depth + 7)/8`: `int` arithmetic, stored in an `unsigned`. -/
def rowBytes (cols depth : Int) : Nat := wrapU ((wrapS 32 (cols * depth + 7)).tdiv 8)

/-- Lines 264-267: `if(li && ftell(f) != (chpos+2+chlen)){ alwayswarn(...); fseek(f,chpos+2+chlen,SEEK_SET); }`,
with `target` the value of `chpos+2+chlen`. -/
def resync (hasli : Bool) (target : Int) (s : St) : St :=
  if hasli = true ∧ ftell s.f ≠ target then
    let s1 := alwayswarn s (.currentposShouldBe (ftell s.f) target)
    { s1 with f := fseekSet s1.f target }
  else s

/-- Lines 218-272: the dump of the rows, the repositioning, the return value. -/
def dochannelFinish (hasli : Bool) (target : Int) (comp rb : Nat) (channels rows : Int)
    (rlebuf : List Nat) (table : List (List Int)) (s : St) : ChanResult :=
  { comp := (comp : Int), rowpos := table, rlebuf := rlebuf,
    st := resync hasli target (dumpChannelLoop comp rb rows.toNat rlebuf channels.toNat 0 s) }

/-- Lines 167-178: the compression in force after the tag `comp0` was read, for a
channel that is not skipped: a tag above `RLECOMP` is replaced by a guess from the
channel byte count, `chlen == (long)rows*(long)rb ? RAWDATA : RLECOMP`. -/
def guessComp (comp0 : Nat) (chlen rows : Int) (rb : Nat) : Nat :=
  if comp0 > RLECOMP then (if chlen = rows * (rb : Int) then RAWDATA else RLECOMP) else comp0

/-- Lines 168-171: the two messages about a bad compression tag that is replaced by a guess. -/
def noteGuess (comp0 comp : Nat) (s : St) : St :=
  if comp0 > RLECOMP then alwayswarn (alwayswarn s (.badCompressionType comp0)) (.guessing comp)
  else s

/-- Lines 186-187: the message about a channel too short for its RLE row counts. -/
def noteShort (hasli : Bool) (chlen rlecounts : Int) (s : St) : St :=
  if hasli = true ∧ chlen < rlecounts then alwayswarn s (.tooShortForRLECounts rlecounts chlen)
  else s

/-- Lines 163-272 of `dochannel`, from the computation of `rb` on: `chpos` is the
cursor at entry, `chlen0` the declared length (0 without a layer), `hasli` whether a
layer was given, `rows` and `cols` the geometry in force. -/
def dochannelBody (s : St) (hasli : Bool) (chpos chlen0 : Int) (channels rows cols depth : Int) :
    Except Halt ChanResult :=
  let rb := rowBytes cols depth
  let r0 := get2Bu s.f
  let comp0 := r0.1
  let s1 := { s with f := r0.2 }
  let chlen := chlen0 - 2
  if comp0 > RLECOMP ∧ hasli = false then
    let s2 := alwayswarn (alwayswarn s1 (.badCompressionType comp0)) (.skippingChannel chlen)
    .ok { comp := -1, rowpos := [], rlebuf := [], st := { s2 with f := fseekCur s2.f chlen } }
  else
    let comp := guessComp comp0 chlen rows rb
    let s2 := noteGuess comp0 comp s1
    match checkmalloc (((rb * 2) % 2 ^ 32 : Nat) : Int) with
    | .error e => .error e
    | .ok _ =>
      let pos := ftell s2.f
      if comp = RLECOMP then
        let rlecounts := wrapS 32 (2 * channels * rows)
        let s3 := noteShort hasli chlen rlecounts s2
        match checkmalloc (wrapS 64 (wrapS 32 (channels * rows) * 4)) with
        | .error e => .error e
        | .ok _ =>
          match rleChannelLoop rb rows.toNat channels.toNat s3.f (pos + rlecounts) with
          | .error e => .error e
          | .ok t =>
            .ok (dochannelFinish hasli (chpos + 2 + chlen) comp rb channels rows t.rlebuf t.rowpos
                  { s3 with f := t.f })
      else
        .ok (dochannelFinish hasli (chpos + 2 + chlen) comp rb channels rows []
              (rawChannelLoop rb rows.toNat channels.toNat pos) s2)

/-- Line 142: `chlen = li->chlengths[idx]`. -/
def chlenOf (l : layer_info) (idx : Nat) : Except Halt Int :=
  match l.chlengths with
  | none => .error .undefinedRead
  | some lens =>
    match lens[idx]? with
    | none => .error .undefinedRead
    | some chlen => .ok chlen

/-- Lines 156-161: a layer mask channel (`li->chid[idx] == -2`) takes its rows and
columns from the mask; `(rows, cols)` in force afterwards. -/
def channelGeometry (l : layer_info) (idx : Nat) (rows cols : Int) : Except Halt (Int × Int) :=
  match l.chid with
  | none => .error .undefinedRead
  | some ids =>
    match ids[idx]? with
    | none => .error .undefinedRead
    | some id =>
      if id = -2 then
        match l.mask with
        | none => .error .undefinedRead
        | some m => .ok (wrapS 32 m.rows, wrapS 32 m.cols)
      else .ok (rows, cols)

/-- `dochannel(f, li, idx, channels, rows, cols, depth, rowpos)`; every caller passes
a table, so the `if(rowpos)` tests are taken. -/
def dochannel (s : St) (li : Option layer_info) (idx : Nat) (channels rows cols depth : Int) :
    Except Halt ChanResult :=
  let chpos := ftell s.f
  match li with
  | none => dochannelBody s false chpos 0 channels rows cols depth
  | some l =>
    match chlenOf l idx with
    | .error e => .error e
    | .ok chlen =>
      if chlen < 2 then
        let s1 := alwayswarn s (.channelTooShort chlen)
        .ok { comp := -1, rowpos := [], rlebuf := [],
              st := if chlen > 0 then { s1 with f := fseekCur s1.f chlen } else s1 }
      else
        match channelGeometry l idx rows cols with
        | .error e => .error e
        | .ok g => dochannelBody s true chpos chlen channels g.1 g.2 depth

/-! ## Image resources (`doirb`, `doimageresources`) -/

/-- `doirb`: one image resource block; returns the total bytes in the block. -/
def doirb (f : FILE) : Int × FILE :=
  let f1 := (fread 4 f).2
  let f2 := (get2B f1).2
  let namelen := (fgetc f2).1
  let f3 := (fgetc f2).2
  let f4 := (fread (sizeT (PAD2 (1 + namelen) - 1)) f3).2
  let size := (get4B f4).1
  let f5 := (get4B f4).2
  let f6 := fseekCur f5 (PAD2 size)
  (4 + 2 + PAD2 (1 + namelen) + 4 + PAD2 size, f6)

/-- The loop `while(len>0) len -= doirb(f);` run for at most `fuel` blocks:
`none` when the loop is still running after `fuel` blocks. -/
def resourceLoop : Nat → Int → FILE → Option (Int × FILE)
  | 0, len, f => if len > 0 then none else some (len, f)
  | fuel + 1, len, f =>
    if len > 0 then
      let r := doirb f
      resourceLoop fuel (len - r.1) r.2
    else some (len, f)

/-- `doimageresources`, with the fuel of its loop. -/
def doimageresources (fuel : Nat) (s : St) : Option St :=
  match resourceLoop fuel (get4B s.f).1 (get4B s.f).2 with
  | none => none
  | some r =>
    let s1 := { s with f := r.2 }
    some (if r.1 ≠ 0 then warn s1 (.resourcesOverran (-r.1)) else s1)

/-! ## Images (`writechannels`, `doimage`) -/

def PNG_COLOR_TYPE_GRAY : Int := 0
def PNG_COLOR_TYPE_RGB : Int := 2
def PNG_COLOR_TYPE_PALETTE : Int := 3
def PNG_COLOR_TYPE_GRAY_ALPHA : Int := 4
def PNG_COLOR_TYPE_RGB_ALPHA : Int := 6

/-- Modelled from the spec: the colour mode enumeration of `psdparse.h` (bitmap,
grayscale, indexed, RGB, duotone and the 16-bit variants of grayscale, RGB and
duotone), with the numbering of the PSD header field. -/
def ModeBitmap : Int := 0
def ModeGrayScale : Int := 1
def ModeIndexedColor : Int := 2
def ModeRGBColor : Int := 3
def ModeDuotone : Int := 8
def ModeGray16 : Int := 10
def ModeRGB48 : Int := 11
def ModeDuotone16 : Int := 15

/-- The member `li->chid[ch]`. -/
def chidAt (l : layer_info) (ch : Nat) : Except Halt Int :=
  match l.chid with
  | none => .error .undefinedRead
  | some ids =>
    match ids[ch]? with
    | none => .error .undefinedRead
    | some id => .ok id

/-- The member `li->mask`. -/
def maskOf (l : layer_info) : Except Halt layer_mask_info :=
  match l.mask with
  | none => .error .undefinedRead
  | some m => .ok m

/-- The loop of `writechannels` over the `n` channels still to do, `i` being the
loop index; `rows` and `cols` are the parameters, overwritten by a layer mask channel. -/
def writechannelsLoop (chcomp : List Int) (li : Option layer_info) (startchan : Int) :
    Nat → Nat → Int → Int → St → Except Halt St
  | 0, _, _, _, s => .ok s
  | n + 1, i, rows, cols, s =>
    let chE : Except Halt Int :=
      match li with
      | none => .ok (startchan + (i : Int))
      | some l => chidAt l (startchan + (i : Int)).toNat
    match chE with
    | .error e => .error e
    | .ok ch =>
      let dimsE : Except Halt (Int × Int) :=
        if ch = -2 then
          match li with
          | none => .error .undefinedRead
          | some l =>
            match maskOf l with
            | .error e => .error e
            | .ok m => .ok (wrapS 32 m.rows, wrapS 32 m.cols)
        else .ok (rows, cols)
      match dimsE with
      | .error e => .error e
      | .ok (rows1, cols1) =>
        match chcomp[i]? with
        | none => .error .undefinedRead
        | some c =>
          let s1 :=
            if c = -1 then alwayswarn s (.notWriting ch)
            else { s with png := s.png ++ [{ startchan := startchan + (i : Int), channels := 1,
                                             color_type := PNG_COLOR_TYPE_GRAY,
                                             rows := rows1, cols := cols1 }] }
          writechannelsLoop chcomp li startchan n (i + 1) rows1 cols1 s1

/-- `writechannels(f, dir, name, chcomp, li, rowpos, startchan, channels, rows, cols, h)`. -/
def writechannels (s : St) (chcomp : List Int) (li : Option layer_info)
    (startchan channels rows cols : Int) : Except Halt St :=
  writechannelsLoop chcomp li startchan channels.toNat 0 rows cols s

/-- The allocation loop of `doimage` (lines 314-318) over the `n` channels still to do. -/
def allocRowpos (li : Option layer_info) (rows : Int) : Nat → Nat → Except Halt Unit
  | 0, _ => .ok ()
  | n + 1, ch =>
    let chrowsE : Except Halt Int :=
      match li with
      | none => .ok rows
      | some l =>
        match chidAt l ch with
        | .error e => .error e
        | .ok id =>
          if id = -2 then
            match maskOf l with
            | .error e => .error e
            | .ok m => .ok (wrapS 32 m.rows)
          else .ok rows
    match chrowsE with
    | .error e => .error e
    | .ok chrows =>
      match checkmalloc (wrapS 64 (8 * wrapS 32 (chrows + 1))) with
      | .error e => .error e
      | .ok _ => allocRowpos li rows n (ch + 1)

/-- The test `li && li->chindex[-1] != -1`. -/
def hasTransparency (li : Option layer_info) : Except Halt Bool :=
  match li with
  | none => .ok false
  | some l =>
    match l.chindex with
    | none => .error .undefinedRead
    | some ci =>
      match ci[1]? with
      | none => .error .undefinedRead
      | some v => .ok (decide (v ≠ -1))

/-- The `switch(h->mode)` of `doimage` (lines 320-348): `(pngchan, color_type)`. -/
def colourModel (mode : Int) (li : Option layer_info) (channels mergedalpha : Int) :
    Except Halt (Int × Int) :=
  if mode = ModeBitmap ∨ mode = ModeGrayScale ∨ mode = ModeGray16 ∨ mode = ModeDuotone
      ∨ mode = ModeDuotone16 then
    match hasTransparency li with
    | .error e => .error e
    | .ok t =>
      if t = true ∨ (channels > 1 ∧ mergedalpha ≠ 0) then .ok (2, PNG_COLOR_TYPE_GRAY_ALPHA)
      else .ok (1, PNG_COLOR_TYPE_GRAY)
  else if mode = ModeIndexedColor then .ok (1, PNG_COLOR_TYPE_PALETTE)
  else if mode = ModeRGBColor ∨ mode = ModeRGB48 then
    match hasTransparency li with
    | .error e => .error e
    | .ok t =>
      if t = true ∨ (channels > 3 ∧ mergedalpha ≠ 0) then .ok (4, PNG_COLOR_TYPE_RGB_ALPHA)
      else .ok (3, PNG_COLOR_TYPE_RGB)
  else .ok (0, 0)

/-- The loop of `doimage` over the channels of a layer (lines 391-394), `n` channels
still to do: `chcomp[ch] = dochannel(f,li,ch,1,rows,cols,h->depth,rowpos+ch)`. -/
def layerChannelLoop (l : layer_info) (rows cols depth : Int) :
    Nat → Nat → St → Except Halt (List Int × St)
  | 0, _, s => .ok ([], s)
  | n + 1, ch, s =>
    match dochannel s (some l) ch 1 rows cols depth with
    | .error e => .error e
    | .ok r =>
      match layerChannelLoop l rows cols depth n (ch + 1) r.st with
      | .error e => .error e
      | .ok (cs, s1) => .ok (r.comp :: cs, s1)

/-- The loop over the extra channels of a layer (lines 401-404), `n` channels still to do. -/
def extraChannelLoop (chcomp : List Int) (l : layer_info) (pngchan rows cols : Int) :
    Nat → Nat → St → Except Halt St
  | 0, _, s => .ok s
  | n + 1, ch, s =>
    match chidAt l ch with
    | .error e => .error e
    | .ok id =>
      if id < -1 ∨ id > pngchan then
        match writechannels s chcomp (some l) (ch : Int) 1 rows cols with
        | .error e => .error e
        | .ok s1 => extraChannelLoop chcomp l pngchan rows cols n (ch + 1) s1
      else extraChannelLoop chcomp l pngchan rows cols n (ch + 1) s

/-- `doimage(f, li, name, channels, rows, cols, h)`. -/
def doimage (o : Opts) (h : psd_header) (s : St) (li : Option layer_info)
    (channels rows cols : Int) : Except Halt St :=
  match checkmalloc (wrapS 64 (4 * channels)) with
  | .error e => .error e
  | .ok _ =>
  match checkmalloc (wrapS 64 (8 * channels)) with
  | .error e => .error e
  | .ok _ =>
  match allocRowpos li rows channels.toNat 0 with
  | .error e => .error e
  | .ok _ =>
  match colourModel h.mode li channels s.mergedalpha with
  | .error e => .error e
  | .ok (pngchan, color_type) =>
    match li with
    | none =>
      match dochannel s none 0 channels rows cols h.depth with
      | .error e => .error e
      | .ok r =>
        let chcomp := List.replicate channels.toNat r.comp
        if o.writepng then
          let s1 := { r.st with nwarns := 0 }
          let packed : Bool := decide (pngchan ≠ 0) && !o.splitchannels
          let s2 :=
            if packed then
              { s1 with png := s1.png ++ [{ startchan := 0, channels := pngchan,
                                            color_type := color_type, rows := rows, cols := cols }] }
            else s1
          let startchan : Int := if packed then pngchan else 0
          if startchan < channels then
            writechannels s2 chcomp none startchan (channels - startchan) rows cols
          else .ok s2
        else .ok r.st
    | some l =>
      match layerChannelLoop l rows cols h.depth channels.toNat 0 s with
      | .error e => .error e
      | .ok (chcomp, s0) =>
        if o.writepng then
          let s1 := { s0 with nwarns := 0 }
          if pngchan ≠ 0 ∧ o.splitchannels = false then
            let s2 := { s1 with png := s1.png ++ [{ startchan := 0, channels := pngchan,
                                                    color_type := color_type, rows := rows,
                                                    cols := cols }] }
            extraChannelLoop chcomp l pngchan rows cols channels.toNat 0 s2
          else writechannels s1 chcomp (some l) 0 channels rows cols
        else .ok s0

/-! ## Layer and mask information (`dolayermaskinfo`) -/

/-- Lines 432-437: `nlayers = get2B(f); if(nlayers < 0){ nlayers = -nlayers; mergedalpha = 1; }`. -/
def readLayerCount (s : St) : Int × St :=
  let n := (get2B s.f).1
  let f1 := (get2B s.f).2
  if n < 0 then (wrapS 32 (-n), { s with f := f1, mergedalpha := 1 })
  else (n, { s with f := f1 })

/-- Result of the loop over the channel descriptors of a layer record. -/
structure ChannelInfo where
  chid : List Int
  chlengths : List Int
  chindex : List Int
  st : St
deriving DecidableEq, Repr

/-- Lines 476-495: the loop over the channel descriptors, `n` descriptors still to do,
`j` the loop index, `ci` the reverse index (entry of id `c` at position `c + 2`). -/
def readChannelInfo (channels : Int) : Nat → Nat → List Int → St → ChannelInfo
  | 0, _, ci, s => { chid := [], chlengths := [], chindex := ci, st := s }
  | n + 1, j, ci, s =>
    let chid := (get2B s.f).1
    let chlen := (get4B (get2B s.f).2).1
    let s1 := { s with f := (get4B (get2B s.f).2).2 }
    let inRange : Bool := decide (-2 ≤ chid ∧ chid < channels)
    let ci1 := if inRange then ci.set (chid + 2).toNat (j : Int) else ci
    let s2 := if inRange then s1 else warn s1 (.unexpectedChannelId chid)
    let r := readChannelInfo channels n (j + 1) ci1 s2
    { r with chid := chid :: r.chid, chlengths := chlen :: r.chlengths }

/-- Lines 463-465: the record failed the sanity check; seek over the channel
descriptors and the blend mode, then skip the extra data block. -/
def skipLayerRecord (s : St) (channels : Int) : St :=
  let s1 := alwayswarn s .tryingToSkipLayer
  let f1 := fseekCur s1.f (wrapS 32 (6 * channels + 12))
  { s1 with f := skipblock f1 }

/-- Lines 517-527: the layer mask data; the fields of the mask are assigned only when
its size is not zero. -/
def readLayerMask (masksize : Int) (f : FILE) : Option layer_mask_info × FILE :=
  if masksize ≠ 0 then
    let mtop := get4B f
    let mleft := get4B mtop.2
    let mbottom := get4B mleft.2
    let mright := get4B mbottom.2
    let colour := fgetc mright.2
    let flags := fgetc colour.2
    (some { top := mtop.1, left := mleft.1, bottom := mbottom.1, right := mright.1,
            default_colour := colour.1, flags := flags.1,
            rows := mbottom.1 - mtop.1, cols := mright.1 - mleft.1 },
     fseekCur flags.2 (masksize - 18))
  else (none, f)

/-- Lines 497-546: the blend mode, the extra data with the layer mask, the blending
ranges and the name, from the stream just after the channel descriptors: the mask size,
the mask, the outcome of the allocation of the name, and the stream after
`fseek(f,extrastart+extralen,SEEK_SET)`. -/
def readLayerExtra (f : FILE) : Int × Option layer_mask_info × Except Halt Unit × FILE :=
  let f1 := (fread 4 f).2
  let f2 := (fread 4 f1).2
  let f3 := (fgetc f2).2
  let f4 := (fgetc f3).2
  let f5 := (fgetc f4).2
  let f6 := (fgetc f5).2
  let extralen := (get4B f6).1
  let f7 := (get4B f6).2
  let extrastart := ftell f7
  let masksize := (get4B f7).1
  let f8 := (get4B f7).2
  let m := readLayerMask masksize f8
  let f10 := skipblock m.2
  let namelen := (fgetc f10).1
  let f11 := (fgetc f10).2
  let f12 := (fread (sizeT (PAD4 (1 + namelen))) f11).2
  (masksize, m.1, checkmalloc (PAD4 (1 + namelen)), fseekSet f12 (extrastart + extralen))

/-- The layer record assembled from the channel descriptors read at lines 476-493
and the extra data read at lines 495-546; the allocation of the layer name (line 541)
is the last point at which the record can fail. -/
def layerOf (top left bottom right channels : Int) (r : ChannelInfo)
    (x : Int × Option layer_mask_info × Except Halt Unit × FILE) :
    Except Halt (layer_info × St) :=
  match x.2.2.1 with
  | .error e => .error e
  | .ok _ =>
    .ok ({ top := top, left := left, bottom := bottom, right := right, channels := channels,
           chlengths := some r.chlengths, chid := some r.chid, chindex := some r.chindex,
           masksize := some x.1, mask := x.2.1 },
         { r.st with f := x.2.2.2 })

/-- Lines 468-546: the record passed the sanity check. -/
def parseLayerRecord (s : St) (top left bottom right channels : Int) :
    Except Halt (layer_info × St) :=
  match checkmalloc (wrapS 64 (channels * 8)) with
  | .error e => .error e
  | .ok _ =>
  match checkmalloc (wrapS 64 (channels * 4)) with
  | .error e => .error e
  | .ok _ =>
  match checkmalloc (wrapS 64 (wrapS 32 (channels + 2) * 4)) with
  | .error e => .error e
  | .ok _ =>
    let r := readChannelInfo channels channels.toNat 0 (List.replicate (channels + 2).toNat (-1)) s
    layerOf top left bottom right channels r (readLayerExtra r.st.f)

/-- The fixed fields at the start of a layer record (lines 451-455): the four
coordinates and the channel count. -/
structure LayerFixed where
  top : Int
  left : Int
  bottom : Int
  right : Int
  channels : Int
  f : FILE
deriving DecidableEq, Repr

/-- Lines 451-455. -/
def readLayerFixed (short16 : Bool) (f : FILE) : LayerFixed :=
  let top := get4B f
  let left := get4B top.2
  let bottom := get4B left.2
  let right := get4B bottom.2
  let n := get2Bu right.2
  { top := top.1, left := left.1, bottom := bottom.1, right := right.1,
    channels := toField short16 n.1, f := n.2 }

/-- Lines 451-547: one layer record. -/
def layerRecord (short16 : Bool) (s : St) : Except Halt (layer_info × St) :=
  let x := readLayerFixed short16 s.f
  let s1 := { s with f := x.f }
  if x.bottom < x.top ∨ x.right < x.left ∨ x.channels > 64 then
    .ok ({ top := x.top, left := x.left, bottom := x.bottom, right := x.right,
           channels := x.channels,
           chlengths := none, chid := none, chindex := none, masksize := none, mask := none },
         skipLayerRecord s1 x.channels)
  else parseLayerRecord s1 x.top x.left x.bottom x.right x.channels

/-- Lines 449-548: the loop over the layer records, `n` records still to do. -/
def layerRecordLoop (short16 : Bool) : Nat → St → Except Halt (List layer_info × St)
  | 0, s => .ok ([], s)
  | n + 1, s =>
    match layerRecord short16 s with
    | .error e => .error e
    | .ok (l, s1) =>
      match layerRecordLoop short16 n s1 with
      | .error e => .error e
      | .ok (ls, s2) => .ok (l :: ls, s2)

/-- Lines 552-562: the loop over the pixel data of the layers read before:
`doimage(f, linfo+i, name, linfo[i].channels, pixh, pixw, h)` for every `i`. -/
def layerImageLoop (o : Opts) (h : psd_header) : List layer_info → St → Except Halt St
  | [], s => .ok s
  | l :: ls, s =>
    match doimage o h s (some l) l.channels (wrapS 32 (l.bottom - l.top))
        (wrapS 32 (l.right - l.left)) with
    | .error e => .error e
    | .ok s1 => layerImageLoop o h ls s1

/-- Lines 568-575: skip the global layer mask info, then move to the declared end of
the section when the cursor is not there. -/
def finishMiscInfo (s : St) (miscstart misclen : Int) : St :=
  let f1 := skipblock s.f
  let skip := miscstart + misclen - ftell f1
  let s1 := { s with f := f1 }
  if skip ≠ 0 then
    let s2 := warn s1 (.skippedAtEndOfMisc skip)
    { s2 with f := fseekCur s2.f skip }
  else s1

/-- `dolayermaskinfo(f, h)`. -/
def dolayermaskinfo (short16 : Bool) (o : Opts) (h : psd_header) (s : St) : Except Halt St :=
  let misclen := (get4B s.f).1
  let f1 := (get4B s.f).2
  if misclen ≠ 0 then
    let miscstart := ftell f1
    let layerlen := (get4B f1).1
    let f2 := (get4B f1).2
    if layerlen ≠ 0 then
      let nlayers := (readLayerCount { s with f := f2 }).1
      let s1 := (readLayerCount { s with f := f2 }).2
      if wrapS 32 (nlayers * wrapS 32 (18 + 6 * h.channels)) > layerlen then
        .ok (alwayswarn s1 .unlikelyNumberOfLayers)
      else
        match layerRecordLoop short16 nlayers.toNat s1 with
        | .error e => .error e
        | .ok (linfo, s2) =>
          match layerImageLoop o h linfo s2 with
          | .error e => .error e
          | .ok s3 => .ok (finishMiscInfo s3 miscstart misclen)
    else .ok (finishMiscInfo { s with f := f2 } miscstart misclen)
  else .ok { s with f := f1 }

/-! ## `main` -/

/-- Lines 687-694 of `main`: the file header. -/
def readHeader (short16 : Bool) (f : FILE) : psd_header × FILE :=
  let (sig, f1) := fread 4 f
  let (version, f2) := get2Bu f1
  let f3 := (get4B f2).2
  let f4 := (get2B f3).2
  let (channels, f5) := get2Bu f4
  let (rows, f6) := get4B f5
  let (cols, f7) := get4B f6
  let (depth, f8) := get2Bu f7
  let (mode, f9) := get2Bu f8
  ({ sig := sig, version := toField short16 version, channels := toField short16 channels,
     rows := rows, cols := cols, depth := toField short16 depth, mode := toField short16 mode,
     colormodepos := 0 }, f9)

/-- The bytes of `"8BPS"`. -/
def sig8BPS : List Byte := [0x38, 0x42, 0x50, 0x53]

/-- The three ways `main` goes on after reading the header (lines 696-717). -/
inductive HeaderBranch
  | couldntRead
  | notRight
  | accepted
deriving DecidableEq, Repr

/-- The tests of lines 696 and 701-702. -/
def headerBranch (h : psd_header) (f : FILE) : HeaderBranch :=
  if feof f = false ∧ h.sig = sig8BPS ∧ h.version = 1 then
    if h.channels ≤ 0 ∨ h.channels > 64 ∨ h.rows ≤ 0 ∨ h.cols ≤ 0 ∨ h.depth < 0 ∨ h.depth > 32
        ∨ h.mode < 0 then .notRight
    else .accepted
  else .couldntRead

/-- The body of the loop of `main` for a file that could be opened (lines 667-720);
`none` when the image resources loop is still running after `fuel` blocks. -/
def dofile (short16 : Bool) (o : Opts) (fuel : Nat) (s : St) : Option (Except Halt St) :=
  let s0 := { s with nwarns := 0 }
  let h := (readHeader short16 s0.f).1
  let f1 := (readHeader short16 s0.f).2
  let s1 := { s0 with f := f1 }
  match headerBranch h f1 with
  | .couldntRead => some (.ok (alwayswarn s1 .couldntReadHeader))
  | .notRight => some (.ok (alwayswarn s1 .headerNotRight))
  | .accepted =>
    let h1 := { h with colormodepos := ftell s1.f }
    let s2 := { s1 with f := skipblock s1.f }
    match doimageresources fuel s2 with
    | none => none
    | some s3 =>
      match dolayermaskinfo short16 o h1 s3 with
      | .error e => some (.error e)
      | .ok s4 =>
        match doimage o h1 s4 none h1.channels (wrapS 32 h1.rows) (wrapS 32 h1.cols) with
        | .error e => some (.error e)
        | .ok s5 => some (.ok s5)

/-- What the loop of `main` does with the outcome `r` of one file: when `fatal` was
reached it has called `exit` and the run is over; otherwise the loop goes on with `k`. -/
def thenFiles (r : Option (Except Halt St)) (k : St → Option (Except Halt St)) :
    Option (Except Halt St) :=
  match r with
  | none => none
  | some (.error e) => some (.error e)
  | some (.ok s1) => k s1

/-- The loop of `main` over the input files (lines 665-723): `none` in the list is a
file that `fopen` could not open. -/
def mainLoop (short16 : Bool) (o : Opts) (fuel : Nat) :
    List (Option (List Byte)) → St → Option (Except Halt St)
  | [], s => some (.ok s)
  | none :: rest, s => mainLoop short16 o fuel rest (alwayswarn s .couldntOpen)
  | some bytes :: rest, s =>
    thenFiles (dofile short16 o fuel { s with f := { data := bytes, pos := 0, eof := false } })
      (mainLoop short16 o fuel rest)

/-! ## Views of the file content used to state the theorems -/

/-- The byte at offset `p` as a number (0 beyond the end). -/
def byteAt (d : List Byte) (p : Nat) : Nat := (d.getD p 0).val

/-- The big-endian unsigned 16-bit number stored at offset `p`. -/
def u16At (d : List Byte) (p : Nat) : Nat := 256 * byteAt d p + byteAt d (p + 1)

/-- The big-endian unsigned 32-bit number stored at offset `p`. -/
def u32At (d : List Byte) (p : Nat) : Nat :=
  2 ^ 24 * byteAt d p + 2 ^ 16 * byteAt d (p + 1) + 2 ^ 8 * byteAt d (p + 2) + byteAt d (p + 3)

/-- Big-endian serialisation of a 16-bit number. -/
def be16 (n : Nat) : List Byte :=
  [⟨n / 256 % 256, Nat.mod_lt _ (by decide)⟩, ⟨n % 256, Nat.mod_lt _ (by decide)⟩]

/-- Big-endian serialisation of a 32-bit number. -/
def be32 (n : Nat) : List Byte :=
  [⟨n / 2 ^ 24 % 256, Nat.mod_lt _ (by decide)⟩, ⟨n / 2 ^ 16 % 256, Nat.mod_lt _ (by decide)⟩,
   ⟨n / 2 ^ 8 % 256, Nat.mod_lt _ (by decide)⟩, ⟨n % 256, Nat.mod_lt _ (by decide)⟩]

/-- The 26-byte file header written big-endian. -/
def headerBytes (c r w d m : Nat) (r0 r1 r2 r3 r4 r5 : Byte) : List Byte :=
  sig8BPS ++ be16 1 ++ [r0, r1, r2, r3, r4, r5] ++ be16 c ++ be32 r ++ be32 w ++ be16 d ++ be16 m

/-! ## Image resource blocks in the file -/

/-- The offset of the payload size field of the image resource block whose header
starts at offset `p`: after the 4-byte type, the 2-byte id and the padded name. -/
def sizeFieldAt (data : List Byte) (p : Nat) : Nat :=
  p + 6 + (PAD2 (1 + ((byteAt data (p + 6) : Nat) : Int))).toNat

/-- The size of the image resource block whose header starts at offset `p`, when the
header (4-byte type, 2-byte id, padded name, 4-byte payload size) is in the file and the
payload size is not negative: `4 + 2 + PAD2(1+namelen) + 4 + PAD2(size)`. -/
def blockTotal (data : List Byte) (p : Nat) : Option Int :=
  if sizeFieldAt data p + 4 ≤ data.length
      ∧ 0 ≤ wrapS 32 (u32At data (sizeFieldAt data p) : Nat) then
    some (4 + 2 + PAD2 (1 + ((byteAt data (p + 6) : Nat) : Int)) + 4
          + PAD2 (wrapS 32 (u32At data (sizeFieldAt data p) : Nat)))
  else none

/-- Blocks of sizes `ts` follow one another from offset `p`. -/
def blocksAt (data : List Byte) : Nat → List Int → Prop
  | _, [] => True
  | p, t :: ts => blockTotal data p = some t ∧ blocksAt data (p + t.toNat) ts

/-- The bytes of the blocks of sizes `ts` that the loop `while(len>0) len -= doirb(f)`
goes through when it starts with `len`: whole blocks, until their sizes add up to `len`
or more. -/
def consumed : Int → List Int → Int
  | _, [] => 0
  | len, t :: ts => if len > 0 then t + consumed (len - t) ts else 0

/-- An image-resources section of declared length 4 followed by one block of 12 bytes
(type `8BIM`, id 1000, empty name, empty payload) and two further bytes. -/
def resOverrunBytes : List Byte := [0, 0, 0, 4, 56, 66, 73, 77, 3, 232, 0, 0, 0, 0, 0, 0, 9, 9]

/-! ## Concrete inputs -/

/-- A layer with one raw channel of declared length 6 (the tag and one row of 4 bytes). -/
def cexLayer : layer_info :=
  { top := 0, left := 0, bottom := 1, right := 4, channels := 1,
    chlengths := some [6], chid := some [0], chindex := some [-1, -1, 0],
    masksize := some 0, mask := none }

/-- The state at the start of a stream with content `d`. -/
def cexSt (d : List Byte) : St :=
  { f := { data := d, pos := 0, eof := false }, nwarns := 0, mergedalpha := 0, err := [], png := [] }

/-- A layer record that fails the sanity check (`bottom < top`), with one channel
and two bytes of extra data; 42 bytes. -/
def skippedRecord : List Byte :=
  [0, 0, 0, 1,  0, 0, 0, 0,  0, 0, 0, 0,  0, 0, 0, 0,  0, 1,
   0, 0,  0, 0, 0, 2,
   56, 66, 73, 77,  110, 111, 114, 109,  255, 0, 0, 0,
   0, 0, 0, 2,  0, 0]

/-- A layer and mask information section whose only layer record is `skippedRecord`. -/
def skippedSection : List Byte :=
  [0, 0, 0, 52,  0, 0, 0, 44,  0, 1] ++ skippedRecord ++ [0, 0, 0, 0]

/-- An RGB header of three channels. -/
def rgbHeader : psd_header :=
  { sig := sig8BPS, version := 1, channels := 3, rows := 1, cols := 1, depth := 8,
    mode := ModeRGBColor, colormodepos := 0 }

/-- `i` is the position of the last entry of `ids` that equals `c`. -/
def IsLastAt (ids : List Int) (c : Int) (i : Nat) : Prop :=
  i < ids.length ∧ ids.getD i 0 = c ∧ ∀ i', i < i' → i' < ids.length → ids.getD i' 0 ≠ c

/-- A gray layer of two channels, the gray channel (id 0) and a layer mask (id -2),
without a transparency mask: the entry of id -1 in its reverse index is -1. -/
def maskLayer : layer_info :=
  { top := 0, left := 0, bottom := 1, right := 1, channels := 2,
    chlengths := some [3, 3], chid := some [0, -2],
    chindex := some [1, -1, 0, -1], masksize := some 20,
    mask := some { top := 0, left := 0, bottom := 1, right := 1, default_colour := 0,
                   flags := 0, rows := 1, cols := 1 } }

/-- A grayscale header of two channels. -/
def grayHeader : psd_header :=
  { sig := sig8BPS, version := 1, channels := 2, rows := 1, cols := 1, depth := 8,
    mode := ModeGrayScale, colormodepos := 0 }

/-- A layer and mask information section with one grayscale layer of 1x1 pixels and
two channels with ids 0 and 1 (each raw, 3 bytes), followed by the channel data and an
empty global layer mask block. -/
def spotSection : List Byte :=
  [0, 0, 0, 74,  0, 0, 0, 66,  0, 1,
   0, 0, 0, 0,  0, 0, 0, 0,  0, 0, 0, 1,  0, 0, 0, 1,  0, 2,
   0, 0,  0, 0, 0, 3,   0, 1,  0, 0, 0, 3,
   56, 66, 73, 77,  110, 111, 114, 109,  255, 0, 0, 0,
   0, 0, 0, 12,  0, 0, 0, 0,  0, 0, 0, 0,  0, 0, 0, 0,
   0, 0, 10,  0, 0, 20,
   0, 0, 0, 0]

/-- The 26-byte header of a grayscale file of two channels, 1x1 pixels, depth 8. -/
def grayHeaderBytes : List Byte := headerBytes 2 1 1 8 1 0 0 0 0 0 0

/-- A grayscale file of two channels whose layer count is -1 (one layer, of no channels;
the first alpha channel is the transparency of the merged image), with raw merged data. -/
def fileAlphaCount : List Byte :=
  grayHeaderBytes ++ [0, 0, 0, 0,  0, 0, 0, 0] ++
  [0, 0, 0, 56,  0, 0, 0, 48,  255, 255,
   0, 0, 0, 0,  0, 0, 0, 0,  0, 0, 0, 0,  0, 0, 0, 0,  0, 0,
   56, 66, 73, 77,  110, 111, 114, 109,  255, 0, 0, 0,
   0, 0, 0, 12,  0, 0, 0, 0,  0, 0, 0, 0,  0, 0, 0, 0,
   0, 0, 0, 0] ++ [0, 0, 7, 9]

/-- A grayscale file of two channels without layers, with raw merged data. -/
def filePlain : List Byte :=
  grayHeaderBytes ++ [0, 0, 0, 0,  0, 0, 0, 0,  0, 0, 0, 0] ++ [0, 0, 7, 9]

/-- An RGB file of three channels, 1x1 pixels, without resources and layers, followed
by the image data `tail`. -/
def fileNoLayers (tail : List Byte) : List Byte :=
  headerBytes 3 1 1 8 3 0 0 0 0 0 0 ++ [0, 0, 0, 0,  0, 0, 0, 0,  0, 0, 0, 0] ++ tail

/-- An image-resources section of declared length 12 whose only block (type `8BIM`,
id 0, empty name) declares the payload size -12 (`FF FF FF F4`). -/
def loopBytes : List Byte := [0, 0, 0, 12, 56, 66, 73, 77, 0, 0, 0, 0, 255, 255, 255, 244]

/-- A layer and mask information section of declared length 20 whose layer info
(declared length 10) announces one layer: `1 * (18 + 6*3) > 10`. -/
def abandonBytes : List Byte :=
  [0, 0, 0, 20,  0, 0, 0, 10,  0, 1,  0, 0, 0, 0, 0, 0, 0, 0, 0, 0, 0, 0, 0, 0, 0, 0]

/-- Every "bad RLE count" message of the log `e1` is already in the log `e0`. -/
def NoNewBadCount (e0 e1 : List Msg) : Prop :=
  ∀ n j, Msg.badRLECount n j ∈ e1 → Msg.badRLECount n j ∈ e0

/-- A layer and mask information section with one grayscale layer of 1x1 pixels and
two channels: the gray channel (id 0, raw, 3 bytes) and a layer mask (id -2) of declared
length 0, with the 20-byte mask record in the extra data. -/
def shortMaskSection : List Byte :=
  [0, 0, 0, 91,  0, 0, 0, 83,  0, 1,
   0, 0, 0, 0,  0, 0, 0, 0,  0, 0, 0, 1,  0, 0, 0, 1,  0, 2,
   0, 0,  0, 0, 0, 3,   255, 254,  0, 0, 0, 0,
   56, 66, 73, 77,  110, 111, 114, 109,  255, 0, 0, 0,
   0, 0, 0, 32,
   0, 0, 0, 20,  0, 0, 0, 0,  0, 0, 0, 0,  0, 0, 0, 1,  0, 0, 0, 1,  0, 0,  0, 0,
   0, 0, 0, 0,  0, 0, 0, 0,
   0, 0, 10,
   0, 0, 0, 0]

/-- The layer that the record of `shortMaskSection` describes. -/
def shortLayer : layer_info :=
  { top := 0, left := 0, bottom := 1, right := 1, channels := 2,
    chlengths := some [3, 0], chid := some [0, -2],
    chindex := some [1, -1, 0, -1], masksize := some 20,
    mask := some { top := 0, left := 0, bottom := 1, right := 1, default_colour := 0,
                   flags := 0, rows := 1, cols := 1 } }

/-- A layer and mask information section whose layer count is -1 and whose only layer
is `maskLayer`: 1x1 pixels, a gray channel (id 0) and a layer mask (id -2), each raw
(3 bytes), with the 20-byte mask record in the extra data. -/
def alphaMaskSection : List Byte :=
  [0, 0, 0, 94,  0, 0, 0, 86,  255, 255,
   0, 0, 0, 0,  0, 0, 0, 0,  0, 0, 0, 1,  0, 0, 0, 1,  0, 2,
   0, 0,  0, 0, 0, 3,   255, 254,  0, 0, 0, 3,
   56, 66, 73, 77,  110, 111, 114, 109,  255, 0, 0, 0,
   0, 0, 0, 32,
   0, 0, 0, 20,  0, 0, 0, 0,  0, 0, 0, 0,  0, 0, 0, 1,  0, 0, 0, 1,  0, 0,  0, 0,
   0, 0, 0, 0,  0, 0, 0, 0,
   0, 0, 10,  0, 0, 20,
   0, 0, 0, 0]

theorem byteAt_lt (d : List Byte) (p : Nat) : byteAt d p < 256 := (d.getD p 0).isLt

theorem wrapU_natCast (n : Nat) (h : n < 2 ^ 32) : wrapU (n : Int) = n := by
  unfold wrapU
  omega

theorem wrapS32_id (x : Int) (h1 : -2 ^ 31 ≤ x) (h2 : x < 2 ^ 31) : wrapS 32 x = x := by
  unfold wrapS
  norm_num
  omega

theorem fgetc_of_lt (f : FILE) (h : f.pos < f.data.length) :
    fgetc f = ((byteAt f.data f.pos : Int), FILE.mk f.data (f.pos + 1) f.eof) := by
  unfold fgetc byteAt
  rw [List.getElem?_eq_getElem h, List.getD_eq_getElem _ _ h]

theorem fgetc_of_ge (f : FILE) (h : f.data.length ≤ f.pos) :
    fgetc f = (-1, FILE.mk f.data f.pos true) := by
  unfold fgetc
  rw [List.getElem?_eq_none h]

theorem lor16 (a b : Nat) (ha : a < 256) (hb : b < 256) :
    wrapU ((a : Int) * 2 ^ 8) ||| wrapU (b : Int) = 256 * a + b := by
  have h1 : wrapU ((a : Int) * 2 ^ 8) = 2 ^ 8 * a := by
    unfold wrapU; omega
  have h2 : wrapU (b : Int) = b := by unfold wrapU; omega
  rw [h1, h2, ← Nat.mul_add_lt_is_or (by omega)]

theorem lor32 (a b c d : Nat) (ha : a < 256) (hb : b < 256) (hc : c < 256) (hd : d < 256) :
    wrapU ((a : Int) * 2 ^ 24) ||| wrapU ((b : Int) * 2 ^ 16) ||| wrapU ((c : Int) * 2 ^ 8)
      ||| wrapU (d : Int) = 2 ^ 24 * a + 2 ^ 16 * b + 2 ^ 8 * c + d := by
  have h1 : wrapU ((a : Int) * 2 ^ 24) = 2 ^ 24 * a := by
    unfold wrapU; omega
  have h2 : wrapU ((b : Int) * 2 ^ 16) = 2 ^ 16 * b := by
    unfold wrapU; omega
  have h3 : wrapU ((c : Int) * 2 ^ 8) = 2 ^ 8 * c := by
    unfold wrapU; omega
  have h4 : wrapU (d : Int) = d := by unfold wrapU; omega
  have e1 : 2 ^ 24 * a ||| 2 ^ 16 * b = 2 ^ 16 * (2 ^ 8 * a + b) := by
    rw [← Nat.mul_add_lt_is_or (by omega)]; omega
  have e2 : 2 ^ 16 * (2 ^ 8 * a + b) ||| 2 ^ 8 * c = 2 ^ 8 * (2 ^ 8 * (2 ^ 8 * a + b) + c) := by
    rw [← Nat.mul_add_lt_is_or (by omega)]; omega
  have e3 : 2 ^ 8 * (2 ^ 8 * (2 ^ 8 * a + b) + c) ||| d
      = 2 ^ 24 * a + 2 ^ 16 * b + 2 ^ 8 * c + d := by
    rw [← Nat.mul_add_lt_is_or (by omega)]; omega
  rw [h1, h2, h3, h4, e1, e2, e3]

theorem get2Bu_of_le (f : FILE) (h : f.pos + 2 ≤ f.data.length) :
    get2Bu f = (u16At f.data f.pos, FILE.mk f.data (f.pos + 2) f.eof) := by
  unfold get2Bu
  rw [fgetc_of_lt f (by omega)]
  simp only []
  rw [fgetc_of_lt _ (by simp only []; omega)]
  simp only [u16At]
  rw [lor16 _ _ (byteAt_lt _ _) (byteAt_lt _ _)]

theorem get4B_of_le (f : FILE) (h : f.pos + 4 ≤ f.data.length) :
    get4B f = (wrapS 32 (u32At f.data f.pos : Nat), FILE.mk f.data (f.pos + 4) f.eof) := by
  unfold get4B
  rw [fgetc_of_lt f (by omega)]
  simp only []
  rw [fgetc_of_lt _ (by simp only []; omega)]
  simp only []
  rw [fgetc_of_lt _ (by simp only []; omega)]
  simp only []
  rw [fgetc_of_lt _ (by simp only []; omega)]
  simp only [u32At]
  rw [lor32 _ _ _ _ (byteAt_lt _ _) (byteAt_lt _ _) (byteAt_lt _ _) (byteAt_lt _ _)]

theorem fread_of_le (n : Nat) (f : FILE) (h : f.pos + n ≤ f.data.length) :
    fread n f = ((f.data.drop f.pos).take n, FILE.mk f.data (f.pos + n) f.eof) := by
  unfold fread
  have hl : ((f.data.drop f.pos).take n).length = n := by
    rw [List.length_take, List.length_drop]; omega
  simp only [hl, lt_self_iff_false, decide_False, Bool.or_false]

theorem wrapS16_id (x : Int) (h1 : -2 ^ 15 ≤ x) (h2 : x < 2 ^ 15) : wrapS 16 x = x := by
  unfold wrapS
  norm_num
  omega

theorem toField_id (short16 : Bool) (v : Nat) (h : v < 2 ^ 16)
    (hs : short16 = true → v < 2 ^ 15) : toField short16 v = v := by
  cases short16
  · simp only [toField, Bool.false_eq_true, if_false]
    exact wrapS32_id _ (by omega) (by omega)
  · have := hs rfl
    simp only [toField, if_true]
    exact wrapS16_id _ (by omega) (by omega)

theorem byteAt_cons_succ (a : Byte) (l : List Byte) (q : Nat) :
    byteAt (a :: l) (q + 1) = byteAt l q := by
  simp [byteAt]

theorem byteAt_cons_zero (a : Byte) (l : List Byte) : byteAt (a :: l) 0 = a.val := by
  simp [byteAt]

theorem u16At_lt (d : List Byte) (p : Nat) : u16At d p < 2 ^ 16 := by
  have h1 := byteAt_lt d p
  have h2 := byteAt_lt d (p + 1)
  unfold u16At
  omega

theorem u32At_lt (d : List Byte) (p : Nat) : u32At d p < 2 ^ 32 := by
  have h1 := byteAt_lt d p
  have h2 := byteAt_lt d (p + 1)
  have h3 := byteAt_lt d (p + 2)
  have h4 := byteAt_lt d (p + 3)
  unfold u32At
  omega

theorem get2B_value (n : Nat) (h : n < 2 ^ 16) :
    wrapS 32 (if n < 0x8000 then (n : Int) else (wrapU ((n : Int) - 0x10000) : Int))
      = wrapS 16 (n : Int) := by
  unfold wrapS wrapU
  split <;> norm_num <;> omega

theorem get2B_of_le (f : FILE) (h : f.pos + 2 ≤ f.data.length) :
    get2B f = (wrapS 16 (u16At f.data f.pos : Nat), FILE.mk f.data (f.pos + 2) f.eof) := by
  unfold get2B
  rw [get2Bu_of_le f h]
  simp only []
  rw [get2B_value _ (u16At_lt _ _)]

/-! ## C1: the file header -/

theorem readHeader_headerBytes (short16 : Bool) (c r w d m : Nat) (r0 r1 r2 r3 r4 r5 : Byte)
    (rest : List Byte) (hc2 : c ≤ 64) (hr2 : r < 2 ^ 31)
    (hw2 : w < 2 ^ 31) (hd : d ≤ 32) (hm : m < 2 ^ 16)
    (hs : short16 = true → m < 2 ^ 15) :
    readHeader short16 (FILE.mk (headerBytes c r w d m r0 r1 r2 r3 r4 r5 ++ rest) 0 false)
      = ({ sig := sig8BPS, version := 1, channels := c, rows := r, cols := w, depth := d,
           mode := m, colormodepos := 0 },
         FILE.mk (headerBytes c r w d m r0 r1 r2 r3 r4 r5 ++ rest) 26 false) := by
  have hlen : (headerBytes c r w d m r0 r1 r2 r3 r4 r5 ++ rest).length = 26 + rest.length := by
    simp [headerBytes, sig8BPS, be16, be32]; omega
  generalize hD : headerBytes c r w d m r0 r1 r2 r3 r4 r5 ++ rest = D at hlen
  have hsig : List.take 4 D = sig8BPS := by
    rw [← hD]; simp [headerBytes, sig8BPS]
  have hver : u16At D 4 = 1 := by
    rw [← hD]; simp [headerBytes, sig8BPS, be16, be32, u16At, byteAt]
  have hch : u16At D 12 = c := by
    rw [← hD]; simp [headerBytes, sig8BPS, be16, be32, u16At, byteAt]; omega
  have hrows : u32At D 14 = r := by
    rw [← hD]; simp [headerBytes, sig8BPS, be16, be32, u32At, byteAt]; omega
  have hcols : u32At D 18 = w := by
    rw [← hD]; simp [headerBytes, sig8BPS, be16, be32, u32At, byteAt]; omega
  have hdep : u16At D 22 = d := by
    rw [← hD]; simp [headerBytes, sig8BPS, be16, be32, u16At, byteAt]; omega
  have hmode : u16At D 24 = m := by
    rw [← hD]; simp [headerBytes, sig8BPS, be16, be32, u16At, byteAt]; omega
  unfold readHeader
  rw [fread_of_le 4 ⟨D, 0, false⟩ (by simp only [hlen]; omega)]
  simp only []
  rw [get2Bu_of_le ⟨D, 0 + 4, false⟩ (by simp only [hlen]; omega)]
  simp only []
  rw [get4B_of_le ⟨D, 0 + 4 + 2, false⟩ (by simp only [hlen]; omega)]
  simp only []
  rw [get2B_of_le ⟨D, 0 + 4 + 2 + 4, false⟩ (by simp only [hlen]; omega)]
  simp only []
  rw [get2Bu_of_le ⟨D, 0 + 4 + 2 + 4 + 2, false⟩ (by simp only [hlen]; omega)]
  simp only []
  rw [get4B_of_le ⟨D, 0 + 4 + 2 + 4 + 2 + 2, false⟩ (by simp only [hlen]; omega)]
  simp only []
  rw [get4B_of_le ⟨D, 0 + 4 + 2 + 4 + 2 + 2 + 4, false⟩ (by simp only [hlen]; omega)]
  simp only []
  rw [get2Bu_of_le ⟨D, 0 + 4 + 2 + 4 + 2 + 2 + 4 + 4, false⟩ (by simp only [hlen]; omega)]
  simp only []
  rw [get2Bu_of_le ⟨D, 0 + 4 + 2 + 4 + 2 + 2 + 4 + 4 + 2, false⟩ (by simp only [hlen]; omega)]
  simp only [Nat.zero_add, Nat.reduceAdd, List.drop_zero, hsig, hver, hch, hrows, hcols, hdep,
    hmode]
  rw [toField_id short16 1 (by omega) (fun _ => by omega),
    toField_id short16 c (by omega) (fun _ => by omega),
    toField_id short16 d (by omega) (fun _ => by omega),
    toField_id short16 m hm hs,
    wrapS32_id (r : Int) (by omega) (by omega), wrapS32_id (w : Int) (by omega) (by omega)]
  simp

/-- C1. Header round trip: a file that starts with the big-endian serialisation of
signature "8BPS", version 1, six reserved bytes, channel count `c` (1 to 64), row count
`r` and column count `w` (positive, below 2^31), depth `d` (at most 32) and a mode `m`
that is non-negative in the type of the header field is accepted by the header tests of
`main`, and the parsed fields are exactly `c`, `r`, `w`, `d`, `m`; the cursor is then
just after the 26 header bytes. -/
theorem header_round_trip (short16 : Bool) (c r w d m : Nat) (r0 r1 r2 r3 r4 r5 : Byte)
    (rest : List Byte) (hc1 : 1 ≤ c) (hc2 : c ≤ 64) (hr1 : 0 < r) (hr2 : r < 2 ^ 31)
    (hw1 : 0 < w) (hw2 : w < 2 ^ 31) (hd : d ≤ 32) (hm : m < 2 ^ 16)
    (hs : short16 = true → m < 2 ^ 15) :
    headerBranch
        (readHeader short16 (FILE.mk (headerBytes c r w d m r0 r1 r2 r3 r4 r5 ++ rest) 0 false)).1
        (readHeader short16 (FILE.mk (headerBytes c r w d m r0 r1 r2 r3 r4 r5 ++ rest) 0 false)).2
      = HeaderBranch.accepted
    ∧ (readHeader short16 (FILE.mk (headerBytes c r w d m r0 r1 r2 r3 r4 r5 ++ rest) 0 false)).1
      = { sig := sig8BPS, version := 1, channels := c, rows := r, cols := w, depth := d,
          mode := m, colormodepos := 0 }
    ∧ ftell
        (readHeader short16 (FILE.mk (headerBytes c r w d m r0 r1 r2 r3 r4 r5 ++ rest) 0 false)).2
      = 26 := by
  rw [readHeader_headerBytes short16 c r w d m r0 r1 r2 r3 r4 r5 rest hc2 hr2 hw2 hd hm hs]
  refine ⟨?_, rfl, rfl⟩
  simp only [headerBranch, feof]
  have h1 : ¬ ((c : Int) ≤ 0) := by omega
  have h2 : ¬ ((c : Int) > 64) := by omega
  have h3 : ¬ ((r : Int) ≤ 0) := by omega
  have h4 : ¬ ((w : Int) ≤ 0) := by omega
  have h5 : ¬ ((d : Int) < 0) := by omega
  have h6 : ¬ ((d : Int) > 32) := by omega
  have h7 : ¬ ((m : Int) < 0) := by omega
  simp [h1, h2, h3, h4, h5, h6, h7]

/-- C1 at a concrete header: 3 channels, 100 rows, 200 columns, depth 8, RGB mode. -/
theorem header_round_trip_witness :
    headerBranch
        (readHeader true (FILE.mk (headerBytes 3 100 200 8 3 0 0 0 0 0 0 ++ []) 0 false)).1
        (readHeader true (FILE.mk (headerBytes 3 100 200 8 3 0 0 0 0 0 0 ++ []) 0 false)).2
      = HeaderBranch.accepted
    ∧ (readHeader true (FILE.mk (headerBytes 3 100 200 8 3 0 0 0 0 0 0 ++ []) 0 false)).1
      = { sig := sig8BPS, version := 1, channels := (3 : Nat), rows := (100 : Nat),
          cols := (200 : Nat), depth := (8 : Nat), mode := (3 : Nat), colormodepos := 0 }
    ∧ ftell
        (readHeader true (FILE.mk (headerBytes 3 100 200 8 3 0 0 0 0 0 0 ++ []) 0 false)).2
      = 26 :=
  header_round_trip true 3 100 200 8 3 0 0 0 0 0 0 [] (by decide) (by decide) (by decide)
    (by decide) (by decide) (by decide) (by decide) (by decide) (fun _ => by decide)

/-! ## The count accumulation and the row-position table of `dochannel` -/

theorem rleRowLoop_succ (rb n : Nat) (f : FILE) (last : Nat) (pos : Int)
    (heof : f.eof = false) (h2 : f.pos + 2 ≤ f.data.length) :
    rleRowLoop rb (n + 1) f last pos =
      { rleRowLoop rb n (FILE.mk f.data (f.pos + 2) false)
          (clampCount rb last (u16At f.data f.pos))
          (pos + (clampCount rb last (u16At f.data f.pos) : Nat)) with
        counts := clampCount rb last (u16At f.data f.pos)
          :: (rleRowLoop rb n (FILE.mk f.data (f.pos + 2) false)
                (clampCount rb last (u16At f.data f.pos))
                (pos + (clampCount rb last (u16At f.data f.pos) : Nat))).counts,
        starts := pos
          :: (rleRowLoop rb n (FILE.mk f.data (f.pos + 2) false)
                (clampCount rb last (u16At f.data f.pos))
                (pos + (clampCount rb last (u16At f.data f.pos) : Nat))).starts } := by
  rw [rleRowLoop]
  simp only [feof, heof, Bool.false_eq_true, if_false]
  rw [get2Bu_of_le f h2]
  simp only [heof]

theorem sum_take_succ (l : List Nat) (j : Nat) (h : j < l.length) :
    (l.take (j + 1)).sum = (l.take j).sum + l.getD j 0 := by
  rw [List.take_succ, List.sum_append, List.getD_eq_getElem _ _ h, List.getElem?_eq_getElem h]
  simp

/-- What the inner count loop leaves when the counts of its `n` rows are in the file. -/
theorem rleRowLoop_spec (rb : Nat) : ∀ (n : Nat) (f : FILE) (last : Nat) (pos : Int),
    f.eof = false → f.pos + 2 * n ≤ f.data.length →
    (rleRowLoop rb n f last pos).unread = 0
    ∧ (rleRowLoop rb n f last pos).f = FILE.mk f.data (f.pos + 2 * n) false
    ∧ (rleRowLoop rb n f last pos).counts.length = n
    ∧ (rleRowLoop rb n f last pos).starts.length = n
    ∧ (∀ j, j < n → (rleRowLoop rb n f last pos).counts.getD j 0 =
        clampCount rb (if j = 0 then last else (rleRowLoop rb n f last pos).counts.getD (j - 1) 0)
          (u16At f.data (f.pos + 2 * j)))
    ∧ (∀ j, j < n → (rleRowLoop rb n f last pos).starts.getD j 0 =
        pos + (((rleRowLoop rb n f last pos).counts.take j).sum : Nat))
    ∧ (rleRowLoop rb n f last pos).pos = pos + ((rleRowLoop rb n f last pos).counts.sum : Nat) := by
  intro n
  induction n with
  | zero =>
    intro f last pos heof _
    refine ⟨rfl, ?_, rfl, rfl, ?_, ?_, ?_⟩
    · cases f; simp [rleRowLoop] at *; exact heof
    · intro j hj; omega
    · intro j hj; omega
    · simp [rleRowLoop]
  | succ n ih =>
    intro f last pos heof hlen
    rw [rleRowLoop_succ rb n f last pos heof (by omega)]
    obtain ⟨h1, h2, h3, h4, h5, h6, h7⟩ :=
      ih (FILE.mk f.data (f.pos + 2) false) (clampCount rb last (u16At f.data f.pos))
        (pos + (clampCount rb last (u16At f.data f.pos) : Nat)) rfl (by simp only []; omega)
    refine ⟨h1, ?_, ?_, ?_, ?_, ?_, ?_⟩
    · simp only [h2]
      congr 1
      omega
    · simp only [List.length_cons, h3]
    · simp only [List.length_cons, h4]
    · intro j hj
      cases j with
      | zero => simp
      | succ j =>
        simp only [List.getD_cons_succ, Nat.add_sub_cancel]
        rw [h5 j (by omega)]
        have e : f.pos + 2 + 2 * j = f.pos + 2 * (j + 1) := by omega
        simp only [e]
        cases j with
        | zero => simp
        | succ j => simp
    · intro j hj
      cases j with
      | zero => simp
      | succ j =>
        simp only [List.getD_cons_succ, List.take_succ_cons, List.sum_cons]
        rw [h6 j (by omega)]
        push_cast
        omega
    · simp only [h7, List.sum_cons]
      push_cast
      omega

theorem rleChannelLoop_succ_ok (rb R C : Nat) (f : FILE) (pos : Int) (t : RleTable)
    (h0 : (rleRowLoop rb R f rb pos).unread = 0)
    (ht : rleChannelLoop rb R C (rleRowLoop rb R f rb pos).f (rleRowLoop rb R f rb pos).pos
            = .ok t) :
    rleChannelLoop rb R (C + 1) f pos =
      .ok { t with rlebuf := (rleRowLoop rb R f rb pos).counts ++ t.rlebuf,
                   rowpos := ((rleRowLoop rb R f rb pos).starts ++ [(rleRowLoop rb R f rb pos).pos])
                              :: t.rowpos } := by
  rw [rleChannelLoop]
  simp only [h0, lt_self_iff_false, if_false, ht]

/-- What the count accumulation leaves when the whole count table is in the file. -/
theorem rleChannelLoop_spec (rb R : Nat) : ∀ (C : Nat) (f : FILE) (pos : Int),
    f.eof = false → f.pos + 2 * (C * R) ≤ f.data.length →
    ∃ t, rleChannelLoop rb R C f pos = .ok t
      ∧ t.f = FILE.mk f.data (f.pos + 2 * (C * R)) false
      ∧ t.rlebuf.length = C * R
      ∧ t.rowpos.length = C
      ∧ (∀ c j, c < C → j < R → t.rlebuf.getD (c * R + j) 0 =
          clampCount rb (if j = 0 then rb else t.rlebuf.getD (c * R + j - 1) 0)
            (u16At f.data (f.pos + 2 * (c * R + j))))
      ∧ (∀ c r, c < C → r ≤ R → (t.rowpos.getD c []).getD r 0 =
          pos + ((t.rlebuf.take (c * R + r)).sum : Nat))
      ∧ t.pos = pos + (t.rlebuf.sum : Nat) := by
  intro C
  induction C with
  | zero =>
    intro f pos heof _
    refine ⟨_, rfl, ?_, ?_, rfl, ?_, ?_, ?_⟩
    · cases f; simp at *; exact heof
    · simp
    · intro c j hc; omega
    · intro c r hc; omega
    · simp
  | succ C ih =>
    intro f pos heof hlen
    have hmul : (C + 1) * R = C * R + R := Nat.succ_mul C R
    obtain ⟨h1, h2, h3, h4, h5, h6, h7⟩ := rleRowLoop_spec rb R f rb pos heof (by omega)
    obtain ⟨t, ht, g2, g3, g4, g5, g6, g7⟩ :=
      ih (rleRowLoop rb R f rb pos).f (rleRowLoop rb R f rb pos).pos
        (by rw [h2]) (by rw [h2]; simp only []; omega)
    refine ⟨_, rleChannelLoop_succ_ok rb R C f pos t h1 ht, ?_, ?_, ?_, ?_, ?_, ?_⟩
    · simp only [g2, h2]
      congr 1
      omega
    · simp only [List.length_append, h3, g3]; omega
    · simp only [List.length_cons, g4]
    · intro c j hc hj
      cases c with
      | zero =>
        simp only [Nat.zero_mul, Nat.zero_add]
        rw [List.getD_append _ _ _ _ (by omega), h5 j hj]
        cases j with
        | zero => simp
        | succ j =>
          simp only [Nat.add_sub_cancel, Nat.succ_ne_zero, if_false]
          rw [List.getD_append _ _ _ _ (by omega)]
      | succ c =>
        have e1 : (c + 1) * R + j = R + (c * R + j) := by rw [Nat.succ_mul]; omega
        rw [e1, List.getD_append_right _ _ _ _ (by omega)]
        simp only [h3, Nat.add_sub_cancel_left]
        rw [g5 c j (by omega) hj]
        simp only [h2]
        have e2 : f.pos + 2 * R + 2 * (c * R + j) = f.pos + 2 * (R + (c * R + j)) := by omega
        rw [e2]
        cases j with
        | zero => simp
        | succ j =>
          simp only [Nat.succ_ne_zero, if_false]
          have e3 : R + (c * R + (j + 1)) - 1 = R + (c * R + j) := by omega
          rw [e3, List.getD_append_right _ _ _ _ (by omega)]
          simp only [h3, Nat.add_sub_cancel_left]
          have e4 : c * R + (j + 1) - 1 = c * R + j := by omega
          rw [e4]
    · intro c r hc hr
      cases c with
      | zero =>
        simp only [Nat.zero_mul, Nat.zero_add, List.getD_cons_zero]
        rw [List.take_append_of_le_length (by omega)]
        rcases Nat.lt_or_ge r R with hlt | hge
        · rw [List.getD_append _ _ _ _ (by omega), h6 r hlt]
        · have hrR : r = R := by omega
          subst hrR
          rw [List.getD_append_right _ _ _ _ (by omega)]
          simp only [h4, Nat.sub_self, List.getD_cons_zero]
          rw [h7, List.take_of_length_le (by omega)]
      | succ c =>
        have e1 : (c + 1) * R + r = (rleRowLoop rb R f rb pos).counts.length + (c * R + r) := by
          rw [Nat.succ_mul, h3]; omega
        simp only [List.getD_cons_succ]
        rw [e1, List.take_append, g6 c r (by omega) hr, h7, List.sum_append]
        push_cast
        omega
    · simp only [g7, h7, List.sum_append]
      push_cast
      omega

theorem resync_pos (target : Int) (s : St) (h : 0 ≤ target) :
    ftell (resync true target s).f = target := by
  unfold resync
  split
  · simp only [fseekSet, alwayswarn, h, if_true, ftell]
    omega
  · rename_i hn
    simp only [true_and, not_not] at hn
    exact hn

theorem resync_false (target : Int) (s : St) : resync false target s = s := by
  simp [resync]

theorem guessComp_le (comp0 : Nat) (chlen rows : Int) (rb : Nat) (h : comp0 ≤ 1) :
    guessComp comp0 chlen rows rb = comp0 := by
  unfold guessComp RLECOMP
  rw [if_neg (by omega)]

theorem guessComp_gt (comp0 : Nat) (chlen rows : Int) (rb : Nat) (h : 1 < comp0) :
    guessComp comp0 chlen rows rb = if chlen = rows * (rb : Int) then 0 else 1 := by
  unfold guessComp RLECOMP RAWDATA
  rw [if_pos (by omega)]

theorem guessComp_cases (comp0 : Nat) (chlen rows : Int) (rb : Nat) :
    guessComp comp0 chlen rows rb = 0 ∨ guessComp comp0 chlen rows rb = 1 := by
  unfold guessComp RLECOMP RAWDATA
  split
  · split <;> simp
  · omega

/-- Every value `dochannelBody` returns, and where it leaves the cursor for a layer. -/
theorem dochannelBody_ok (s : St) (hasli : Bool) (chpos chlen0 channels rows cols depth : Int)
    (r : ChanResult) (h : dochannelBody s hasli chpos chlen0 channels rows cols depth = .ok r) :
    (hasli = false ∧ 1 < (get2Bu s.f).1 ∧ r.comp = -1)
    ∨ ((hasli = true ∨ (get2Bu s.f).1 ≤ 1)
        ∧ r.comp = (guessComp (get2Bu s.f).1 (chlen0 - 2) rows (rowBytes cols depth) : Nat)
        ∧ (hasli = true → 0 ≤ chpos + chlen0 → ftell r.st.f = chpos + chlen0)) := by
  simp only [dochannelBody, RLECOMP] at h
  split at h
  · rename_i hc
    left
    cases h
    exact ⟨hc.2, hc.1, rfl⟩
  · rename_i hc
    right
    have hl : hasli = true ∨ (get2Bu s.f).1 ≤ 1 := by
      cases hasli
      · right
        simp only [and_true] at hc
        omega
      · left; rfl
    refine ⟨hl, ?_⟩
    split at h
    · cases h
    · split at h
      · split at h
        · cases h
        · split at h
          · cases h
          · cases h
            refine ⟨rfl, ?_⟩
            intro hh ht
            subst hh
            simp only [dochannelFinish]
            rw [resync_pos _ _ (by omega)]
            omega
      · cases h
        refine ⟨rfl, ?_⟩
        intro hh ht
        subst hh
        simp only [dochannelFinish]
        rw [resync_pos _ _ (by omega)]
        omega

theorem wrapS32_bounds (x : Int) : -2 ^ 31 ≤ wrapS 32 x ∧ wrapS 32 x < 2 ^ 31 := by
  unfold wrapS
  norm_num
  omega

theorem wrapS64_id (x : Int) (h1 : -2 ^ 63 ≤ x) (h2 : x < 2 ^ 63) : wrapS 64 x = x := by
  unfold wrapS
  norm_num
  omega

theorem checkmalloc_ok (n : Int) (h : 0 ≤ n) : checkmalloc n = .ok () := by
  unfold checkmalloc
  rw [if_neg (by omega)]

theorem checkmalloc_rlebuf (x : Int) (h : 0 ≤ wrapS 32 x) :
    checkmalloc (wrapS 64 (wrapS 32 x * 4)) = .ok () := by
  have hb := wrapS32_bounds x
  rw [wrapS64_id _ (by omega) (by omega)]
  exact checkmalloc_ok _ (by omega)

theorem warn_f (s : St) (m : Msg) : (warn s m).f = s.f := by
  unfold warn
  simp only []
  split <;> split <;> rfl

@[simp] theorem noteGuess_f (comp0 comp : Nat) (s : St) : (noteGuess comp0 comp s).f = s.f := by
  unfold noteGuess
  split <;> rfl

@[simp] theorem noteShort_f (hasli : Bool) (chlen rlecounts : Int) (s : St) :
    (noteShort hasli chlen rlecounts s).f = s.f := by
  unfold noteShort
  split <;> rfl

/-- The table and the counts that `dochannelBody` hands back are those of the loops of
lines 184-216, run from the cursor just after the compression tag. -/
theorem dochannelBody_table (s : St) (hasli : Bool) (chpos chlen0 channels rows cols depth : Int)
    (r : ChanResult) (h : dochannelBody s hasli chpos chlen0 channels rows cols depth = .ok r) :
    (r.comp = 1 → ∃ t, rleChannelLoop (rowBytes cols depth) rows.toNat channels.toNat
          (get2Bu s.f).2 (ftell (get2Bu s.f).2 + wrapS 32 (2 * channels * rows)) = .ok t
        ∧ r.rowpos = t.rowpos ∧ r.rlebuf = t.rlebuf)
    ∧ (r.comp = 0 → r.rowpos = rawChannelLoop (rowBytes cols depth) rows.toNat channels.toNat
          (ftell (get2Bu s.f).2) ∧ r.rlebuf = []) := by
  simp only [dochannelBody, RLECOMP] at h
  split at h
  · cases h
    constructor <;> intro hc <;> simp at hc
  · split at h
    · cases h
    · split at h
      · rename_i hg
        split at h
        · cases h
        · split at h
          · cases h
          · rename_i t ht
            cases h
            constructor
            · intro _
              refine ⟨t, ?_, rfl, rfl⟩
              rw [← ht]
              simp only [noteShort_f, noteGuess_f]
            · intro hc
              simp only [dochannelFinish, hg] at hc
              simp at hc
      · rename_i hg
        cases h
        constructor
        · intro hc
          simp only [dochannelFinish] at hc
          exfalso
          apply hg
          exact_mod_cast hc
        · intro _
          refine ⟨?_, rfl⟩
          simp only [dochannelFinish, noteGuess_f]

/-- `dochannelBody` returns on a raw channel. -/
theorem dochannelBody_raw (s : St) (hasli : Bool) (chpos chlen0 channels rows cols depth : Int)
    (hl : hasli = true ∨ (get2Bu s.f).1 ≤ 1)
    (hg : guessComp (get2Bu s.f).1 (chlen0 - 2) rows (rowBytes cols depth) = 0) :
    ∃ r, dochannelBody s hasli chpos chlen0 channels rows cols depth = .ok r ∧ r.comp = 0 := by
  simp only [dochannelBody, RLECOMP, hg]
  rw [if_neg (by
    intro hc
    rcases hl with hl | hl
    · rw [hl] at hc; simp at hc
    · omega)]
  rw [checkmalloc_ok _ (by omega)]
  simp only [Nat.zero_ne_one, if_false]
  exact ⟨_, rfl, rfl⟩

/-- `dochannelBody` skips a merged channel with a bad compression tag. -/
theorem dochannelBody_skip (s : St) (chpos chlen0 channels rows cols depth : Int)
    (ht : 1 < (get2Bu s.f).1) :
    ∃ r, dochannelBody s false chpos chlen0 channels rows cols depth = .ok r ∧ r.comp = -1 := by
  simp only [dochannelBody, RLECOMP]
  rw [if_pos ⟨ht, trivial⟩]
  exact ⟨_, rfl, rfl⟩

/-- `dochannelBody` returns on an RLE channel whose count loop returns. -/
theorem dochannelBody_rle (s : St) (hasli : Bool) (chpos chlen0 channels rows cols depth : Int)
    (t : RleTable)
    (hl : hasli = true ∨ (get2Bu s.f).1 ≤ 1)
    (hg : guessComp (get2Bu s.f).1 (chlen0 - 2) rows (rowBytes cols depth) = 1)
    (hm : 0 ≤ wrapS 32 (channels * rows))
    (ht : rleChannelLoop (rowBytes cols depth) rows.toNat channels.toNat
          (get2Bu s.f).2 (ftell (get2Bu s.f).2 + wrapS 32 (2 * channels * rows)) = .ok t) :
    ∃ r, dochannelBody s hasli chpos chlen0 channels rows cols depth = .ok r ∧ r.comp = 1
      ∧ r.rowpos = t.rowpos ∧ r.rlebuf = t.rlebuf := by
  simp only [dochannelBody, RLECOMP, hg]
  rw [if_neg (by
    intro hc
    rcases hl with hl | hl
    · rw [hl] at hc; simp at hc
    · omega)]
  rw [checkmalloc_ok _ (by omega)]
  simp only [if_true]
  rw [checkmalloc_rlebuf _ hm]
  simp only []
  simp only [noteShort_f, noteGuess_f, ht]
  exact ⟨_, rfl, rfl, rfl, rfl⟩

theorem tdiv8 (x : Int) :
    x.tdiv 8 = if 0 ≤ x then x / 8 else -((-x) / 8) := by
  split
  · rename_i h
    exact Int.tdiv_eq_ediv h (by omega)
  · rename_i h
    have e : x = -(-x) := by omega
    rw [e, Int.neg_tdiv, Int.tdiv_eq_ediv (by omega) (by omega)]
    simp

/-- The row byte count is below 2^28, or it is the `unsigned` image of a negative `int`. -/
theorem rowBytes_range (cols depth : Int) :
    rowBytes cols depth < 2 ^ 28
      ∨ (2 ^ 32 - 2 ^ 28 ≤ rowBytes cols depth ∧ rowBytes cols depth < 2 ^ 32) := by
  unfold rowBytes
  have hb := wrapS32_bounds (cols * depth + 7)
  rw [tdiv8]
  unfold wrapU
  split <;> omega

theorem rowBytes_exact (cols depth : Int) (h0 : 0 ≤ cols * depth)
    (h1 : cols * depth + 7 < 2 ^ 31) :
    (rowBytes cols depth : Int) = (cols * depth + 7) / 8 := by
  unfold rowBytes
  rw [wrapS32_id _ (by omega) (by omega), tdiv8, if_pos (by omega)]
  unfold wrapU
  omega

/-- For a count that was read from the file (16 bits), the test `count > 2*rb` of the
code, made in `unsigned`, agrees with the comparison of the numbers. -/
theorem clampCount_rowBytes (cols depth : Int) (last c : Nat) (hc : c < 2 ^ 16) :
    clampCount (rowBytes cols depth) last c
      = if c ≤ 2 * rowBytes cols depth then c else last := by
  unfold clampCount
  rcases rowBytes_range cols depth with h | h
  · split <;> split <;> omega
  · split <;> split <;> omega

theorem rawRowLoop_spec (rb : Nat) : ∀ (n : Nat) (pos : Int),
    (rawRowLoop rb n pos).1.length = n
    ∧ (∀ j, j < n → (rawRowLoop rb n pos).1.getD j 0 = pos + (j : Int) * (rb : Int))
    ∧ (rawRowLoop rb n pos).2 = pos + (n : Int) * (rb : Int) := by
  intro n
  induction n with
  | zero => intro pos; simp [rawRowLoop]
  | succ n ih =>
    intro pos
    obtain ⟨h1, h2, h3⟩ := ih (pos + (rb : Int))
    simp only [rawRowLoop]
    refine ⟨by simp [h1], ?_, ?_⟩
    · intro j hj
      cases j with
      | zero => simp
      | succ j =>
        simp only [List.getD_cons_succ]
        rw [h2 j (by omega)]
        push_cast
        ring
    · rw [h3]
      push_cast
      ring

theorem rawChannelLoop_spec (rb R : Nat) : ∀ (C : Nat) (pos : Int),
    (rawChannelLoop rb R C pos).length = C
    ∧ (∀ c r, c < C → r ≤ R → ((rawChannelLoop rb R C pos).getD c []).getD r 0
          = pos + ((c : Int) * (R : Int) + (r : Int)) * (rb : Int)) := by
  intro C
  induction C with
  | zero => intro pos; simp [rawChannelLoop]
  | succ C ih =>
    intro pos
    obtain ⟨h1, h2, h3⟩ := rawRowLoop_spec rb R pos
    obtain ⟨g1, g2⟩ := ih (rawRowLoop rb R pos).2
    simp only [rawChannelLoop]
    refine ⟨by simp [g1], ?_⟩
    intro c r hc hr
    cases c with
    | zero =>
      simp only [List.getD_cons_zero]
      rcases Nat.lt_or_ge r R with hlt | hge
      · rw [List.getD_append _ _ _ _ (by omega), h2 r hlt]
        push_cast
        ring
      · have hrR : r = R := by omega
        subst hrR
        rw [List.getD_append_right _ _ _ _ (by omega)]
        simp only [h1, Nat.sub_self, List.getD_cons_zero, h3]
        push_cast
        ring
    | succ c =>
      simp only [List.getD_cons_succ]
      rw [g2 c r (by omega) hr, h3]
      push_cast
      ring

/-- A channel that is not cut short runs lines 163-272 with the geometry it was given. -/
theorem dochannel_body (s : St) (li : Option layer_info) (idx : Nat)
    (channels rows cols depth : Int)
    (hli : li = none ∨ ∃ l L, li = some l ∧ chlenOf l idx = .ok L ∧ 2 ≤ L
              ∧ channelGeometry l idx rows cols = .ok (rows, cols)) :
    ∃ hasli chlen0, dochannel s li idx channels rows cols depth
        = dochannelBody s hasli (ftell s.f) chlen0 channels rows cols depth
      ∧ (li = none → hasli = false) := by
  rcases hli with h | ⟨l, L, h, hL, h2, hg⟩
  · subst h
    exact ⟨false, 0, rfl, fun _ => rfl⟩
  · subst h
    refine ⟨true, L, ?_, fun hn => by cases hn⟩
    simp only [dochannel, hL, hg]
    rw [if_neg (by omega)]

theorem c9_eval :
    dochannel (cexSt [0, 0, 1, 2, 3, 4, 9, 9]) (some cexLayer) 0 1 1 4 8
      = .ok { comp := 0, rowpos := [[2, 6]], rlebuf := [],
              st := { f := { data := [0, 0, 1, 2, 3, 4, 9, 9], pos := 6, eof := false },
                      nwarns := 0, mergedalpha := 0, err := [], png := [] } } := by
  rfl

theorem dochannel_comp_cases (s : St) (li : Option layer_info) (idx : Nat)
    (channels rows cols depth : Int) (r : ChanResult)
    (h : dochannel s li idx channels rows cols depth = .ok r) :
    r.comp = -1 ∨ r.comp = 0 ∨ r.comp = 1 := by
  have hb : ∀ hasli chpos chlen0 rows cols,
      dochannelBody s hasli chpos chlen0 channels rows cols depth = .ok r →
      r.comp = -1 ∨ r.comp = 0 ∨ r.comp = 1 := by
    intro hasli chpos chlen0 rows cols hr
    rcases dochannelBody_ok _ _ _ _ _ _ _ _ _ hr with ⟨_, _, hc⟩ | ⟨_, hc, _⟩
    · exact Or.inl hc
    · rcases guessComp_cases (get2Bu s.f).1 (chlen0 - 2) rows (rowBytes cols depth) with g | g
      · right; left; rw [hc, g]; rfl
      · right; right; rw [hc, g]; rfl
  cases li with
  | none => exact hb _ _ _ _ _ h
  | some l =>
    simp only [dochannel] at h
    split at h
    · cases h
    · split at h
      · cases h
        exact Or.inl rfl
      · split at h
        · cases h
        · exact hb _ _ _ _ _ h

theorem get2Bu_snd (f : FILE) (h : f.pos + 2 ≤ f.data.length) :
    (get2Bu f).2 = FILE.mk f.data (f.pos + 2) f.eof := by
  rw [get2Bu_of_le f h]

theorem get2Bu_fst (f : FILE) (h : f.pos + 2 ≤ f.data.length) :
    (get2Bu f).1 = u16At f.data f.pos := by
  rw [get2Bu_of_le f h]

/-- The table and counts of an RLE channel group whose count table is in the file. -/
theorem dochannel_rle_table (s : St) (li : Option layer_info) (idx C R : Nat)
    (cols depth : Int) (r : ChanResult)
    (hli : li = none ∨ ∃ l L, li = some l ∧ chlenOf l idx = .ok L ∧ 2 ≤ L
              ∧ channelGeometry l idx (R : Int) cols = .ok ((R : Int), cols))
    (h : dochannel s li idx (C : Int) (R : Int) cols depth = .ok r) (hc : r.comp = 1)
    (heof : s.f.eof = false) (hlen : s.f.pos + 2 + 2 * (C * R) ≤ s.f.data.length) :
    r.rlebuf.length = C * R
    ∧ (∀ c j, c < C → j < R → r.rlebuf.getD (c * R + j) 0 =
        clampCount (rowBytes cols depth)
          (if j = 0 then rowBytes cols depth else r.rlebuf.getD (c * R + j - 1) 0)
          (u16At s.f.data (s.f.pos + 2 + 2 * (c * R + j))))
    ∧ (∀ c j, c < C → j ≤ R → (r.rowpos.getD c []).getD j 0 =
        (s.f.pos : Int) + 2 + wrapS 32 (2 * (C : Int) * (R : Int))
          + ((r.rlebuf.take (c * R + j)).sum : Nat)) := by
  obtain ⟨hasli, chlen0, e, _⟩ := dochannel_body s li idx (C : Int) (R : Int) cols depth hli
  rw [e] at h
  obtain ⟨t, ht, hrp, hrb⟩ := (dochannelBody_table _ _ _ _ _ _ _ _ _ h).1 hc
  rw [get2Bu_snd s.f (by omega)] at ht
  simp only [Int.toNat_ofNat] at ht
  obtain ⟨t', ht', _, g3, _, g5, g6, _⟩ := rleChannelLoop_spec (rowBytes cols depth) R C
    (FILE.mk s.f.data (s.f.pos + 2) s.f.eof)
    (ftell (FILE.mk s.f.data (s.f.pos + 2) s.f.eof) + wrapS 32 (2 * (C : Int) * (R : Int)))
    heof (by simp only []; omega)
  rw [ht] at ht'
  cases ht'
  rw [hrp, hrb]
  refine ⟨g3, ?_, ?_⟩
  · intro c j hcC hj
    rw [g5 c j hcC hj]
  · intro c j hcC hj
    rw [g6 c j hcC hj]
    simp only [ftell]
    push_cast
    ring

theorem sum_take_mono : ∀ (l : List Nat) (n m : Nat), n ≤ m → (l.take n).sum ≤ (l.take m).sum := by
  intro l
  induction l with
  | nil => intro n m _; simp
  | cons a l ih =>
    intro n m h
    cases n with
    | zero => simp
    | succ n =>
      cases m with
      | zero => omega
      | succ m =>
        simp only [List.take_succ_cons, List.sum_cons]
        have := ih n m (by omega)
        omega

theorem ceil_div8 (x : Int) : ⌈(x : ℚ) / 8⌉ = (x + 7) / 8 := by
  have h : 8 * ((x + 7) / 8) ≤ x + 7 ∧ x + 7 < 8 * ((x + 7) / 8) + 8 := by omega
  generalize (x + 7) / 8 = q at h
  rw [Int.ceil_eq_iff]
  have h1 : ((8 * q : Int) : ℚ) ≤ ((x + 7 : Int) : ℚ) := by exact_mod_cast h.1
  have h2 : ((x + 7 : Int) : ℚ) < ((8 * q + 8 : Int) : ℚ) := by exact_mod_cast h.2
  push_cast at h1 h2
  constructor
  · rw [lt_div_iff₀ (by norm_num)]
    linarith
  · rw [div_le_iff₀ (by norm_num)]
    have h3 : (x : ℚ) + 7 ≤ 8 * q + 7 := by
      have : x + 7 ≤ 8 * q + 7 := by omega
      exact_mod_cast this
    linarith

theorem sum_take_getD (l : List Nat) (n : Nat) (h : n < l.length) :
    (((l.take (n + 1)).sum : Nat) : Int) - (((l.take n).sum : Nat) : Int) = (l.getD n 0 : Nat) := by
  rw [sum_take_succ l n h]
  push_cast
  omega

/-- `dochannel` returns on a channel group with tag 1 whose count table is in the file
and has fewer than 2^31 entries. -/
theorem dochannel_rle_returns (s : St) (li : Option layer_info) (idx C R : Nat)
    (cols depth : Int)
    (hli : li = none ∨ ∃ l L, li = some l ∧ chlenOf l idx = .ok L ∧ 2 ≤ L
              ∧ channelGeometry l idx (R : Int) cols = .ok ((R : Int), cols))
    (heof : s.f.eof = false) (hlen : s.f.pos + 2 + 2 * (C * R) ≤ s.f.data.length)
    (htag : u16At s.f.data s.f.pos = 1) (hCR : C * R < 2 ^ 31) :
    ∃ r, dochannel s li idx (C : Int) (R : Int) cols depth = .ok r ∧ r.comp = 1 := by
  obtain ⟨hasli, chlen0, e, _⟩ := dochannel_body s li idx (C : Int) (R : Int) cols depth hli
  rw [e]
  have hs : (get2Bu s.f).2 = FILE.mk s.f.data (s.f.pos + 2) s.f.eof := get2Bu_snd s.f (by omega)
  have hf : (get2Bu s.f).1 = 1 := by rw [get2Bu_fst s.f (by omega)]; exact htag
  obtain ⟨t, ht, _⟩ := rleChannelLoop_spec (rowBytes cols depth) (R : Int).toNat (C : Int).toNat
    (get2Bu s.f).2 (ftell (get2Bu s.f).2 + wrapS 32 (2 * (C : Int) * (R : Int)))
    (by rw [hs]; exact heof) (by rw [hs]; simp only [Int.toNat_ofNat]; omega)
  have hm : 0 ≤ wrapS 32 ((C : Int) * (R : Int)) := by
    have : ((C : Int) * (R : Int)) = ((C * R : Nat) : Int) := by push_cast; rfl
    rw [this, wrapS32_id _ (by omega) (by omega)]
    omega
  obtain ⟨r, hr, hc, _⟩ := dochannelBody_rle s hasli (ftell s.f) chlen0 (C : Int) (R : Int)
    cols depth t (Or.inr (by omega)) (by rw [guessComp_le _ _ _ _ (by omega)]; exact hf) hm ht
  exact ⟨r, hr, hc⟩

/-- The first entry of the table of an RLE channel group of the merged image. -/
theorem rle_rowpos_first (s : St) (C R : Nat) (cols depth : Int)
    (heof : s.f.eof = false) (hlen : s.f.pos + 2 + 2 * (C * R) ≤ s.f.data.length)
    (htag : u16At s.f.data s.f.pos = 1) (hCR : C * R < 2 ^ 31) (hC : 0 < C) :
    ∃ r, dochannel s none 0 (C : Int) (R : Int) cols depth = .ok r ∧ r.comp = 1
      ∧ (r.rowpos.getD 0 []).getD 0 0
          = (s.f.pos : Int) + 2 + wrapS 32 (2 * (C : Int) * (R : Int)) := by
  obtain ⟨r, hr, hc⟩ :=
    dochannel_rle_returns s none 0 C R cols depth (Or.inl rfl) heof hlen htag hCR
  obtain ⟨_, _, g3⟩ := dochannel_rle_table s none 0 C R cols depth r (Or.inl rfl) hr hc heof hlen
  refine ⟨r, hr, hc, ?_⟩
  rw [g3 0 0 hC (by omega)]
  simp

theorem u16At_cons2 (a b : Byte) (rest : List Byte) :
    u16At (a :: b :: rest) 0 = 256 * a.val + b.val := by
  simp [u16At, byteAt]

/-- The table of a 64-channel RLE group with 2^24 rows: `2*channels*rows` leaves the
range of `int`. -/
theorem rle_rowpos_first_wraps (rest : List Byte) (hr : rest.length = 2147483648) :
    ∃ r, dochannel (cexSt (0 :: 1 :: rest)) none 0
            ((64 : Nat) : Int) ((16777216 : Nat) : Int) 1 8 = .ok r
      ∧ r.comp = 1
      ∧ 0 + 2 + 2 * (64 * 16777216) ≤ (0 :: 1 :: rest).length
      ∧ (r.rowpos.getD 0 []).getD 0 0 = 2 - 2147483648
      ∧ (r.rowpos.getD 0 []).getD 0 0 ≠ 0 + 2 + 2 * 64 * 16777216 := by
  have hl : (0 :: 1 :: rest).length = 2147483650 := by
    simp only [List.length_cons, hr]
  have hlen : (cexSt (0 :: 1 :: rest)).f.pos + 2 + 2 * (64 * 16777216)
      ≤ (cexSt (0 :: 1 :: rest)).f.data.length := by
    simp only [cexSt, hl]
    decide
  have htag : u16At (cexSt (0 :: 1 :: rest)).f.data (cexSt (0 :: 1 :: rest)).f.pos = 1 := by
    simp only [cexSt]
    rw [u16At_cons2]
    decide
  obtain ⟨r, hr, hc, h0⟩ := rle_rowpos_first (cexSt (0 :: 1 :: rest))
    64 16777216 1 8 rfl hlen htag (by decide) (by decide)
  have hw : wrapS 32 (2 * ((64 : Nat) : Int) * ((16777216 : Nat) : Int)) = -2147483648 := by
    decide
  rw [hw] at h0
  simp only [cexSt] at h0
  refine ⟨r, hr, hc, ?_, ?_, ?_⟩
  · rw [hl]
  · rw [h0]; decide
  · rw [h0]; decide

/-! ## C2: the clamp of the RLE counts -/

/-- C2. RLE scanline-count clamp.  For a channel group that `dochannel` decodes as RLE
(`C` channels, `R` rows, merged image or a layer channel of declared length at least 2)
and whose count table is in the file: for every channel `c` and row `j` the count
recorded in `rlebuf` is the 16-bit count read from the stream when that count is at most
`2 * rowBytes`, and otherwise the count recorded for row `j - 1` of the same channel
(`rowBytes` itself when `j = 0`).  With tag 1 and fewer than 2^31 counts `dochannel`
does return such a result. -/
theorem rle_count_clamp (s : St) (li : Option layer_info) (idx C R : Nat) (cols depth : Int)
    (hli : li = none ∨ ∃ l L, li = some l ∧ chlenOf l idx = .ok L ∧ 2 ≤ L
              ∧ channelGeometry l idx (R : Int) cols = .ok ((R : Int), cols))
    (heof : s.f.eof = false) (hlen : s.f.pos + 2 + 2 * (C * R) ≤ s.f.data.length) :
    (∀ r, dochannel s li idx (C : Int) (R : Int) cols depth = .ok r → r.comp = 1 →
      ∀ c j, c < C → j < R →
        r.rlebuf.getD (c * R + j) 0 =
          if u16At s.f.data (s.f.pos + 2 + 2 * (c * R + j)) ≤ 2 * rowBytes cols depth
          then u16At s.f.data (s.f.pos + 2 + 2 * (c * R + j))
          else if j = 0 then rowBytes cols depth else r.rlebuf.getD (c * R + j - 1) 0)
    ∧ (u16At s.f.data s.f.pos = 1 → C * R < 2 ^ 31 →
        ∃ r, dochannel s li idx (C : Int) (R : Int) cols depth = .ok r ∧ r.comp = 1) := by
  constructor
  · intro r h hc c j hcC hj
    obtain ⟨_, g, _⟩ := dochannel_rle_table s li idx C R cols depth r hli h hc heof hlen
    rw [g c j hcC hj, clampCount_rowBytes _ _ _ _ (u16At_lt _ _)]
  · intro htag hCR
    exact dochannel_rle_returns s li idx C R cols depth hli heof hlen htag hCR

/-- C2 at a concrete channel group: 3 rows of 4 columns at depth 8 (`rowBytes = 4`),
counts 2, 10000, 3; the count 10000 of row 1 is recorded as the count of row 0. -/
theorem rle_count_clamp_witness :
    ∃ r, dochannel (cexSt [0, 1, 0, 2, 39, 16, 0, 3, 1, 2, 3, 4, 5, 6, 7]) none 0
            ((1 : Nat) : Int) ((3 : Nat) : Int) 4 8 = .ok r
      ∧ u16At [0, 1, 0, 2, 39, 16, 0, 3, 1, 2, 3, 4, 5, 6, 7] 4 = 10000
      ∧ r.rlebuf.getD 1 0 = r.rlebuf.getD 0 0 := by
  have h := rle_count_clamp (cexSt [0, 1, 0, 2, 39, 16, 0, 3, 1, 2, 3, 4, 5, 6, 7]) none 0 1 3 4 8
    (Or.inl rfl) rfl (by decide)
  obtain ⟨r, hr, hc⟩ := h.2 (by decide) (by decide)
  have h1 := h.1 r hr hc 0 1 (by decide) (by decide)
  have e : u16At (cexSt [0, 1, 0, 2, 39, 16, 0, 3, 1, 2, 3, 4, 5, 6, 7]).f.data
      ((cexSt [0, 1, 0, 2, 39, 16, 0, 3, 1, 2, 3, 4, 5, 6, 7]).f.pos + 2 + 2 * (0 * 3 + 1))
      = 10000 := by decide
  have e4 : rowBytes 4 8 = 4 := by decide
  rw [e, e4] at h1
  exact ⟨r, hr, by decide, by simpa using h1⟩

/-! ## C7: the row-position table of an RLE channel group -/

/-- C7 (as the code has it). RLE row-position table.  For a channel group that
`dochannel` decodes as RLE (`C` channels, `R` rows) whose count table is in the file and
whose size `2*C*R` is within the range of `int`, with `P = pos + 2` the cursor just after
the compression tag: `rowpos[0][0] = P + 2*C*R`; `rowpos[c][j+1] - rowpos[c][j]` is the
recorded count of row `j` of channel `c`; the sentinel `rowpos[c][R]` equals
`rowpos[c+1][0]`; every entry is `P + 2*C*R` plus the sum of the recorded counts of all
rows before it in channel-major order; the table is non-decreasing in that order.  With
tag 1 `dochannel` does return such a result. -/
theorem rle_rowpos_table (s : St) (li : Option layer_info) (idx C R : Nat) (cols depth : Int)
    (hli : li = none ∨ ∃ l L, li = some l ∧ chlenOf l idx = .ok L ∧ 2 ≤ L
              ∧ channelGeometry l idx (R : Int) cols = .ok ((R : Int), cols))
    (heof : s.f.eof = false) (hlen : s.f.pos + 2 + 2 * (C * R) ≤ s.f.data.length)
    (hint : 2 * (C * R) < 2 ^ 31) :
    (∀ r, dochannel s li idx (C : Int) (R : Int) cols depth = .ok r → r.comp = 1 →
      (0 < C → (r.rowpos.getD 0 []).getD 0 0 = (s.f.pos : Int) + 2 + 2 * C * R)
      ∧ (∀ c j, c < C → j < R →
          (r.rowpos.getD c []).getD (j + 1) 0 - (r.rowpos.getD c []).getD j 0
            = (r.rlebuf.getD (c * R + j) 0 : Nat))
      ∧ (∀ c, c + 1 < C → (r.rowpos.getD c []).getD R 0 = (r.rowpos.getD (c + 1) []).getD 0 0)
      ∧ (∀ c j, c < C → j ≤ R →
          (r.rowpos.getD c []).getD j 0
            = (s.f.pos : Int) + 2 + 2 * C * R + ((r.rlebuf.take (c * R + j)).sum : Nat))
      ∧ (∀ c j c' j', c < C → j ≤ R → c' < C → j' ≤ R → c * R + j ≤ c' * R + j' →
          (r.rowpos.getD c []).getD j 0 ≤ (r.rowpos.getD c' []).getD j' 0))
    ∧ (u16At s.f.data s.f.pos = 1 →
        ∃ r, dochannel s li idx (C : Int) (R : Int) cols depth = .ok r ∧ r.comp = 1) := by
  have hw : wrapS 32 (2 * (C : Int) * (R : Int)) = 2 * (C : Int) * (R : Int) := by
    have e : 2 * (C : Int) * (R : Int) = ((2 * (C * R) : Nat) : Int) := by push_cast; ring
    rw [e]
    exact wrapS32_id _ (by omega) (by omega)
  constructor
  · intro r h hc
    obtain ⟨g1, _, g3⟩ := dochannel_rle_table s li idx C R cols depth r hli h hc heof hlen
    simp only [hw] at g3
    refine ⟨?_, ?_, ?_, ?_, ?_⟩
    · intro hC
      rw [g3 0 0 hC (by omega)]
      simp
    · intro c j hcC hj
      rw [g3 c (j + 1) hcC (by omega), g3 c j hcC (by omega)]
      have hlt : c * R + j < r.rlebuf.length := by
        rw [g1]
        have : (c + 1) * R ≤ C * R := Nat.mul_le_mul_right R (by omega)
        rw [Nat.succ_mul] at this
        omega
      have := sum_take_getD r.rlebuf (c * R + j) hlt
      have e : c * R + (j + 1) = c * R + j + 1 := by omega
      rw [e]
      omega
    · intro c hcC
      rw [g3 c R (by omega) (by omega), g3 (c + 1) 0 hcC (by omega)]
      have e : (c + 1) * R + 0 = c * R + R := by rw [Nat.succ_mul]; omega
      rw [e]
    · intro c j hcC hj
      exact g3 c j hcC hj
    · intro c j c' j' hcC hj hcC' hj' hle
      rw [g3 c j hcC hj, g3 c' j' hcC' hj']
      have := sum_take_mono r.rlebuf _ _ hle
      omega
  · intro htag
    exact dochannel_rle_returns s li idx C R cols depth hli heof hlen htag (by omega)

/-- C7 at a concrete channel group: one channel, 3 rows, counts 2, 10000 (recorded as
2) and 3, the cursor after the tag at 2: the table is 8, 10, 12, 15. -/
theorem rle_rowpos_table_witness :
    ∃ r, dochannel (cexSt [0, 1, 0, 2, 39, 16, 0, 3, 1, 2, 3, 4, 5, 6, 7]) none 0
            ((1 : Nat) : Int) ((3 : Nat) : Int) 4 8 = .ok r
      ∧ (r.rowpos.getD 0 []).getD 0 0 = 8
      ∧ (r.rowpos.getD 0 []).getD 1 0 - (r.rowpos.getD 0 []).getD 0 0
          = (r.rlebuf.getD 0 0 : Nat) := by
  have h := rle_rowpos_table (cexSt [0, 1, 0, 2, 39, 16, 0, 3, 1, 2, 3, 4, 5, 6, 7]) none 0 1 3
    4 8 (Or.inl rfl) rfl (by decide) (by decide)
  obtain ⟨r, hr, hc⟩ := h.2 (by decide)
  obtain ⟨h0, h1, _⟩ := h.1 r hr hc
  refine ⟨r, hr, ?_, ?_⟩
  · rw [h0 (by decide)]
    decide
  · simpa using h1 0 0 (by decide) (by decide)

/-- C7 as stated fails where `2*C*R` leaves the range of `int`: for 64 channels of
2^24 rows, tag 1 followed by the 2^31 bytes of an all-zero count table, the table is
read in full and `rowpos[0][0]` is `2 - 2^31`, not `P + 2*C*R = 2 + 2^31`. -/
theorem rle_rowpos_table_overflow :
    ∃ r, dochannel (cexSt (0 :: 1 :: List.replicate 2147483648 0)) none 0
            ((64 : Nat) : Int) ((16777216 : Nat) : Int) 1 8 = .ok r
      ∧ r.comp = 1
      ∧ 0 + 2 + 2 * (64 * 16777216) ≤ (0 :: 1 :: List.replicate 2147483648 (0 : Byte)).length
      ∧ (r.rowpos.getD 0 []).getD 0 0 = 2 - 2147483648
      ∧ (r.rowpos.getD 0 []).getD 0 0 ≠ 0 + 2 + 2 * 64 * 16777216 :=
  rle_rowpos_first_wraps (List.replicate 2147483648 0) (List.length_replicate _ _)

/-! ## C8: the row-position table of a raw channel group -/

/-- C8 (as the code has it). Raw row-position table.  For a channel group with tag 0
(`C` channels, `R` rows, `cols` and `depth` non-negative with `cols*depth + 7` within the
range of `int`), `dochannel` returns 0, its row byte count is `ceil(cols*depth/8)`, with
`P = pos + 2` the cursor just after the tag `rowpos[c][j] = P + (c*R + j) * rowBytes` for
`c < C` and `j ≤ R`, and the extent `rowpos[c][R] - rowpos[c][0]` of each channel is
`R * ceil(cols*depth/8)`. -/
theorem raw_rowpos_table (s : St) (li : Option layer_info) (idx C R : Nat) (cols depth : Int)
    (hli : li = none ∨ ∃ l L, li = some l ∧ chlenOf l idx = .ok L ∧ 2 ≤ L
              ∧ channelGeometry l idx (R : Int) cols = .ok ((R : Int), cols))
    (hlen : s.f.pos + 2 ≤ s.f.data.length) (htag : u16At s.f.data s.f.pos = 0)
    (hc0 : 0 ≤ cols) (hd0 : 0 ≤ depth) (hint : cols * depth + 7 < 2 ^ 31) :
    ∃ r, dochannel s li idx (C : Int) (R : Int) cols depth = .ok r ∧ r.comp = 0
      ∧ (rowBytes cols depth : Int) = ⌈((cols * depth : Int) : ℚ) / 8⌉
      ∧ (∀ c j, c < C → j ≤ R →
          (r.rowpos.getD c []).getD j 0
            = (s.f.pos : Int) + 2 + ((c : Int) * R + j) * (rowBytes cols depth : Int))
      ∧ (∀ c, c < C →
          (r.rowpos.getD c []).getD R 0 - (r.rowpos.getD c []).getD 0 0
            = (R : Int) * ⌈((cols * depth : Int) : ℚ) / 8⌉) := by
  obtain ⟨hasli, chlen0, e, _⟩ := dochannel_body s li idx (C : Int) (R : Int) cols depth hli
  rw [e]
  have hs : (get2Bu s.f).2 = FILE.mk s.f.data (s.f.pos + 2) s.f.eof := get2Bu_snd s.f hlen
  have hf : (get2Bu s.f).1 = 0 := by rw [get2Bu_fst s.f hlen]; exact htag
  obtain ⟨r, hr, hc⟩ := dochannelBody_raw s hasli (ftell s.f) chlen0 (C : Int) (R : Int) cols depth
    (Or.inr (by omega)) (by rw [guessComp_le _ _ _ _ (by omega)]; exact hf)
  obtain ⟨ht, _⟩ := (dochannelBody_table _ _ _ _ _ _ _ _ _ hr).2 hc
  rw [hs] at ht
  simp only [Int.toNat_ofNat, ftell] at ht
  obtain ⟨_, g⟩ := rawChannelLoop_spec (rowBytes cols depth) R C ((s.f.pos + 2 : Nat) : Int)
  have hrb : (rowBytes cols depth : Int) = ⌈((cols * depth : Int) : ℚ) / 8⌉ := by
    rw [ceil_div8]
    exact rowBytes_exact cols depth (Int.mul_nonneg hc0 hd0) hint
  refine ⟨r, hr, hc, hrb, ?_, ?_⟩
  · intro c j hcC hj
    rw [ht, g c j hcC hj]
    push_cast
    ring
  · intro c hcC
    rw [ht, g c R hcC (by omega), g c 0 hcC (by omega), ← hrb]
    push_cast
    ring

/-- C8 at 4 rows of 4 columns at depth 8. -/
theorem raw_rowpos_table_witness :
    ∃ r, dochannel (cexSt [0, 0, 1, 2, 3, 4, 5, 6, 7, 8, 9, 10, 11, 12, 13, 14, 15, 16]) none 0
            ((1 : Nat) : Int) ((4 : Nat) : Int) 4 8 = .ok r ∧ r.comp = 0
      ∧ (rowBytes 4 8 : Int) = ⌈((4 * 8 : Int) : ℚ) / 8⌉
      ∧ (∀ c j, c < 1 → j ≤ 4 →
          (r.rowpos.getD c []).getD j 0
            = ((cexSt [0, 0, 1, 2, 3, 4, 5, 6, 7, 8, 9, 10, 11, 12, 13, 14, 15, 16]).f.pos : Int)
                + 2 + ((c : Int) * (4 : Nat) + j) * (rowBytes 4 8 : Int))
      ∧ (∀ c, c < 1 →
          (r.rowpos.getD c []).getD 4 0 - (r.rowpos.getD c []).getD 0 0
            = ((4 : Nat) : Int) * ⌈((4 * 8 : Int) : ℚ) / 8⌉) :=
  raw_rowpos_table (cexSt [0, 0, 1, 2, 3, 4, 5, 6, 7, 8, 9, 10, 11, 12, 13, 14, 15, 16]) none 0
    1 4 4 8 (Or.inl rfl) (by decide) (by decide) (by decide) (by decide) (by decide)

/-- C8 as stated fails where `cols*depth` leaves the range of `int`: with tag 0, one
channel, one row, 2^29 columns at depth 8 the row byte count is 0, not
`ceil(2^29 * 8 / 8) = 2^29`, and the extent of the channel is 0 bytes. -/
theorem raw_rowpos_overflow :
    ∃ r, dochannel (cexSt [0, 0]) none 0 1 1 536870912 8 = .ok r ∧ r.comp = 0
      ∧ rowBytes 536870912 8 = 0
      ∧ (536870912 * 8 + 7) / 8 = 536870912
      ∧ (r.rowpos.getD 0 []).getD 1 0 - (r.rowpos.getD 0 []).getD 0 0 = 0
      ∧ (r.rowpos.getD 0 []).getD 1 0 - (r.rowpos.getD 0 []).getD 0 0 ≠ 1 * 536870912 :=
  ⟨{ comp := 0, rowpos := [[2, 2]], rlebuf := [],
     st := { f := { data := [0, 0], pos := 2, eof := false }, nwarns := 0, mergedalpha := 0,
             err := [], png := [] } },
   rfl, rfl, by decide, by decide, by decide, by decide⟩

/-! ## C9: the cursor after a layer channel -/

/-- C9 (as the code has it). Channel resynchronisation.  For a layer channel whose
declared length `L` is at least 2, whenever `dochannel` returns the cursor is at
`start + L` (which is `start + 2 + (L - 2)`: the declared length counts the two bytes
of the compression tag), whatever the tag, the row counts and the row data. -/
theorem dochannel_resync (s : St) (l : layer_info) (idx : Nat)
    (channels rows cols depth L : Int) (r : ChanResult)
    (hL : chlenOf l idx = .ok L) (h2 : 2 ≤ L)
    (h : dochannel s (some l) idx channels rows cols depth = .ok r) :
    ftell r.st.f = ftell s.f + L := by
  simp only [dochannel, hL] at h
  rw [if_neg (by omega)] at h
  split at h
  · cases h
  · rcases dochannelBody_ok _ _ _ _ _ _ _ _ _ h with ⟨hf, _⟩ | ⟨_, _, hp⟩
    · cases hf
    · exact hp rfl (by simp only [ftell]; omega)

/-- C9 at a concrete raw channel of declared length 6 that starts at offset 0. -/
theorem dochannel_resync_witness :
    ftell (ChanResult.mk 0 [[2, 6]] []
        { f := { data := [0, 0, 1, 2, 3, 4, 9, 9], pos := 6, eof := false },
          nwarns := 0, mergedalpha := 0, err := [], png := [] }).st.f
      = ftell (cexSt [0, 0, 1, 2, 3, 4, 9, 9]).f + 6 :=
  dochannel_resync (cexSt [0, 0, 1, 2, 3, 4, 9, 9]) cexLayer 0 1 1 4 8 6 _ rfl (by decide) c9_eval

/-- C9 as stated fails: a raw channel of declared length 6 that starts at offset 0
leaves the cursor at 6, not at `start + 2 + L = 8`. -/
theorem dochannel_resync_not_plus_two :
    ∃ r, dochannel (cexSt [0, 0, 1, 2, 3, 4, 9, 9]) (some cexLayer) 0 1 1 4 8 = .ok r
      ∧ chlenOf cexLayer 0 = .ok 6
      ∧ ftell r.st.f = 6
      ∧ ftell r.st.f ≠ ftell (cexSt [0, 0, 1, 2, 3, 4, 9, 9]).f + 2 + 6 :=
  ⟨_, c9_eval, rfl, rfl, by decide⟩

/-! ## C10: the value returned by `dochannel` -/

/-- C10. Compression-tag outcome of `dochannel`, with `t` the tag read by `get2Bu`.
Every value returned is -1, 0 or 1.  Merged image: tag 0 returns 0; tag 1 returns 1
whenever `dochannel` returns, and it returns when the count table is in the file; a tag
above 1 returns -1 (channel skipped).  Layer channel of declared length `L ≥ 2` with
geometry `g` in force: tag 0 returns 0; tag 1 returns 1 whenever `dochannel` returns;
for a tag above 1 the value returned is 0 exactly when `L - 2 = rows * rowBytes`, and 1
otherwise; `dochannel` returns when the compression in force is raw, and when it is RLE
and the count table is in the file. -/
theorem dochannel_outcome (s : St) (li : Option layer_info) (idx : Nat)
    (channels rows cols depth : Int) :
    (∀ r, dochannel s li idx channels rows cols depth = .ok r →
        r.comp = -1 ∨ r.comp = 0 ∨ r.comp = 1)
    ∧ (li = none →
        ((get2Bu s.f).1 = 0 →
          ∃ r, dochannel s li idx channels rows cols depth = .ok r ∧ r.comp = 0)
        ∧ ((get2Bu s.f).1 = 1 →
          ∀ r, dochannel s li idx channels rows cols depth = .ok r → r.comp = 1)
        ∧ ((get2Bu s.f).1 = 1 → 0 ≤ wrapS 32 (channels * rows) →
            (get2Bu s.f).2.eof = false →
            (get2Bu s.f).2.pos + 2 * (channels.toNat * rows.toNat)
              ≤ (get2Bu s.f).2.data.length →
          ∃ r, dochannel s li idx channels rows cols depth = .ok r ∧ r.comp = 1)
        ∧ (1 < (get2Bu s.f).1 →
          ∃ r, dochannel s li idx channels rows cols depth = .ok r ∧ r.comp = -1))
    ∧ (∀ l L g, li = some l → chlenOf l idx = .ok L → 2 ≤ L →
        channelGeometry l idx rows cols = .ok g →
        ((get2Bu s.f).1 = 0 →
          ∃ r, dochannel s li idx channels rows cols depth = .ok r ∧ r.comp = 0)
        ∧ ((get2Bu s.f).1 = 1 →
          ∀ r, dochannel s li idx channels rows cols depth = .ok r → r.comp = 1)
        ∧ (1 < (get2Bu s.f).1 →
          ∀ r, dochannel s li idx channels rows cols depth = .ok r →
            (r.comp = 0 ↔ L - 2 = g.1 * (rowBytes g.2 depth : Int))
            ∧ (L - 2 ≠ g.1 * (rowBytes g.2 depth : Int) → r.comp = 1))
        ∧ (1 < (get2Bu s.f).1 → L - 2 = g.1 * (rowBytes g.2 depth : Int) →
          ∃ r, dochannel s li idx channels rows cols depth = .ok r ∧ r.comp = 0)
        ∧ (guessComp (get2Bu s.f).1 (L - 2) g.1 (rowBytes g.2 depth) = 1 →
            0 ≤ wrapS 32 (channels * g.1) →
            (get2Bu s.f).2.eof = false →
            (get2Bu s.f).2.pos + 2 * (channels.toNat * g.1.toNat)
              ≤ (get2Bu s.f).2.data.length →
          ∃ r, dochannel s li idx channels rows cols depth = .ok r ∧ r.comp = 1)) := by
  refine ⟨fun r h => dochannel_comp_cases s li idx channels rows cols depth r h, ?_, ?_⟩
  · intro hli
    subst hli
    refine ⟨?_, ?_, ?_, ?_⟩
    · intro ht
      exact dochannelBody_raw s false _ _ _ _ _ _ (Or.inr (by omega))
        (by rw [guessComp_le _ _ _ _ (by omega)]; exact ht)
    · intro ht r hr
      rcases dochannelBody_ok _ _ _ _ _ _ _ _ _ hr with ⟨_, h1, _⟩ | ⟨_, hc, _⟩
      · omega
      · rw [hc, guessComp_le _ _ _ _ (by omega), ht]; rfl
    · intro htag hm heof hlen
      obtain ⟨t, ht, _⟩ := rleChannelLoop_spec (rowBytes cols depth) rows.toNat channels.toNat
        (get2Bu s.f).2 (ftell (get2Bu s.f).2 + wrapS 32 (2 * channels * rows)) heof hlen
      obtain ⟨r, hr, hc, _⟩ := dochannelBody_rle s false (ftell s.f) 0 channels rows cols depth t
        (Or.inr (by omega)) (by rw [guessComp_le _ _ _ _ (by omega)]; exact htag) hm ht
      exact ⟨r, hr, hc⟩
    · intro ht
      exact dochannelBody_skip s _ _ _ _ _ _ ht
  · intro l L g hli hL h2 hg
    subst hli
    have e : dochannel s (some l) idx channels rows cols depth
        = dochannelBody s true (ftell s.f) L channels g.1 g.2 depth := by
      simp only [dochannel, hL, hg]
      rw [if_neg (by omega)]
    rw [e]
    refine ⟨?_, ?_, ?_, ?_, ?_⟩
    · intro ht
      exact dochannelBody_raw s true _ _ _ _ _ _ (Or.inl rfl)
        (by rw [guessComp_le _ _ _ _ (by omega)]; exact ht)
    · intro ht r hr
      rcases dochannelBody_ok _ _ _ _ _ _ _ _ _ hr with ⟨hf, _⟩ | ⟨_, hc, _⟩
      · cases hf
      · rw [hc, guessComp_le _ _ _ _ (by omega), ht]; rfl
    · intro ht r hr
      rcases dochannelBody_ok _ _ _ _ _ _ _ _ _ hr with ⟨hf, _⟩ | ⟨_, hc, _⟩
      · cases hf
      · rw [hc, guessComp_gt _ _ _ _ ht]
        constructor
        · constructor
          · intro h0
            by_contra hne
            rw [if_neg hne] at h0
            simp at h0
          · intro heq
            rw [if_pos heq]; rfl
        · intro hne
          rw [if_neg hne]; rfl
    · intro ht heq
      exact dochannelBody_raw s true _ _ _ _ _ _ (Or.inl rfl)
        (by rw [guessComp_gt _ _ _ _ ht, if_pos heq])
    · intro hgc hm heof hlen
      obtain ⟨t, ht, _⟩ := rleChannelLoop_spec (rowBytes g.2 depth) g.1.toNat channels.toNat
        (get2Bu s.f).2 (ftell (get2Bu s.f).2 + wrapS 32 (2 * channels * g.1)) heof hlen
      obtain ⟨r, hr, hc, _⟩ := dochannelBody_rle s true (ftell s.f) L channels g.1 g.2 depth t
        (Or.inl rfl) hgc hm ht
      exact ⟨r, hr, hc⟩

/-! ## C3: the signed layer count -/

/-- C3. Signed layer count.  With `n` the signed 16-bit count that `get2B` reads at
the cursor, lines 432-437 of `dolayermaskinfo` use `|n|` as the number of layers; when
`n < 0` the merged-alpha flag is 1 afterwards, when `n ≥ 0` the flag is what it was; the
cursor has moved over the two bytes. -/
theorem layer_count_signed (s : St) (hlen : s.f.pos + 2 ≤ s.f.data.length) :
    (get2B s.f).1 = wrapS 16 (u16At s.f.data s.f.pos : Nat)
    ∧ -32768 ≤ (get2B s.f).1 ∧ (get2B s.f).1 ≤ 32767
    ∧ (readLayerCount s).1 = |(get2B s.f).1|
    ∧ ((get2B s.f).1 < 0 → (readLayerCount s).2.mergedalpha = 1)
    ∧ (0 ≤ (get2B s.f).1 → (readLayerCount s).2.mergedalpha = s.mergedalpha)
    ∧ ftell (readLayerCount s).2.f = ftell s.f + 2 := by
  have hg := get2B_of_le s.f hlen
  have hu := u16At_lt s.f.data s.f.pos
  have hb : -32768 ≤ wrapS 16 (u16At s.f.data s.f.pos : Nat)
      ∧ wrapS 16 (u16At s.f.data s.f.pos : Nat) ≤ 32767 := by
    unfold wrapS
    norm_num
    omega
  unfold readLayerCount
  rw [hg]
  simp only []
  refine ⟨trivial, hb.1, hb.2, ?_, ?_, ?_, ?_⟩
  · split
    · rename_i hneg
      simp only []
      rw [wrapS32_id _ (by omega) (by omega), abs_of_neg hneg]
    · rename_i hpos
      simp only []
      rw [abs_of_nonneg (by omega)]
  · intro hneg
    rw [if_pos hneg]
  · intro hpos
    rw [if_neg (by omega)]
  · split <;> simp [ftell]

/-- C3 at the count -2 (bytes `FF FE`). -/
theorem layer_count_signed_witness :
    (get2B (cexSt [255, 254]).f).1 = wrapS 16 (u16At (cexSt [255, 254]).f.data (cexSt [255, 254]).f.pos : Nat)
    ∧ -32768 ≤ (get2B (cexSt [255, 254]).f).1 ∧ (get2B (cexSt [255, 254]).f).1 ≤ 32767
    ∧ (readLayerCount (cexSt [255, 254])).1 = |(get2B (cexSt [255, 254]).f).1|
    ∧ ((get2B (cexSt [255, 254]).f).1 < 0 → (readLayerCount (cexSt [255, 254])).2.mergedalpha = 1)
    ∧ (0 ≤ (get2B (cexSt [255, 254]).f).1 →
        (readLayerCount (cexSt [255, 254])).2.mergedalpha = (cexSt [255, 254]).mergedalpha)
    ∧ ftell (readLayerCount (cexSt [255, 254])).2.f = ftell (cexSt [255, 254]).f + 2 :=
  layer_count_signed (cexSt [255, 254]) (by decide)

/-- The count -2 gives 2 layers with the merged-alpha flag set. -/
theorem layer_count_minus_two :
    (get2B (cexSt [255, 254]).f).1 = -2 ∧ (readLayerCount (cexSt [255, 254])).1 = 2
      ∧ (readLayerCount (cexSt [255, 254])).2.mergedalpha = 1 := by
  decide

/-! ## C6: the image resources section -/

theorem PAD2_nonneg (x : Int) (h : 0 ≤ x) : 0 ≤ PAD2 x := by
  unfold PAD2
  omega

theorem PAD2_name (n : Nat) (h : n < 256) :
    2 ≤ PAD2 (1 + (n : Int)) ∧ PAD2 (1 + (n : Int)) ≤ 256
      ∧ sizeT (PAD2 (1 + (n : Int)) - 1) = (PAD2 (1 + (n : Int))).toNat - 1 := by
  unfold sizeT PAD2
  omega

theorem blockTotal_some (data : List Byte) (p : Nat) (t : Int)
    (h : blockTotal data p = some t) :
    sizeFieldAt data p + 4 ≤ data.length
    ∧ 0 ≤ wrapS 32 (u32At data (sizeFieldAt data p) : Nat)
    ∧ t = 4 + 2 + PAD2 (1 + ((byteAt data (p + 6) : Nat) : Int)) + 4
          + PAD2 (wrapS 32 (u32At data (sizeFieldAt data p) : Nat)) := by
  unfold blockTotal at h
  by_cases hc : sizeFieldAt data p + 4 ≤ data.length
      ∧ 0 ≤ wrapS 32 (u32At data (sizeFieldAt data p) : Nat)
  · rw [if_pos hc] at h
    exact ⟨hc.1, hc.2, (Option.some.inj h).symm⟩
  · rw [if_neg hc] at h
    cases h

theorem blockTotal_ge (data : List Byte) (p : Nat) (t : Int) (h : blockTotal data p = some t) :
    12 ≤ t := by
  obtain ⟨_, h2, h3⟩ := blockTotal_some data p t h
  have hn := PAD2_name _ (byteAt_lt data (p + 6))
  have hs := PAD2_nonneg _ h2
  omega

/-- `doirb` on a block whose header is in the file. -/
theorem doirb_present (f : FILE) (hq : sizeFieldAt f.data f.pos + 4 ≤ f.data.length) :
    doirb f = (4 + 2 + PAD2 (1 + ((byteAt f.data (f.pos + 6) : Nat) : Int)) + 4
                + PAD2 (wrapS 32 (u32At f.data (sizeFieldAt f.data f.pos) : Nat)),
              fseekCur (FILE.mk f.data (sizeFieldAt f.data f.pos + 4) f.eof)
                (PAD2 (wrapS 32 (u32At f.data (sizeFieldAt f.data f.pos) : Nat)))) := by
  have hn := PAD2_name _ (byteAt_lt f.data (f.pos + 6))
  have hq0 : sizeFieldAt f.data f.pos
      = f.pos + 6 + (PAD2 (1 + ((byteAt f.data (f.pos + 6) : Nat) : Int))).toNat := by
    simp only [sizeFieldAt]
  generalize hA : PAD2 (1 + ((byteAt f.data (f.pos + 6) : Nat) : Int)) = A at hn hq0
  have h1 : (fread 4 f).2 = FILE.mk f.data (f.pos + 4) f.eof := by
    rw [fread_of_le 4 f (by omega)]
  have h2 : (get2B (FILE.mk f.data (f.pos + 4) f.eof)).2 = FILE.mk f.data (f.pos + 6) f.eof := by
    rw [get2B_of_le _ (by simp only []; omega)]
  have h3 : fgetc (FILE.mk f.data (f.pos + 6) f.eof)
      = (((byteAt f.data (f.pos + 6) : Nat) : Int), FILE.mk f.data (f.pos + 6 + 1) f.eof) := by
    rw [fgetc_of_lt _ (by simp only []; omega)]
  have h4 : (fread (A.toNat - 1) (FILE.mk f.data (f.pos + 6 + 1) f.eof)).2
      = FILE.mk f.data (sizeFieldAt f.data f.pos) f.eof := by
    rw [fread_of_le _ _ (by simp only []; omega)]
    simp only []
    congr 1
    omega
  have h5 := get4B_of_le (FILE.mk f.data (sizeFieldAt f.data f.pos) f.eof)
    (by simp only []; omega)
  unfold doirb
  simp only [h1, h2, h3, hA, hn.2.2, h4, h5]

theorem doirb_block_arith (p q : Nat) (A B t : Int) (hA : 2 ≤ A) (hs : 0 ≤ B)
    (h3 : t = 4 + 2 + A + 4 + B) (hq0 : q = p + 6 + A.toNat) :
    0 ≤ ((q + 4 : Nat) : Int) + B ∧ (((q + 4 : Nat) : Int) + B).toNat = p + t.toNat := by
  omega

theorem doirb_block (f : FILE) (t : Int) (h : blockTotal f.data f.pos = some t) :
    doirb f = (t, FILE.mk f.data (f.pos + t.toNat) false) := by
  obtain ⟨h1, h2, h3⟩ := blockTotal_some f.data f.pos t h
  rw [doirb_present f h1, ← h3]
  have hn := PAD2_name _ (byteAt_lt f.data (f.pos + 6))
  have hs := PAD2_nonneg _ h2
  have hq0 : sizeFieldAt f.data f.pos
      = f.pos + 6 + (PAD2 (1 + ((byteAt f.data (f.pos + 6) : Nat) : Int))).toNat := by
    simp only [sizeFieldAt]
  generalize hA : PAD2 (1 + ((byteAt f.data (f.pos + 6) : Nat) : Int)) = A at hn hq0 h3
  generalize hB : PAD2 (wrapS 32 (u32At f.data (sizeFieldAt f.data f.pos) : Nat)) = B at hs h3
  generalize hQ : sizeFieldAt f.data f.pos = q at hq0
  have ar := doirb_block_arith f.pos q A B t hn.1 hs h3 hq0
  unfold fseekCur
  simp only []
  rw [if_pos ar.1, ar.2]

theorem consumed_nonneg : ∀ (ts : List Int) (len : Int), (∀ t ∈ ts, 0 ≤ t) → 0 ≤ consumed len ts := by
  intro ts
  induction ts with
  | nil => intro len _; simp [consumed]
  | cons t ts ih =>
    intro len h
    simp only [consumed]
    split
    · have := ih (len - t) (fun x hx => h x (List.mem_cons_of_mem _ hx))
      have := h t (List.mem_cons_self _ _)
      omega
    · omega

theorem consumed_ge : ∀ (ts : List Int) (len : Int), (∀ t ∈ ts, 0 ≤ t) → 0 < len → len ≤ ts.sum →
    len ≤ consumed len ts := by
  intro ts
  induction ts with
  | nil => intro len _ h1 h2; simp at h2; omega
  | cons t ts ih =>
    intro len h h1 h2
    simp only [consumed, List.sum_cons] at *
    rw [if_pos h1]
    by_cases hlt : 0 < len - t
    · have := ih (len - t) (fun x hx => h x (List.mem_cons_of_mem _ hx)) hlt (by omega)
      omega
    · have := consumed_nonneg ts (len - t) (fun x hx => h x (List.mem_cons_of_mem _ hx))
      omega

theorem blocksAt_nonneg (data : List Byte) : ∀ (ts : List Int) (p : Nat), blocksAt data p ts →
    ∀ t ∈ ts, 0 ≤ t := by
  intro ts
  induction ts with
  | nil => intro p _ t ht; cases ht
  | cons a ts ih =>
    intro p h t ht
    obtain ⟨h1, h2⟩ := h
    rcases List.mem_cons.1 ht with e | e
    · subst e
      have := blockTotal_ge _ _ _ h1
      omega
    · exact ih _ h2 t e

theorem resourceLoop_done (fuel : Nat) (len : Int) (f : FILE) (h : ¬ len > 0) :
    resourceLoop fuel len f = some (len, f) := by
  cases fuel <;> simp [resourceLoop, h]

/-- The loop of `doimageresources` over blocks that are in the file. -/
theorem resourceLoop_blocks : ∀ (ts : List Int) (len : Int) (f : FILE) (fuel : Nat),
    blocksAt f.data f.pos ts → len ≤ ts.sum → ts.length ≤ fuel →
    resourceLoop fuel len f
      = some (len - consumed len ts,
              if len > 0 then FILE.mk f.data (f.pos + (consumed len ts).toNat) false else f) := by
  intro ts
  induction ts with
  | nil =>
    intro len f fuel _ hs _
    simp only [List.sum_nil] at hs
    rw [resourceLoop_done fuel len f (by omega), if_neg (by omega)]
    simp [consumed]
  | cons t ts ih =>
    intro len f fuel hb hs hf
    by_cases hl : len > 0
    · obtain ⟨hb1, hb2⟩ := hb
      have ht := blockTotal_ge _ _ _ hb1
      have hnn := blocksAt_nonneg _ _ _ hb2
      have hc := consumed_nonneg ts (len - t) hnn
      cases fuel with
      | zero => simp at hf
      | succ fuel =>
        simp only [List.sum_cons, List.length_cons] at hs hf
        rw [resourceLoop, if_pos hl, doirb_block f t hb1]
        simp only []
        rw [ih (len - t) (FILE.mk f.data (f.pos + t.toNat) false) fuel hb2 (by omega) (by omega)]
        simp only [consumed, if_pos hl]
        have e1 : len - t - consumed (len - t) ts = len - (t + consumed (len - t) ts) := by omega
        rw [e1]
        by_cases hle : len - t > 0
        · rw [if_pos hle]
          have e2 : f.pos + t.toNat + (consumed (len - t) ts).toNat
              = f.pos + (t + consumed (len - t) ts).toNat := by omega
          rw [e2]
        · rw [if_neg hle]
          have e0 : consumed (len - t) ts = 0 := by
            cases ts with
            | nil => rfl
            | cons a ts => simp only [consumed]; rw [if_neg hle]
          rw [e0]
          simp
    · rw [resourceLoop_done fuel len f hl, if_neg hl]
      simp [consumed, hl]

theorem warn_nwarns (s : St) (m : Msg) : (warn s m).nwarns = s.nwarns + 1 := by
  unfold warn
  simp only []
  split <;> split <;> rfl

theorem warn_err (s : St) (m : Msg) (h : s.nwarns < WARNLIMIT) : (warn s m).err = s.err ++ [m] := by
  unfold WARNLIMIT at h
  have h1 : ¬ s.nwarns = 10 := by omega
  have h2 : s.nwarns + 1 ≤ 10 := by omega
  simp only [warn, WARNLIMIT, h1, if_false, h2, if_true]

/-- C6 (as the code has it). Resource-section overrun.  For an image-resources
section whose declared length `L > 0` is less than the sum of the sizes `ts` of the
blocks present after the length field, `doimageresources` (given fuel for that many
blocks) returns; it has gone through whole blocks until their sizes add up to `L` or
more, so the cursor is at (offset just after the length field) + `T` with
`T = consumed L ts ≥ L`, past the declared end whenever `T ≠ L`; in that case `warn` is
called once, and the overrun message is printed unless the warning limit was reached;
when `T = L` nothing is reported. -/
theorem resources_overrun (s : St) (ts : List Int) (fuel : Nat)
    (hlen : s.f.pos + 4 ≤ s.f.data.length)
    (hL : 0 < wrapS 32 (u32At s.f.data s.f.pos : Nat))
    (hb : blocksAt s.f.data (s.f.pos + 4) ts)
    (hsum : wrapS 32 (u32At s.f.data s.f.pos : Nat) < ts.sum)
    (hfuel : ts.length ≤ fuel) :
    ∃ s', doimageresources fuel s = some s'
      ∧ ftell s'.f = ftell s.f + 4 + consumed (wrapS 32 (u32At s.f.data s.f.pos : Nat)) ts
      ∧ wrapS 32 (u32At s.f.data s.f.pos : Nat)
          ≤ consumed (wrapS 32 (u32At s.f.data s.f.pos : Nat)) ts
      ∧ (consumed (wrapS 32 (u32At s.f.data s.f.pos : Nat)) ts
            ≠ wrapS 32 (u32At s.f.data s.f.pos : Nat) →
          s'.nwarns = s.nwarns + 1
          ∧ (s.nwarns < WARNLIMIT → s'.err = s.err ++ [Msg.resourcesOverran
              (consumed (wrapS 32 (u32At s.f.data s.f.pos : Nat)) ts
                - wrapS 32 (u32At s.f.data s.f.pos : Nat))]))
      ∧ (consumed (wrapS 32 (u32At s.f.data s.f.pos : Nat)) ts
            = wrapS 32 (u32At s.f.data s.f.pos : Nat) →
          s'.nwarns = s.nwarns ∧ s'.err = s.err) := by
  have hnn := blocksAt_nonneg _ _ _ hb
  have hge := consumed_ge ts _ hnn hL (le_of_lt hsum)
  have hloop := resourceLoop_blocks ts (wrapS 32 (u32At s.f.data s.f.pos : Nat))
    (FILE.mk s.f.data (s.f.pos + 4) s.f.eof) fuel hb (le_of_lt hsum) hfuel
  have hg : get4B s.f = (wrapS 32 (u32At s.f.data s.f.pos : Nat),
      FILE.mk s.f.data (s.f.pos + 4) s.f.eof) := get4B_of_le s.f hlen
  generalize wrapS 32 (u32At s.f.data s.f.pos : Nat) = L at *
  generalize hT : consumed L ts = T at *
  rw [if_pos hL] at hloop
  unfold doimageresources
  rw [hg]
  simp only []
  rw [hloop]
  simp only []
  have ht : L - T ≠ 0 ↔ T ≠ L := by omega
  by_cases hTL : T = L
  · rw [if_neg (by omega)]
    refine ⟨_, rfl, ?_, hge, fun hne => absurd hTL hne, fun _ => ⟨rfl, rfl⟩⟩
    simp only [ftell]
    omega
  · rw [if_pos (by omega)]
    refine ⟨_, rfl, ?_, hge, fun _ => ⟨?_, ?_⟩, fun he => absurd he hTL⟩
    · rw [warn_f]
      simp only [ftell]
      omega
    · rw [warn_nwarns]
    · intro hw
      rw [warn_err _ _ (by exact hw)]
      have e : -(L - T) = T - L := by omega
      rw [e]

/-- C6 as stated fails: with a declared length of 4 and one block of 12 bytes,
`doimageresources` returns with the cursor at 4 + 12 = 16, not at 4 + 4 = 8. -/
theorem resources_overrun_past_declared_end :
    ∃ s', doimageresources 1 (cexSt resOverrunBytes)
        = some s'
      ∧ wrapS 32 (u32At resOverrunBytes 0 : Nat) = 4
      ∧ blockTotal resOverrunBytes 4 = some 12
      ∧ ftell s'.f = 16
      ∧ ftell s'.f ≠ 4 + 4 :=
  ⟨_, rfl, by decide, by decide, rfl, by decide⟩

/-- C6 at the section of declared length 4 that holds one block of 12 bytes. -/
theorem resources_overrun_witness :
    ∃ s', doimageresources 1 (cexSt resOverrunBytes) = some s'
      ∧ ftell s'.f = ftell (cexSt resOverrunBytes).f + 4
          + consumed (wrapS 32 (u32At (cexSt resOverrunBytes).f.data
              (cexSt resOverrunBytes).f.pos : Nat)) [12]
      ∧ wrapS 32 (u32At (cexSt resOverrunBytes).f.data (cexSt resOverrunBytes).f.pos : Nat)
          ≤ consumed (wrapS 32 (u32At (cexSt resOverrunBytes).f.data
              (cexSt resOverrunBytes).f.pos : Nat)) [12]
      ∧ (consumed (wrapS 32 (u32At (cexSt resOverrunBytes).f.data
              (cexSt resOverrunBytes).f.pos : Nat)) [12]
            ≠ wrapS 32 (u32At (cexSt resOverrunBytes).f.data
              (cexSt resOverrunBytes).f.pos : Nat) →
          s'.nwarns = (cexSt resOverrunBytes).nwarns + 1
          ∧ ((cexSt resOverrunBytes).nwarns < WARNLIMIT →
              s'.err = (cexSt resOverrunBytes).err ++ [Msg.resourcesOverran
                (consumed (wrapS 32 (u32At (cexSt resOverrunBytes).f.data
                    (cexSt resOverrunBytes).f.pos : Nat)) [12]
                  - wrapS 32 (u32At (cexSt resOverrunBytes).f.data
                      (cexSt resOverrunBytes).f.pos : Nat))]))
      ∧ (consumed (wrapS 32 (u32At (cexSt resOverrunBytes).f.data
              (cexSt resOverrunBytes).f.pos : Nat)) [12]
            = wrapS 32 (u32At (cexSt resOverrunBytes).f.data
              (cexSt resOverrunBytes).f.pos : Nat) →
          s'.nwarns = (cexSt resOverrunBytes).nwarns ∧ s'.err = (cexSt resOverrunBytes).err) :=
  resources_overrun (cexSt resOverrunBytes) [12] 1 (by decide) (by decide)
    ⟨by decide, trivial⟩ (by decide) (by decide)

/-! ## C4, C5: layer records -/

/-- C5 fails in the code. The pixel-data loop of `dolayermaskinfo` calls `doimage` for
every layer, the skipped ones included: on a section whose only layer has
`bottom < top` and one channel, the record loop leaves the channel tables of the layer
unassigned, `doimage` is entered with its channel count 1, and its first loop reads
`li->chid[0]`, which was never assigned. -/
theorem skipped_layer_is_decoded :
    (∃ l s', layerRecord true (cexSt skippedRecord) = .ok (l, s')
        ∧ l.bottom < l.top ∧ l.channels = 1 ∧ l.chid = none
        ∧ doimage ⟨false, false⟩ rgbHeader s' (some l) l.channels
            (wrapS 32 (l.bottom - l.top)) (wrapS 32 (l.right - l.left))
          = .error .undefinedRead)
    ∧ dolayermaskinfo true ⟨false, false⟩ rgbHeader (cexSt skippedSection)
        = .error .undefinedRead :=
  ⟨⟨_, _, rfl, by decide, rfl, rfl, rfl⟩, rfl⟩

/-! ## C11: the reverse index of channel ids -/

theorem getD_set_self (l : List Int) (i : Nat) (a : Int) (h : i < l.length) :
    (l.set i a).getD i 0 = a := by
  rw [List.getD_eq_getElem?_getD, List.getElem?_set_self h]
  rfl

theorem getD_set_ne (l : List Int) (i j : Nat) (a : Int) (h : i ≠ j) :
    (l.set i a).getD j 0 = l.getD j 0 := by
  rw [List.getD_eq_getElem?_getD, List.getElem?_set_ne h, ← List.getD_eq_getElem?_getD]

theorem getD_mem (l : List Int) (i : Nat) (h : i < l.length) : l.getD i 0 ∈ l := by
  rw [List.getD_eq_getElem l 0 h]
  exact List.getElem_mem h

theorem readChannelInfo_succ (N : Int) (k j : Nat) (ci : List Int) (s : St) :
    ∃ s2,
      (readChannelInfo N (k + 1) j ci s).chid
        = (get2B s.f).1 :: (readChannelInfo N k (j + 1)
            (if decide (-2 ≤ (get2B s.f).1 ∧ (get2B s.f).1 < N) = true
              then ci.set ((get2B s.f).1 + 2).toNat (j : Int) else ci) s2).chid
      ∧ (readChannelInfo N (k + 1) j ci s).chlengths
        = (get4B (get2B s.f).2).1 :: (readChannelInfo N k (j + 1)
            (if decide (-2 ≤ (get2B s.f).1 ∧ (get2B s.f).1 < N) = true
              then ci.set ((get2B s.f).1 + 2).toNat (j : Int) else ci) s2).chlengths
      ∧ (readChannelInfo N (k + 1) j ci s).chindex
        = (readChannelInfo N k (j + 1)
            (if decide (-2 ≤ (get2B s.f).1 ∧ (get2B s.f).1 < N) = true
              then ci.set ((get2B s.f).1 + 2).toNat (j : Int) else ci) s2).chindex
      ∧ s2.f = (get4B (get2B s.f).2).2 := by
  rw [readChannelInfo]
  simp only []
  refine ⟨_, rfl, rfl, rfl, ?_⟩
  split
  · simp only []
  · simp only [warn_f]

theorem readChannelInfo_inv (N : Int) : ∀ (k j : Nat) (ci : List Int) (s : St),
    (readChannelInfo N k j ci s).chid.length = k
    ∧ (readChannelInfo N k j ci s).chlengths.length = k
    ∧ (readChannelInfo N k j ci s).chindex.length = ci.length
    ∧ ∀ c : Int, -2 ≤ c → c < N → (c + 2).toNat < ci.length →
        (c ∉ (readChannelInfo N k j ci s).chid →
          (readChannelInfo N k j ci s).chindex.getD (c + 2).toNat 0 = ci.getD (c + 2).toNat 0)
        ∧ (c ∈ (readChannelInfo N k j ci s).chid →
          ∃ i, IsLastAt (readChannelInfo N k j ci s).chid c i
            ∧ (readChannelInfo N k j ci s).chindex.getD (c + 2).toNat 0 = ((j + i : Nat) : Int)) := by
  intro k
  induction k with
  | zero =>
    intro j ci s
    refine ⟨rfl, rfl, rfl, fun c _ _ _ => ⟨fun _ => rfl, fun h => ?_⟩⟩
    exact absurd h (List.not_mem_nil c)
  | succ k ih =>
    intro j ci s
    obtain ⟨s2, e1, e2, e3, _⟩ := readChannelInfo_succ N k j ci s
    rw [e1, e2, e3]
    generalize (get2B s.f).1 = id at *
    generalize (get4B (get2B s.f).2).1 = len at *
    have hci1 : (if decide (-2 ≤ id ∧ id < N) = true then ci.set (id + 2).toNat (j : Int) else ci).length
        = ci.length := by
      split
      · exact List.length_set _ _ _
      · rfl
    obtain ⟨i1, i2, i3, i4⟩ := ih (j + 1)
      (if decide (-2 ≤ id ∧ id < N) = true then ci.set (id + 2).toNat (j : Int) else ci) s2
    generalize readChannelInfo N k (j + 1)
      (if decide (-2 ≤ id ∧ id < N) = true then ci.set (id + 2).toNat (j : Int) else ci) s2 = r
      at i1 i2 i3 i4 ⊢
    refine ⟨by rw [List.length_cons, i1], by rw [List.length_cons, i2], by rw [i3, hci1], ?_⟩
    intro c hc1 hc2 hc3
    obtain ⟨a1, a2⟩ := i4 c hc1 hc2 (by rw [hci1]; exact hc3)
    by_cases hmem : c ∈ r.chid
    · refine ⟨fun h => absurd (List.mem_cons_of_mem _ hmem) h, fun _ => ?_⟩
      obtain ⟨i, ⟨l1, l2, l3⟩, l4⟩ := a2 hmem
      refine ⟨i + 1, ⟨by rw [List.length_cons]; omega, by rw [List.getD_cons_succ]; exact l2, ?_⟩, ?_⟩
      · intro i' h1 h2
        obtain ⟨m, rfl⟩ : ∃ m, i' = m + 1 := ⟨i' - 1, by omega⟩
        rw [List.getD_cons_succ]
        exact l3 m (by omega) (by rw [List.length_cons] at h2; omega)
      · rw [l4]
        push_cast
        omega
    · have b := a1 hmem
      by_cases hid : c = id
      · subst hid
        refine ⟨fun h => absurd (List.mem_cons_self _ _) h, fun _ => ⟨0, ⟨?_, ?_, ?_⟩, ?_⟩⟩
        · rw [List.length_cons]; omega
        · rw [List.getD_cons_zero]
        · intro i' h1 h2
          obtain ⟨m, rfl⟩ : ∃ m, i' = m + 1 := ⟨i' - 1, by omega⟩
          rw [List.getD_cons_succ]
          intro h
          rw [List.length_cons] at h2
          exact hmem (h ▸ getD_mem r.chid m (by omega))
        · rw [b, if_pos (by simp only [decide_eq_true_eq]; exact ⟨hc1, hc2⟩),
            getD_set_self _ _ _ hc3]
          rfl
      · refine ⟨fun _ => ?_, fun h => ?_⟩
        · rw [b]
          split
          · rename_i hin
            simp only [decide_eq_true_eq] at hin
            exact getD_set_ne _ _ _ _ (by omega)
          · rfl
        · rcases List.mem_cons.1 h with h | h
          · exact absurd h hid
          · exact absurd h hmem

theorem readChannelInfo_stored (N : Int) : ∀ (k j : Nat) (ci : List Int) (s : St),
    s.f.pos + 6 * k ≤ s.f.data.length →
    ∀ i, i < k →
      (readChannelInfo N k j ci s).chid.getD i 0 = wrapS 16 (u16At s.f.data (s.f.pos + 6 * i) : Nat)
      ∧ (readChannelInfo N k j ci s).chlengths.getD i 0
          = wrapS 32 (u32At s.f.data (s.f.pos + 6 * i + 2) : Nat) := by
  intro k
  induction k with
  | zero => intro j ci s _ i hi; omega
  | succ k ih =>
    intro j ci s h i hi
    obtain ⟨s2, e1, e2, _, e4⟩ := readChannelInfo_succ N k j ci s
    have g2 := get2B_of_le s.f (by omega)
    have g4 := get4B_of_le (FILE.mk s.f.data (s.f.pos + 2) s.f.eof) (by simp only []; omega)
    rw [e1, e2]
    generalize (if decide (-2 ≤ (get2B s.f).1 ∧ (get2B s.f).1 < N) = true
      then ci.set ((get2B s.f).1 + 2).toNat (j : Int) else ci) = CI
    rw [g2] at e4 ⊢
    simp only [] at e4 ⊢
    rw [g4] at e4 ⊢
    simp only [] at e4 ⊢
    cases i with
    | zero =>
      rw [List.getD_cons_zero, List.getD_cons_zero, Nat.mul_zero, Nat.add_zero]
      constructor <;> with_reducible rfl
    | succ m =>
      rw [List.getD_cons_succ, List.getD_cons_succ]
      have hs2 : s2.f.pos + 6 * k ≤ s2.f.data.length := by rw [e4]; simp only []; omega
      have := ih (j + 1) CI s2 hs2 m (by omega)
      rw [e4] at this
      simp only [] at this
      have p1 : s.f.pos + 2 + 4 + 6 * m = s.f.pos + 6 * (m + 1) := by omega
      rw [p1] at this
      exact this

theorem layerOf_tables (top left bottom right channels : Int) (r : ChannelInfo)
    (x : Int × Option layer_mask_info × Except Halt Unit × FILE) (lay : layer_info) (s' : St)
    (h : layerOf top left bottom right channels r x = .ok (lay, s')) :
    lay.chid = some r.chid ∧ lay.chlengths = some r.chlengths ∧ lay.chindex = some r.chindex := by
  unfold layerOf at h
  split at h
  · cases h
  · simp only [Except.ok.injEq, Prod.mk.injEq] at h
    obtain ⟨h1, _⟩ := h
    subst h1
    exact ⟨rfl, rfl, rfl⟩

theorem parseLayerRecord_tables (s : St) (top left bottom right c : Int) (lay : layer_info)
    (s' : St) (h : parseLayerRecord s top left bottom right c = .ok (lay, s')) :
    lay.chid = some (readChannelInfo c c.toNat 0 (List.replicate (c + 2).toNat (-1)) s).chid
    ∧ lay.chlengths
        = some (readChannelInfo c c.toNat 0 (List.replicate (c + 2).toNat (-1)) s).chlengths
    ∧ lay.chindex
        = some (readChannelInfo c c.toNat 0 (List.replicate (c + 2).toNat (-1)) s).chindex := by
  unfold parseLayerRecord at h
  generalize checkmalloc (wrapS 64 (c * 8)) = m1 at h
  generalize checkmalloc (wrapS 64 (c * 4)) = m2 at h
  generalize checkmalloc (wrapS 64 (wrapS 32 (c + 2) * 4)) = m3 at h
  generalize readChannelInfo c c.toNat 0 (List.replicate (c + 2).toNat (-1)) s = R at h ⊢
  cases m1 with
  | error e => cases h
  | ok _ =>
    cases m2 with
    | error e => cases h
    | ok _ =>
      cases m3 with
      | error e => cases h
      | ok _ => exact layerOf_tables _ _ _ _ _ _ _ _ _ h

/-- C11. Channel-id reverse index.  `readChannelInfo n n 0 [-1, ..., -1]` is the loop of
lines 476-493 over the `n` channel descriptors of a layer record, started with the
`n + 2` entries of the index set to -1 (entry of id `c` at position `c + 2`).  It stores
`n` ids and `n` lengths.  For every id `c` with `-2 ≤ c < n`: `chindex[c] = -1` when no
descriptor has id `c`; otherwise `chindex[c]` is the position of the last descriptor with
that id; so `chindex[c] ≠ -1` gives `0 ≤ chindex[c] < n` and `chid[chindex[c]] = c`.
Every entry of the index is one of these, so a descriptor whose id is outside `[-2, n)`
changes none; with the descriptors in the file, the id and the length of each one are
stored at its position whatever the id.  These are the tables of the record that
`parseLayerRecord` returns. -/
theorem chindex_reverse_index (s : St) (n : Int) :
    (readChannelInfo n n.toNat 0 (List.replicate (n + 2).toNat (-1)) s).chid.length = n.toNat
    ∧ (readChannelInfo n n.toNat 0 (List.replicate (n + 2).toNat (-1)) s).chlengths.length
        = n.toNat
    ∧ (readChannelInfo n n.toNat 0 (List.replicate (n + 2).toNat (-1)) s).chindex.length
        = (n + 2).toNat
    ∧ (∀ c : Int, -2 ≤ c → c < n →
        (c ∉ (readChannelInfo n n.toNat 0 (List.replicate (n + 2).toNat (-1)) s).chid →
          (readChannelInfo n n.toNat 0 (List.replicate (n + 2).toNat (-1)) s).chindex.getD
            (c + 2).toNat 0 = -1)
        ∧ (c ∈ (readChannelInfo n n.toNat 0 (List.replicate (n + 2).toNat (-1)) s).chid →
          ∃ j : Nat,
            IsLastAt (readChannelInfo n n.toNat 0 (List.replicate (n + 2).toNat (-1)) s).chid c j
            ∧ (readChannelInfo n n.toNat 0 (List.replicate (n + 2).toNat (-1)) s).chindex.getD
                (c + 2).toNat 0 = (j : Int))
        ∧ ((readChannelInfo n n.toNat 0 (List.replicate (n + 2).toNat (-1)) s).chindex.getD
              (c + 2).toNat 0 ≠ -1 →
            0 ≤ (readChannelInfo n n.toNat 0 (List.replicate (n + 2).toNat (-1)) s).chindex.getD
                  (c + 2).toNat 0
            ∧ (readChannelInfo n n.toNat 0 (List.replicate (n + 2).toNat (-1)) s).chindex.getD
                  (c + 2).toNat 0 < n
            ∧ (readChannelInfo n n.toNat 0 (List.replicate (n + 2).toNat (-1)) s).chid.getD
                ((readChannelInfo n n.toNat 0 (List.replicate (n + 2).toNat (-1)) s).chindex.getD
                  (c + 2).toNat 0).toNat 0 = c))
    ∧ (s.f.pos + 6 * n.toNat ≤ s.f.data.length → ∀ i, i < n.toNat →
        (readChannelInfo n n.toNat 0 (List.replicate (n + 2).toNat (-1)) s).chid.getD i 0
          = wrapS 16 (u16At s.f.data (s.f.pos + 6 * i) : Nat)
        ∧ (readChannelInfo n n.toNat 0 (List.replicate (n + 2).toNat (-1)) s).chlengths.getD i 0
          = wrapS 32 (u32At s.f.data (s.f.pos + 6 * i + 2) : Nat))
    ∧ (∀ top left bottom right lay s',
        parseLayerRecord s top left bottom right n = .ok (lay, s') →
        lay.chid = some (readChannelInfo n n.toNat 0 (List.replicate (n + 2).toNat (-1)) s).chid
        ∧ lay.chlengths
            = some (readChannelInfo n n.toNat 0 (List.replicate (n + 2).toNat (-1)) s).chlengths
        ∧ lay.chindex
            = some (readChannelInfo n n.toNat 0 (List.replicate (n + 2).toNat (-1)) s).chindex) := by
  obtain ⟨i1, i2, i3, i4⟩ :=
    readChannelInfo_inv n n.toNat 0 (List.replicate (n + 2).toNat (-1)) s
  have hst := readChannelInfo_stored n n.toNat 0 (List.replicate (n + 2).toNat (-1)) s
  have htab := fun top left bottom right lay s' =>
    parseLayerRecord_tables s top left bottom right n lay s'
  generalize readChannelInfo n n.toNat 0 (List.replicate (n + 2).toNat (-1)) s = r at *
  rw [List.length_replicate] at i3 i4
  have key : ∀ c : Int, -2 ≤ c → c < n →
      (c ∉ r.chid → r.chindex.getD (c + 2).toNat 0 = -1)
      ∧ (c ∈ r.chid → ∃ j : Nat, IsLastAt r.chid c j ∧ r.chindex.getD (c + 2).toNat 0 = (j : Int)) := by
    intro c h1 h2
    obtain ⟨a1, a2⟩ := i4 c h1 h2 (by omega)
    refine ⟨fun h => ?_, fun h => ?_⟩
    · rw [a1 h, List.getD_eq_getElem _ _ (by rw [List.length_replicate]; omega),
        List.getElem_replicate]
    · obtain ⟨j, l1, l2⟩ := a2 h
      exact ⟨j, l1, by rw [l2, Nat.zero_add]⟩
  refine ⟨i1, i2, i3, fun c h1 h2 => ⟨(key c h1 h2).1, (key c h1 h2).2, fun hne => ?_⟩,
    hst, htab⟩
  by_cases hmem : c ∈ r.chid
  · obtain ⟨j, ⟨l1, l2, _⟩, l4⟩ := (key c h1 h2).2 hmem
    rw [l4]
    refine ⟨by omega, by omega, ?_⟩
    rw [Int.toNat_ofNat]
    exact l2
  · exact absurd ((key c h1 h2).1 hmem) hne

/-! ## C12: alpha selection for a layer -/

/-- C12 fails in the code. The test of lines 330 and 343,
`(li && li->chindex[-1] != -1) || (channels>N && mergedalpha)`, applies the trigger meant
for the merged image ("or if merged data has alpha") to layers too.  In the section
`alphaMaskSection` the layer count is -1, so the merged-alpha flag is set, and the only
layer is `maskLayer`: a gray channel and a layer mask, no transparency-mask channel
(`chindex[-1] = -1`).  `doimage` selects gray+alpha with 2 channels for it, and the writer
is called for a packed image of 2 channels. -/
theorem layer_alpha_without_transparency :
    hasTransparency (some maskLayer) = .ok false
    ∧ colourModel ModeGrayScale (some maskLayer) 2 1 = .ok (2, PNG_COLOR_TYPE_GRAY_ALPHA)
    ∧ colourModel ModeGrayScale (some maskLayer) 2 0 = .ok (1, PNG_COLOR_TYPE_GRAY)
    ∧ (∃ s', doimage ⟨true, false⟩ grayHeader
          { cexSt [0, 0, 10, 0, 0, 20] with mergedalpha := 1 } (some maskLayer) 2 1 1 = .ok s'
        ∧ s'.png.head? = some { startchan := 0, channels := 2,
                                color_type := PNG_COLOR_TYPE_GRAY_ALPHA, rows := 1, cols := 1 })
    ∧ (∃ l s', layerRecord true
            { cexSt alphaMaskSection with f := FILE.mk alphaMaskSection 10 false }
          = .ok (l, s') ∧ l = maskLayer)
    ∧ ∃ s', dolayermaskinfo true ⟨true, false⟩ grayHeader (cexSt alphaMaskSection) = .ok s'
        ∧ s'.mergedalpha = 1
        ∧ s'.png = [{ startchan := 0, channels := 2, color_type := PNG_COLOR_TYPE_GRAY_ALPHA,
                      rows := 1, cols := 1 },
                    { startchan := 1, channels := 1, color_type := PNG_COLOR_TYPE_GRAY,
                      rows := 1, cols := 1 }] :=
  ⟨rfl, rfl, rfl, ⟨_, rfl, rfl⟩, ⟨_, _, rfl, rfl⟩, _, rfl, rfl, rfl⟩

/-! ## C13, C14, C16: extra channels, shared state, fatal conditions -/

/-- C13 fails in the code. On the section `spotSection` (grayscale, one layer with
channel ids 0 and 1, no transparency mask) with PNG writing on and no channel splitting,
the writer is called once, for the packed gray image of 1 channel: the channel at
position 1, whose id 1 is not in `[0, 1)` and is not -1, is not emitted as an extra
image, because the test of line 402 is `chid > pngchan` with `pngchan = 1`. -/
theorem extra_channel_dropped :
    (∃ l s', layerRecord true { cexSt spotSection with f := FILE.mk spotSection 10 false }
          = .ok (l, s')
        ∧ l.chid = some [0, 1] ∧ hasTransparency (some l) = .ok false)
    ∧ ∃ s', dolayermaskinfo true ⟨true, false⟩ grayHeader (cexSt spotSection) = .ok s'
        ∧ s'.png = [{ startchan := 0, channels := 1, color_type := PNG_COLOR_TYPE_GRAY,
                      rows := 1, cols := 1 }]
        ∧ s'.err = [] :=
  ⟨⟨_, _, rfl, rfl, rfl⟩, _, rfl, rfl, rfl⟩

/-- C14 fails in the code. `main` resets `nwarns` for each file (line 667) but never
`mergedalpha`.  The file `filePlain` (grayscale, two channels, no layers) processed alone
gives a gray image of 1 channel and channel 1 as an extra image; processed after
`fileAlphaCount`, whose layer count is negative, it gives a gray+alpha image of 2
channels, because the flag set by the first file is still 1. -/
theorem mergedalpha_not_reset :
    (∃ s, mainLoop true ⟨true, false⟩ 1 [some filePlain] (cexSt []) = some (.ok s)
        ∧ s.mergedalpha = 0
        ∧ s.png = [{ startchan := 0, channels := 1, color_type := PNG_COLOR_TYPE_GRAY,
                     rows := 1, cols := 1 },
                   { startchan := 1, channels := 1, color_type := PNG_COLOR_TYPE_GRAY,
                     rows := 1, cols := 1 }])
    ∧ (∃ s, mainLoop true ⟨true, false⟩ 1 [some fileAlphaCount] (cexSt []) = some (.ok s)
        ∧ s.mergedalpha = 1 ∧ s.png.length = 2)
    ∧ ∃ s, mainLoop true ⟨true, false⟩ 1 [some fileAlphaCount, some filePlain] (cexSt [])
          = some (.ok s)
        ∧ s.mergedalpha = 1
        ∧ s.png.drop 2 = [{ startchan := 0, channels := 2,
                            color_type := PNG_COLOR_TYPE_GRAY_ALPHA, rows := 1, cols := 1 }] :=
  ⟨⟨_, rfl, rfl, rfl⟩, ⟨_, rfl, rfl, rfl⟩, _, rfl, rfl, rfl⟩

theorem mainLoop_cons_some (short16 : Bool) (o : Opts) (fuel : Nat) (bytes : List Byte)
    (rest : List (Option (List Byte))) (s : St) :
    mainLoop short16 o fuel (some bytes :: rest) s
      = thenFiles (dofile short16 o fuel { s with f := { data := bytes, pos := 0, eof := false } })
          (mainLoop short16 o fuel rest) := rfl

theorem mainLoop_cons_none (short16 : Bool) (o : Opts) (fuel : Nat)
    (rest : List (Option (List Byte))) (s : St) :
    mainLoop short16 o fuel (none :: rest) s
      = mainLoop short16 o fuel rest (alwayswarn s .couldntOpen) := rfl

theorem mainLoop_append (short16 : Bool) (o : Opts) (fuel : Nat) :
    ∀ (pre rest : List (Option (List Byte))) (s s1 : St),
      mainLoop short16 o fuel pre s = some (.ok s1) →
      mainLoop short16 o fuel (pre ++ rest) s = mainLoop short16 o fuel rest s1 := by
  intro pre
  induction pre with
  | nil =>
    intro rest s s1 h
    have e : mainLoop short16 o fuel [] s = some (.ok s) := rfl
    rw [e] at h
    simp only [Option.some.injEq, Except.ok.injEq] at h
    rw [List.nil_append, h]
  | cons a pre ih =>
    intro rest s s1 h
    cases a with
    | none =>
      rw [List.cons_append, mainLoop_cons_none]
      rw [mainLoop_cons_none] at h
      exact ih rest _ s1 h
    | some bytes =>
      rw [List.cons_append, mainLoop_cons_some]
      rw [mainLoop_cons_some] at h
      generalize dofile short16 o fuel { s with f := { data := bytes, pos := 0, eof := false } }
        = d at h ⊢
      cases d with
      | none => cases h
      | some x =>
        cases x with
        | error e => cases h
        | ok s2 => exact ih rest s2 s1 h

/-- C16 (as the code has it). A fatal condition ends the run.  In a batch
`pre ++ file :: rest` whose files `pre` are processed with state `s1` as the result, if
the processing of `file` reaches a fatal condition (`fatal` prints its message and calls
`exit`), the run of `main` ends with that condition whatever `rest` is: none of the files
after it is processed. -/
theorem fatal_ends_run (short16 : Bool) (o : Opts) (fuel : Nat)
    (pre rest : List (Option (List Byte))) (bytes : List Byte) (s s1 : St) (m : FatalMsg)
    (hpre : mainLoop short16 o fuel pre s = some (.ok s1))
    (hfatal : dofile short16 o fuel { s1 with f := { data := bytes, pos := 0, eof := false } }
        = some (.error (.fatal m))) :
    mainLoop short16 o fuel (pre ++ some bytes :: rest) s = some (.error (.fatal m)) := by
  rw [mainLoop_append short16 o fuel pre _ s s1 hpre, mainLoop_cons_some, hfatal]
  rfl

/-- C16 at a batch of three RGB files: the second one has an RLE tag and no count table. -/
theorem fatal_ends_run_witness :
    mainLoop true ⟨true, false⟩ 1
        ([some (fileNoLayers [0, 0, 1, 2, 3])] ++ some (fileNoLayers [0, 1])
          :: [some (fileNoLayers [0, 0, 1, 2, 3])]) (cexSt [])
      = some (.error (.fatal .couldntReadRLECounts)) :=
  fatal_ends_run true ⟨true, false⟩ 1 [some (fileNoLayers [0, 0, 1, 2, 3])]
    [some (fileNoLayers [0, 0, 1, 2, 3])] (fileNoLayers [0, 1]) (cexSt []) _
    .couldntReadRLECounts rfl rfl

/-- C16 as stated fails: in the batch of a file with an RLE tag and no count table
followed by a readable file, the first file reaches the fatal condition "couldn't read
RLE counts" and the run ends there; processed alone, the second file gives an RGB image. -/
theorem fatal_is_not_per_file :
    mainLoop true ⟨true, false⟩ 1
        [some (fileNoLayers [0, 1]), some (fileNoLayers [0, 0, 1, 2, 3])] (cexSt [])
      = some (.error (.fatal .couldntReadRLECounts))
    ∧ ∃ s, mainLoop true ⟨true, false⟩ 1 [some (fileNoLayers [0, 0, 1, 2, 3])] (cexSt [])
          = some (.ok s)
        ∧ s.png = [{ startchan := 0, channels := 3, color_type := PNG_COLOR_TYPE_RGB,
                     rows := 1, cols := 1 }] :=
  ⟨rfl, _, rfl, rfl⟩

/-! ## C15, C17, C18: abandoned layer parsing, unreadable counts, the resource loop -/

theorem resourceLoop_stuck (f : FILE) (len : Int) (hlen : len > 0) (h : doirb f = (0, f)) :
    ∀ fuel, resourceLoop fuel len f = none := by
  intro fuel
  induction fuel with
  | zero => simp only [resourceLoop, hlen, if_true]
  | succ n ih =>
    rw [resourceLoop, if_pos hlen]
    simp only [h, sub_zero]
    exact ih

/-- C18 fails in the code. On the section `loopBytes` (declared length 12, one block
whose payload size field is -12) `doirb` seeks back to the start of the block and
returns 0, so `len` never decreases: the loop of `doimageresources` is still running
after any number of blocks. -/
theorem resources_loop_forever :
    doirb (get4B (cexSt loopBytes).f).2 = (0, (get4B (cexSt loopBytes).f).2)
    ∧ (get4B (cexSt loopBytes).f).1 = 12
    ∧ ∀ fuel, doimageresources fuel (cexSt loopBytes) = none := by
  refine ⟨rfl, rfl, fun fuel => ?_⟩
  unfold doimageresources
  rw [resourceLoop_stuck (get4B (cexSt loopBytes).f).2 (get4B (cexSt loopBytes).f).1
    (by decide) rfl fuel]

/-- C17 fails in the code. For the merged image with one channel and one row, tag 1
(RLE) and nothing after it, none of the 2 bytes of the count table is in the file, yet
`dochannel` raises no fatal condition: the loop `for(j = 0; j < rows && !feof(f); ...)`
reads the count at end of file, records the previous count `rowBytes = 1` for it, and
the decoding of the row goes on with that count.  With two channels the second channel
finds the indicator set and the fatal condition is raised. -/
theorem rle_counts_not_fatal :
    (∃ r, dochannel (cexSt [0, 1]) none 0 1 1 1 8 = .ok r
        ∧ r.comp = 1 ∧ r.rlebuf = [1] ∧ r.st.err = [Msg.couldntReadRLERow])
    ∧ (cexSt [0, 1]).f.data.length - 2 < 2 * 1 * 1
    ∧ dochannel (cexSt [0, 1]) none 0 2 1 1 8 = .error (.fatal .couldntReadRLECounts) :=
  ⟨⟨_, rfl, rfl, rfl, rfl⟩, by decide, rfl⟩

/-- C15 fails in the code. On the section `abandonBytes` (misc length 20, so the
section ends at 4 + 20 = 24) the layer-count sanity check fails and `dolayermaskinfo`
returns at once (line 442) with the cursor at 10, just after the layer count. -/
theorem layermask_abandoned_no_resync :
    ∃ s', dolayermaskinfo true ⟨false, false⟩ rgbHeader (cexSt abandonBytes) = .ok s'
      ∧ (get4B (cexSt abandonBytes).f).1 = 20
      ∧ ftell (get4B (cexSt abandonBytes).f).2 = 4
      ∧ s'.err = [Msg.unlikelyNumberOfLayers]
      ∧ ftell s'.f = 10
      ∧ ftell s'.f ≠ 4 + 20 :=
  ⟨_, rfl, rfl, rfl, rfl, rfl, by decide⟩

/-! ## C19: big-endian 16-bit reads -/

theorem wrapS16_cases (v : Nat) (h : v < 2 ^ 16) :
    wrapS 16 (v : Int) = if v < 0x8000 then (v : Int) else (v : Int) - 0x10000 := by
  unfold wrapS
  norm_num
  split <;> omega

/-- C19. Big-endian 16-bit reads.  With two bytes `hi`, `lo` at the cursor and
`v = 256*hi + lo`: `get2Bu` returns `v`; `get2B` returns `v` when `v < 0x8000` and
`v - 0x10000` otherwise, a value in `[-32768, 32767]` congruent to `v` modulo 65536; both
leave the cursor 2 bytes further. -/
theorem get2B_big_endian (f : FILE) (hi lo : Nat) (h : f.pos + 2 ≤ f.data.length)
    (hhi : hi = byteAt f.data f.pos) (hlo : lo = byteAt f.data (f.pos + 1)) :
    hi < 256 ∧ lo < 256
    ∧ (get2Bu f).1 = 256 * hi + lo
    ∧ (get2B f).1 = (if 256 * hi + lo < 0x8000 then ((256 * hi + lo : Nat) : Int)
                      else ((256 * hi + lo : Nat) : Int) - 0x10000)
    ∧ -32768 ≤ (get2B f).1 ∧ (get2B f).1 ≤ 32767
    ∧ ((get2B f).1 - ((256 * hi + lo : Nat) : Int)) % 65536 = 0
    ∧ ftell (get2Bu f).2 = ftell f + 2
    ∧ ftell (get2B f).2 = ftell f + 2 := by
  have h1 : hi < 256 := by rw [hhi]; exact byteAt_lt _ _
  have h2 : lo < 256 := by rw [hlo]; exact byteAt_lt _ _
  have hv : u16At f.data f.pos = 256 * hi + lo := by rw [hhi, hlo]; rfl
  rw [get2Bu_of_le f h, get2B_of_le f h, hv, wrapS16_cases _ (by omega)]
  refine ⟨h1, h2, rfl, rfl, ?_, ?_, ?_, ?_, ?_⟩
  · simp only []; split <;> omega
  · simp only []; split <;> omega
  · simp only []; split <;> omega
  · simp only [ftell]; push_cast; ring
  · simp only [ftell]; push_cast; ring

/-- C19 at the bytes `FF FE`: `get2Bu` gives 65534 and `get2B` gives -2. -/
theorem get2B_big_endian_witness :
    (255 : Nat) < 256 ∧ (254 : Nat) < 256
    ∧ (get2Bu (cexSt [255, 254]).f).1 = 256 * 255 + 254
    ∧ (get2B (cexSt [255, 254]).f).1
        = (if 256 * 255 + 254 < 0x8000 then ((256 * 255 + 254 : Nat) : Int)
            else ((256 * 255 + 254 : Nat) : Int) - 0x10000)
    ∧ -32768 ≤ (get2B (cexSt [255, 254]).f).1 ∧ (get2B (cexSt [255, 254]).f).1 ≤ 32767
    ∧ ((get2B (cexSt [255, 254]).f).1 - ((256 * 255 + 254 : Nat) : Int)) % 65536 = 0
    ∧ ftell (get2Bu (cexSt [255, 254]).f).2 = ftell (cexSt [255, 254]).f + 2
    ∧ ftell (get2B (cexSt [255, 254]).f).2 = ftell (cexSt [255, 254]).f + 2 :=
  get2B_big_endian (cexSt [255, 254]).f 255 254 (by decide) (by decide) (by decide)

/-! ## C20: resource-block byte accounting -/

theorem PAD2_round (x : Int) : PAD2 x % 2 = 0 ∧ x ≤ PAD2 x ∧ PAD2 x ≤ x + 1 := by
  unfold PAD2
  omega

/-- C20. Resource-block byte accounting.  For a resource block whose header is in the
input, with name length `n` (a byte) and payload size `s ≥ 0` (`blockTotal` is `some t`):
`doirb` returns `t = 4 + 2 + PAD2(1+n) + 4 + PAD2(s)`, where `PAD2` rounds up to an even
number; the value is at least 12; it is the number of bytes by which the cursor
advances; and along any run of such blocks the loop of `doimageresources` returns with the
remaining length equal to the initial length minus the bytes consumed. -/
theorem doirb_accounting (f : FILE) (t : Int) (h : blockTotal f.data f.pos = some t) :
    byteAt f.data (f.pos + 6) ≤ 255
    ∧ 0 ≤ wrapS 32 (u32At f.data (sizeFieldAt f.data f.pos) : Nat)
    ∧ (doirb f).1 = 4 + 2 + PAD2 (1 + ((byteAt f.data (f.pos + 6) : Nat) : Int)) + 4
        + PAD2 (wrapS 32 (u32At f.data (sizeFieldAt f.data f.pos) : Nat))
    ∧ (∀ x : Int, PAD2 x % 2 = 0 ∧ x ≤ PAD2 x ∧ PAD2 x ≤ x + 1)
    ∧ 12 ≤ (doirb f).1
    ∧ ftell (doirb f).2 - ftell f = (doirb f).1
    ∧ ∀ (ts : List Int) (len : Int) (fuel : Nat),
        blocksAt f.data f.pos ts → len ≤ ts.sum → ts.length ≤ fuel →
        ∃ r, resourceLoop fuel len f = some r ∧ r.1 = len - (ftell r.2 - ftell f) := by
  obtain ⟨_, h0, ht⟩ := blockTotal_some _ _ _ h
  have hge := blockTotal_ge _ _ _ h
  have hb := byteAt_lt f.data (f.pos + 6)
  rw [doirb_block f t h]
  refine ⟨by omega, h0, ht, PAD2_round, hge, ?_, ?_⟩
  · simp only [ftell]
    push_cast
    omega
  · intro ts len fuel hts hsum hfuel
    rw [resourceLoop_blocks ts len f fuel hts hsum hfuel]
    refine ⟨_, rfl, ?_⟩
    have hnn := consumed_nonneg ts len (blocksAt_nonneg _ _ _ hts)
    by_cases hl : len > 0
    · simp only [hl, if_true, ftell]
      push_cast
      omega
    · simp only [hl, if_false, ftell]
      have : consumed len ts = 0 := by
        cases ts with
        | nil => rfl
        | cons a as => simp only [consumed, hl, if_false]
      omega

/-- C20 at the 12-byte block of `resOverrunBytes` (type `8BIM`, id 1000, empty name,
empty payload) that starts at offset 4. -/
theorem doirb_accounting_witness :
    (doirb (FILE.mk resOverrunBytes 4 false)).1 = 12
    ∧ ftell (doirb (FILE.mk resOverrunBytes 4 false)).2 - ftell (FILE.mk resOverrunBytes 4 false)
        = (doirb (FILE.mk resOverrunBytes 4 false)).1 := by
  have h := doirb_accounting (FILE.mk resOverrunBytes 4 false) 12 (by decide)
  exact ⟨by rw [h.2.2.1]; decide, h.2.2.2.2.2.1⟩

/-! ## C21: row reads and the row buffer -/

theorem clampCount_le (rb last c : Nat) (hrb : rb < 2 ^ 31) (hl : last ≤ 2 * rb) :
    clampCount rb last c ≤ 2 * rb := by
  unfold clampCount
  have e : (2 * rb) % 2 ^ 32 = 2 * rb := Nat.mod_eq_of_lt (by omega)
  rw [e]
  split <;> omega

theorem rleRowLoop_counts_le (rb : Nat) (hrb : rb < 2 ^ 31) : ∀ (n : Nat) (f : FILE) (last : Nat)
    (pos : Int), last ≤ 2 * rb → ∀ c ∈ (rleRowLoop rb n f last pos).counts, c ≤ 2 * rb := by
  intro n
  induction n with
  | zero =>
    intro f last pos _ c hc
    simp only [rleRowLoop, List.not_mem_nil] at hc
  | succ n ih =>
    intro f last pos hl c hc
    rw [rleRowLoop] at hc
    split at hc
    · simp only [List.not_mem_nil] at hc
    · simp only [List.mem_cons] at hc
      rcases hc with hc | hc
      · rw [hc]; exact clampCount_le rb last _ hrb hl
      · exact ih _ _ _ (clampCount_le rb last _ hrb hl) c hc

theorem rleChannelLoop_counts_le (rb R : Nat) (hrb : rb < 2 ^ 31) : ∀ (C : Nat) (f : FILE)
    (pos : Int) (t : RleTable), rleChannelLoop rb R C f pos = .ok t →
    ∀ c ∈ t.rlebuf, c ≤ 2 * rb := by
  intro C
  induction C with
  | zero =>
    intro f pos t h c hc
    simp only [rleChannelLoop, Except.ok.injEq] at h
    subst h
    simp only [List.not_mem_nil] at hc
  | succ C ih =>
    intro f pos t h c hc
    rw [rleChannelLoop] at h
    split at h
    · cases h
    · split at h
      · cases h
      · rename_i t' ht'
        simp only [Except.ok.injEq] at h
        subst h
        simp only [List.mem_append] at hc
        rcases hc with hc | hc
        · exact rleRowLoop_counts_le rb hrb R f rb pos (by omega) c hc
        · exact ih _ _ t' ht' c hc

theorem noNewBadCount_refl (e : List Msg) : NoNewBadCount e e := fun _ _ h => h

theorem noNewBadCount_trans (e0 e1 e2 : List Msg) (h1 : NoNewBadCount e0 e1)
    (h2 : NoNewBadCount e1 e2) : NoNewBadCount e0 e2 := fun n j h => h1 n j (h2 n j h)

theorem alwayswarn_noBad (s : St) (m : Msg) (hm : ∀ n j, m ≠ Msg.badRLECount n j) :
    NoNewBadCount s.err (alwayswarn s m).err := by
  intro n j h
  simp only [alwayswarn, List.mem_append, List.mem_singleton] at h
  rcases h with h | h
  · exact h
  · exact absurd h.symm (hm n j)

theorem warn_noBad (s : St) (m : Msg) (hm : ∀ n j, m ≠ Msg.badRLECount n j) :
    NoNewBadCount s.err (warn s m).err := by
  intro n j h
  unfold warn at h
  simp only [] at h
  split at h <;> split at h <;>
    simp only [List.mem_append, List.mem_singleton] at h
  · rcases h with (h | h) | h
    · exact h
    · cases h
    · exact absurd h.symm (hm n j)
  · rcases h with h | h
    · exact h
    · cases h
  · rcases h with h | h
    · exact h
    · exact absurd h.symm (hm n j)
  · exact h

theorem dumpRow_rle (rb : Nat) (rlebuf : List Nat) (j k : Nat) (s : St)
    (hb : ¬ rlebuf.getD k 0 > (2 * rb) % 2 ^ 32) :
    dumpRow RLECOMP rb rlebuf j k s
      = if (fread (rlebuf.getD k 0) s.f).1.length = rlebuf.getD k 0
        then { s with f := (fread (rlebuf.getD k 0) s.f).2 }
        else warn { s with f := (fread (rlebuf.getD k 0) s.f).2 } .couldntReadRLERow := by
  unfold dumpRow
  simp only [if_true, hb, if_false]

theorem dumpRow_noBad (comp rb : Nat) (rlebuf : List Nat) (j k : Nat) (s : St)
    (hb : ¬ rlebuf.getD k 0 > (2 * rb) % 2 ^ 32) :
    NoNewBadCount s.err (dumpRow comp rb rlebuf j k s).err := by
  unfold dumpRow
  simp only [hb, if_false]
  split
  · split
    · exact noNewBadCount_refl _
    · exact warn_noBad _ _ (fun _ _ h => by cases h)
  · split
    · split
      · exact noNewBadCount_refl _
      · exact warn_noBad _ _ (fun _ _ h => by cases h)
    · exact noNewBadCount_refl _

theorem dumpRowLoop_noBad (comp rb : Nat) (rlebuf : List Nat)
    (hb : ∀ k, ¬ rlebuf.getD k 0 > (2 * rb) % 2 ^ 32) :
    ∀ (n j k : Nat) (s : St), NoNewBadCount s.err (dumpRowLoop comp rb rlebuf n j k s).2.err := by
  intro n
  induction n with
  | zero => intro j k s; exact noNewBadCount_refl _
  | succ n ih =>
    intro j k s
    rw [dumpRowLoop]
    exact noNewBadCount_trans _ _ _ (dumpRow_noBad comp rb rlebuf j k s (hb k)) (ih _ _ _)

theorem dumpChannelLoop_noBad (comp rb rows : Nat) (rlebuf : List Nat)
    (hb : ∀ k, ¬ rlebuf.getD k 0 > (2 * rb) % 2 ^ 32) :
    ∀ (c k : Nat) (s : St), NoNewBadCount s.err (dumpChannelLoop comp rb rows rlebuf c k s).err := by
  intro c
  induction c with
  | zero => intro k s; exact noNewBadCount_refl _
  | succ c ih =>
    intro k s
    rw [dumpChannelLoop]
    exact noNewBadCount_trans _ _ _ (dumpRowLoop_noBad comp rb rlebuf hb rows 0 k s) (ih _ _)

theorem resync_noBad (hasli : Bool) (target : Int) (s : St) :
    NoNewBadCount s.err (resync hasli target s).err := by
  unfold resync
  split
  · exact alwayswarn_noBad _ _ (fun _ _ h => by cases h)
  · exact noNewBadCount_refl _

theorem noteGuess_noBad (comp0 comp : Nat) (s : St) :
    NoNewBadCount s.err (noteGuess comp0 comp s).err := by
  unfold noteGuess
  split
  · exact noNewBadCount_trans _ _ _ (alwayswarn_noBad _ _ (fun _ _ h => by cases h))
      (alwayswarn_noBad _ _ (fun _ _ h => by cases h))
  · exact noNewBadCount_refl _

theorem noteShort_noBad (hasli : Bool) (chlen rlecounts : Int) (s : St) :
    NoNewBadCount s.err (noteShort hasli chlen rlecounts s).err := by
  unfold noteShort
  split
  · exact alwayswarn_noBad _ _ (fun _ _ h => by cases h)
  · exact noNewBadCount_refl _

theorem getD_le_of_forall (l : List Nat) (b : Nat) (h : ∀ c ∈ l, c ≤ b) (k : Nat) :
    l.getD k 0 ≤ b := by
  by_cases hk : k < l.length
  · rw [List.getD_eq_getElem l 0 hk]
    exact h _ (List.getElem_mem hk)
  · rw [List.getD_eq_default _ _ (by omega)]
    omega

theorem dochannelBody_rows (s : St) (hasli : Bool) (chpos chlen0 channels rows cols depth : Int)
    (r : ChanResult) (h : dochannelBody s hasli chpos chlen0 channels rows cols depth = .ok r)
    (hrb : rowBytes cols depth < 2 ^ 31) :
    (∀ c ∈ r.rlebuf, c ≤ 2 * rowBytes cols depth) ∧ NoNewBadCount s.err r.st.err := by
  simp only [dochannelBody, RLECOMP] at h
  split at h
  · cases h
    refine ⟨fun c hc => by simp only [List.not_mem_nil] at hc, ?_⟩
    exact noNewBadCount_trans _ _ _ (alwayswarn_noBad _ _ (fun _ _ h => by cases h))
      (alwayswarn_noBad _ _ (fun _ _ h => by cases h))
  · split at h
    · cases h
    · split at h
      · split at h
        · cases h
        · split at h
          · cases h
          · rename_i t ht
            cases h
            have hle := rleChannelLoop_counts_le _ _ hrb _ _ _ t ht
            refine ⟨hle, ?_⟩
            have hb : ∀ k, ¬ t.rlebuf.getD k 0 > (2 * rowBytes cols depth) % 2 ^ 32 := by
              intro k
              have := getD_le_of_forall t.rlebuf _ hle k
              have e : (2 * rowBytes cols depth) % 2 ^ 32 = 2 * rowBytes cols depth :=
                Nat.mod_eq_of_lt (by omega)
              rw [e]
              omega
            simp only [dochannelFinish]
            refine noNewBadCount_trans _ _ _ ?_ (resync_noBad _ _ _)
            refine noNewBadCount_trans _ _ _ ?_ (dumpChannelLoop_noBad _ _ _ _ hb _ _ _)
            have g1 := noteGuess_noBad (get2Bu s.f).1
              (guessComp (get2Bu s.f).1 (chlen0 - 2) rows (rowBytes cols depth))
              { s with f := (get2Bu s.f).2 }
            have g2 := noteShort_noBad hasli (chlen0 - 2) (wrapS 32 (2 * channels * rows))
              (noteGuess (get2Bu s.f).1
                (guessComp (get2Bu s.f).1 (chlen0 - 2) rows (rowBytes cols depth))
                { s with f := (get2Bu s.f).2 })
            exact fun n j h => g1 n j (g2 n j h)
      · cases h
        refine ⟨fun c hc => by simp only [dochannelFinish, List.not_mem_nil] at hc, ?_⟩
        simp only [dochannelFinish]
        refine noNewBadCount_trans _ _ _ ?_ (resync_noBad _ _ _)
        refine noNewBadCount_trans _ _ _ ?_
          (dumpChannelLoop_noBad _ _ _ [] (fun k => by simp) _ _ _)
        exact noteGuess_noBad (get2Bu s.f).1
          (guessComp (get2Bu s.f).1 (chlen0 - 2) rows (rowBytes cols depth))
          { s with f := (get2Bu s.f).2 }

theorem dochannel_geometry (s : St) (li : Option layer_info) (idx : Nat)
    (channels rows cols depth rows1 cols1 : Int) (r : ChanResult)
    (hn : li = none → rows1 = rows ∧ cols1 = cols)
    (hg : ∀ l, li = some l → channelGeometry l idx rows cols = .ok (rows1, cols1))
    (h : dochannel s li idx channels rows cols depth = .ok r) :
    (r.rlebuf = [] ∧ NoNewBadCount s.err r.st.err)
    ∨ ∃ hasli chlen0,
        dochannelBody s hasli (ftell s.f) chlen0 channels rows1 cols1 depth = .ok r := by
  cases li with
  | none =>
    obtain ⟨e1, e2⟩ := hn rfl
    subst e1 e2
    exact Or.inr ⟨false, 0, h⟩
  | some l =>
    simp only [dochannel] at h
    split at h
    · cases h
    · rename_i chlen _
      split at h
      · cases h
        refine Or.inl ⟨rfl, ?_⟩
        simp only []
        split
        · exact alwayswarn_noBad _ _ (fun _ _ h => by cases h)
        · exact alwayswarn_noBad _ _ (fun _ _ h => by cases h)
      · rw [hg l rfl] at h
        exact Or.inr ⟨true, chlen, h⟩

/-- C21. Row reads never exceed the row buffer.  With `(rows1, cols1)` the geometry in
force in `dochannel` (that of the mask for a layer mask channel, the one passed
otherwise), for a channel group whose row byte count `rb = rowBytes cols1 depth` is below
`2^31` and for which `dochannel` returns (no fatal condition): the row buffer
`checkmalloc(rb*2)` has `2*rb` bytes; every count stored in the count table is at most
`2*rb`; so the test `n > 2*rb` of the decode loop (line 236) is false for every entry, the
row of an RLE channel is read with a request of exactly its count, at most `2*rb` bytes,
and the row of a raw channel with a request of `rb` bytes; and no "bad RLE count" message
is added to the log. -/
theorem row_reads_within_buffer (s : St) (li : Option layer_info) (idx : Nat)
    (channels rows cols depth rows1 cols1 : Int) (r : ChanResult)
    (hn : li = none → rows1 = rows ∧ cols1 = cols)
    (hg : ∀ l, li = some l → channelGeometry l idx rows cols = .ok (rows1, cols1))
    (hrb : rowBytes cols1 depth < 2 ^ 31)
    (h : dochannel s li idx channels rows cols depth = .ok r) :
    (rowBytes cols1 depth * 2) % 2 ^ 32 = 2 * rowBytes cols1 depth
    ∧ (∀ c ∈ r.rlebuf, c ≤ 2 * rowBytes cols1 depth)
    ∧ (∀ k, ¬ r.rlebuf.getD k 0 > (2 * rowBytes cols1 depth) % 2 ^ 32)
    ∧ (∀ j k s0,
        dumpRow RLECOMP (rowBytes cols1 depth) r.rlebuf j k s0
          = (if (fread (r.rlebuf.getD k 0) s0.f).1.length = r.rlebuf.getD k 0
             then { s0 with f := (fread (r.rlebuf.getD k 0) s0.f).2 }
             else warn { s0 with f := (fread (r.rlebuf.getD k 0) s0.f).2 } .couldntReadRLERow)
        ∧ r.rlebuf.getD k 0 ≤ 2 * rowBytes cols1 depth)
    ∧ (∀ j k s0,
        dumpRow RAWDATA (rowBytes cols1 depth) r.rlebuf j k s0
          = (if (fread (rowBytes cols1 depth) s0.f).1.length = rowBytes cols1 depth
             then { s0 with f := (fread (rowBytes cols1 depth) s0.f).2 }
             else warn { s0 with f := (fread (rowBytes cols1 depth) s0.f).2 } .couldntReadRawRow)
        ∧ rowBytes cols1 depth ≤ 2 * rowBytes cols1 depth)
    ∧ NoNewBadCount s.err r.st.err := by
  have key : (∀ c ∈ r.rlebuf, c ≤ 2 * rowBytes cols1 depth) ∧ NoNewBadCount s.err r.st.err := by
    rcases dochannel_geometry s li idx channels rows cols depth rows1 cols1 r hn hg h with
      ⟨h1, h2⟩ | ⟨hasli, chlen0, h1⟩
    · exact ⟨fun c hc => by rw [h1] at hc; simp only [List.not_mem_nil] at hc, h2⟩
    · exact dochannelBody_rows s hasli (ftell s.f) chlen0 channels rows1 cols1 depth r h1 hrb
  obtain ⟨hle, hno⟩ := key
  have e2 : (2 * rowBytes cols1 depth) % 2 ^ 32 = 2 * rowBytes cols1 depth :=
    Nat.mod_eq_of_lt (by omega)
  have hb : ∀ k, ¬ r.rlebuf.getD k 0 > (2 * rowBytes cols1 depth) % 2 ^ 32 := by
    intro k
    have := getD_le_of_forall r.rlebuf _ hle k
    rw [e2]
    omega
  refine ⟨by rw [Nat.mul_comm]; exact e2, hle, hb, fun j k s0 => ⟨?_, ?_⟩,
    fun j k s0 => ⟨?_, by omega⟩, hno⟩
  · exact dumpRow_rle _ _ j k s0 (hb k)
  · exact getD_le_of_forall r.rlebuf _ hle k
  · unfold dumpRow
    simp only [RAWDATA, RLECOMP, Nat.zero_ne_one, if_false, if_true]

/-- C21 at one RLE channel of 3 rows of 4 columns at depth 8 (`rb = 4`) whose counts
are 2, 10000 and 3: the counts recorded are 2, 2 and 3, all at most 8. -/
theorem row_reads_within_buffer_witness :
    ∃ r, dochannel (cexSt [0, 1, 0, 2, 39, 16, 0, 3, 1, 2, 3, 4, 5, 6, 7]) none 0 1 3 4 8 = .ok r
      ∧ r.rlebuf = [2, 2, 3]
      ∧ (∀ c ∈ r.rlebuf, c ≤ 2 * rowBytes 4 8)
      ∧ (∀ k, ¬ r.rlebuf.getD k 0 > (2 * rowBytes 4 8) % 2 ^ 32)
      ∧ NoNewBadCount (cexSt [0, 1, 0, 2, 39, 16, 0, 3, 1, 2, 3, 4, 5, 6, 7]).err r.st.err :=
  ⟨_, rfl, rfl,
    (row_reads_within_buffer (cexSt [0, 1, 0, 2, 39, 16, 0, 3, 1, 2, 3, 4, 5, 6, 7]) none 0 1 3 4 8
      3 4 _ (fun _ => ⟨rfl, rfl⟩) (fun _ hl => by cases hl) (by decide) rfl).2.1,
    (row_reads_within_buffer (cexSt [0, 1, 0, 2, 39, 16, 0, 3, 1, 2, 3, 4, 5, 6, 7]) none 0 1 3 4 8
      3 4 _ (fun _ => ⟨rfl, rfl⟩) (fun _ hl => by cases hl) (by decide) rfl).2.2.1,
    (row_reads_within_buffer (cexSt [0, 1, 0, 2, 39, 16, 0, 3, 1, 2, 3, 4, 5, 6, 7]) none 0 1 3 4 8
      3 4 _ (fun _ => ⟨rfl, rfl⟩) (fun _ hl => by cases hl) (by decide) rfl).2.2.2.2.2⟩

/-! ## C22: the channels written by `writechannels` -/

/-- C22 fails in the code. `writechannels` tests `chcomp[i]` (line 300), not
`chcomp[startchan + i]`.  For the layer `shortLayer`, whose channel 0 decodes as raw and
whose channel 1 (the layer mask, declared length 0) is skipped with result -1, the call
`writechannels(..., startchan = 1, channels = 1, ...)` that `doimage` makes for the extra
channel at position 1 tests `chcomp[0] = 0` and writes the image of channel 1; with the
results the other way round (`chcomp = [-1, 0]`) the image of channel 1 is not written
although that channel was decoded. -/
theorem writechannels_tests_wrong_entry :
    (layerChannelLoop shortLayer 1 1 8 2 0 (cexSt [0, 0, 10])).map (fun x => x.1)
      = .ok [0, -1]
    ∧ (∃ s', writechannels (cexSt []) [0, -1] (some shortLayer) 1 1 1 1 = .ok s'
        ∧ s'.png = [{ startchan := 1, channels := 1, color_type := PNG_COLOR_TYPE_GRAY,
                      rows := 1, cols := 1 }]
        ∧ s'.err = [])
    ∧ (∃ s', writechannels (cexSt []) [-1, 0] (some shortLayer) 1 1 1 1 = .ok s'
        ∧ s'.png = [] ∧ s'.err = [Msg.notWriting (-2)])
    ∧ (∃ l s', layerRecord true { cexSt shortMaskSection with f := FILE.mk shortMaskSection 10 false }
          = .ok (l, s') ∧ l = shortLayer)
    ∧ ∃ s', dolayermaskinfo true ⟨true, false⟩ grayHeader (cexSt shortMaskSection) = .ok s'
        ∧ s'.png = [{ startchan := 0, channels := 1, color_type := PNG_COLOR_TYPE_GRAY,
                      rows := 1, cols := 1 },
                    { startchan := 1, channels := 1, color_type := PNG_COLOR_TYPE_GRAY,
                      rows := 1, cols := 1 }]
        ∧ s'.err = [Msg.channelTooShort 0] :=
  ⟨rfl, ⟨_, rfl, rfl, rfl⟩, ⟨_, rfl, rfl, rfl⟩, ⟨_, _, rfl, rfl⟩, _, rfl, rfl, rfl⟩

end Psdparse
